import Mathlib

/-!
The encoder of percy: the MIG exact-synthesis encoder (`mig_encoder.hpp`)

A shallow embedding of `percy::mig_encoder` and the properties of its CNF encoding.

* C `int` values that are counters, indices and variable ids are natural numbers: the
  embedding is exact as long as no `int` overflows, which holds for every specification that
  fits the table `svars` and has `tt_size = 2 ^ nr_in - 1`.
* The encoder is a state record; a member function `f` of the class is a function
  `mig_encoder → Except Fault (result × mig_encoder)`.
* `Fault` is how a run stops without returning: a failed `assert`, an access outside
  `svars[16][16][16][16]` or `pLits[128]`, or `exit(1)`.
* The SAT solver is a collaborator: `add_clause` records the clause and answers what the
  solver's `accepts` says, `var_value` reads the solver's `model`.
-/

namespace percy

/-! ## Collaborators -/

/-- How a run ends without returning to its caller. -/
inductive Fault where
  | assertion
  | out_of_bounds
  | exited
  deriving DecidableEq, Repr

/-- Modelled from the spec: the solver's literal is a variable id with a polarity; as in
`pabc::Abc_Var2Lit(Var, c)` it is the number `Var + Var + c`, with `c = 1` for the negated
literal. -/
def Abc_Var2Lit (v c : Nat) : Nat := v + v + c

/-- Modelled from the spec: the value of a literal `2 * v + c` under an assignment of the
variables: the value of `v`, complemented when the literal is odd. -/
def lit_value (m : Nat → Bool) (p : Nat) : Bool :=
  if p % 2 = 0 then m (p / 2) else !(m (p / 2))

/-- A clause (a disjunction of literals) holds under `m` when one of its literals does. -/
def clause_sat (m : Nat → Bool) (c : List Nat) : Bool := c.any (lit_value m)

/-- A list of clauses holds under `m` when each clause does. -/
def cnf_sat (m : Nat → Bool) (cs : List (List Nat)) : Bool := cs.all (clause_sat m)

/-- Modelled from the spec: `kitty::get_bit(tt, index)`, bit extraction at a row index of a
truth table; a truth table is the number whose bit `r` is the function's value on row `r`. -/
def get_bit (tt index : Nat) : Nat := (tt >>> index) % 2

/-- Modelled from the spec: the specification object (`percy::spec`): number of primary
inputs, number of steps, `tt_size` (number of non-trivial rows), the target truth tables
`spec[f]`, the selector `synth_func`, the output-inversion flags `out_inv`, the verbosity
level and the number `nr_nontriv` of target functions to synthesize. -/
structure spec where
  nr_in : Nat
  nr_steps : Nat
  tt_size : Nat
  verbosity : Nat
  out_inv : Nat
  functions : Nat → Nat
  synth_func : Nat → Nat
  nr_nontriv : Nat

/-- Modelled from the spec: the SAT solver collaborator (`solver_wrapper`).  `clauses` are the
clauses submitted so far, oldest first; `accepts` is what `add_clause` answers for a clause
given the clauses before it; `model` is what `var_value` answers after a solve. -/
structure solver_wrapper where
  nr_vars : Nat
  clauses : List (List Nat)
  accepts : List (List Nat) → List Nat → Bool
  model : Nat → Bool

/-- Modelled from the spec: `set_nr_vars(n)` declares the variable universe. -/
def solver_wrapper.set_nr_vars (s : solver_wrapper) (n : Nat) : solver_wrapper :=
  { s with nr_vars := n }

/-- Modelled from the spec: `add_clause(begin, end)` submits a disjunction of literals and
returns the solver's answer. -/
def solver_wrapper.add_clause (s : solver_wrapper) (c : List Nat) : Bool × solver_wrapper :=
  (s.accepts s.clauses c, { s with clauses := s.clauses ++ [c] })

/-- Modelled from the spec: `var_value(id)` reads the solved assignment. -/
def solver_wrapper.var_value (s : solver_wrapper) (v : Nat) : Bool := s.model v

/-- Modelled from the spec: the produced circuit (`percy::mig`): a chain of steps, each with
three fanin indices and an opcode, and the output literals. -/
structure mig where
  nr_in : Nat
  steps : List (Nat × Nat × Nat × Nat)
  outputs : List Nat
  deriving DecidableEq, Repr

/-- Modelled from the spec: `chain.reset(nr_in, nr_out, nr_steps)`. -/
def mig.reset (_chain : mig) (nr_in nr_out nr_steps : Nat) : mig :=
  { nr_in := nr_in, steps := List.replicate nr_steps (0, 0, 0, 0),
    outputs := List.replicate nr_out 0 }

/-- Modelled from the spec: `chain.set_step(i, fanin0, fanin1, fanin2, op)`. -/
def mig.set_step (chain : mig) (i f0 f1 f2 op : Nat) : mig :=
  { chain with steps := chain.steps.set i (f0, f1, f2, op) }

/-- Modelled from the spec: `chain.set_output(h, lit)`. -/
def mig.set_output (chain : mig) (h out : Nat) : mig :=
  { chain with outputs := chain.outputs.set h out }

/-! ## The encoder state -/

/-- One recorded invocation of `add_simulation_clause`: `(t, i, j, k, l, a, b, c, d)`. -/
abbrev sim_call := Nat × Nat × Nat × Nat × Nat × Nat × Nat × Nat × Nat

/-- The data members of `mig_encoder` (lines 13-24).  `svars` is the table
`int svars[16][16][16][16]`, its contents before `create_variables` arbitrary.  Two fields
are not data members: `ndebug` says whether `assert` is compiled out, and `calls` is the
history of invocations of `add_simulation_clause`, oldest first. -/
structure mig_encoder where
  nr_sel_vars : Nat
  nr_op_vars : Nat
  nr_sim_vars : Nat
  total_nr_vars : Nat
  sel_offset : Nat
  ops_offset : Nat
  sim_offset : Nat
  svars : Nat → Nat → Nat → Nat → Nat
  solver : solver_wrapper
  ndebug : Bool
  calls : List sim_call

/-- The constant `MIG_OP_VARS_PER_STEP` (line 34). -/
def MIG_OP_VARS_PER_STEP : Nat := 4

/-- The bound of each dimension of `svars` (line 24). -/
def SVARS_DIM : Nat := 16

/-- The number of entries of `pLits` (line 20). -/
def PLITS_SIZE : Nat := 128

/-- `assert(cond)`: a fault unless the condition holds or asserts are compiled out. -/
def assert_ok (e : mig_encoder) (cond : Bool) : Except Fault Unit :=
  if cond || e.ndebug then .ok () else .error Fault.assertion

/-- A read of `svars[i][j][k][l]`; outside the table it is a fault. -/
def svars_read (e : mig_encoder) (i j k l : Nat) : Except Fault Nat :=
  if i < SVARS_DIM ∧ j < SVARS_DIM ∧ k < SVARS_DIM ∧ l < SVARS_DIM then .ok (e.svars i j k l)
  else .error Fault.out_of_bounds

/-- A write `svars[i][j][k][l] = v`; outside the table it is a fault. -/
def svars_write (e : mig_encoder) (i j k l v : Nat) : Except Fault mig_encoder :=
  if i < SVARS_DIM ∧ j < SVARS_DIM ∧ k < SVARS_DIM ∧ l < SVARS_DIM then
    .ok { e with svars := fun i' j' k' l' =>
            if i' = i ∧ j' = j ∧ k' = k ∧ l' = l then v else e.svars i' j' k' l' }
  else .error Fault.out_of_bounds

/-- The call `solver->add_clause(pLits, pLits + ctr)` on the encoder state. -/
def add_clause (e : mig_encoder) (c : List Nat) : Bool × mig_encoder :=
  ((e.solver.add_clause c).1, { e with solver := (e.solver.add_clause c).2 })

/-- Lines 39-42: `get_sim_var`. -/
def get_sim_var (e : mig_encoder) (spec : spec) (step_idx t : Nat) : Nat :=
  e.sim_offset + spec.tt_size * step_idx + t

/-- Lines 44-47: `get_op_var`. -/
def get_op_var (e : mig_encoder) (_spec : spec) (step_idx var_idx : Nat) : Nat :=
  e.ops_offset + step_idx * MIG_OP_VARS_PER_STEP + var_idx

/-! ## Variables -/

/-- Lines 59-90: `create_variables`.  The loops `for i`, `for l = 2 .. nr_in + i`,
`for k = 1 .. l - 1`, `for j = 0 .. k - 1` run in this order; the body stores the running
count at `svars[i][j][k][l]` and increments it. -/
def create_variables (spec : spec) (e : mig_encoder) : Except Fault mig_encoder := do
  let e := { e with nr_op_vars := spec.nr_steps * MIG_OP_VARS_PER_STEP,
                    nr_sim_vars := spec.nr_steps * spec.tt_size,
                    nr_sel_vars := 0 }
  let e ← (List.range spec.nr_steps).foldlM (fun e i =>
    (List.range' 2 (spec.nr_in + i - 1)).foldlM (fun e l =>
      (List.range' 1 (l - 1)).foldlM (fun e k =>
        (List.range k).foldlM (fun e j => do
          let e ← svars_write e i j k l e.nr_sel_vars
          pure { e with nr_sel_vars := e.nr_sel_vars + 1 }) e) e) e) e
  let e := { e with sel_offset := 0,
                    ops_offset := e.nr_sel_vars,
                    sim_offset := e.nr_sel_vars + e.nr_op_vars,
                    total_nr_vars := e.nr_sel_vars + e.nr_op_vars + e.nr_sim_vars }
  pure { e with solver := e.solver.set_nr_vars e.total_nr_vars }

/-! ## Fanin and output clauses -/

/-- The store `pLits[ctr++] = x`, where `ctr` is the number of literals written so far;
a store at index 128 or above is outside the buffer. -/
def pLits_push (pLits : List Nat) (x : Nat) : Except Fault (List Nat) :=
  if pLits.length < PLITS_SIZE then .ok (pLits ++ [x]) else .error Fault.out_of_bounds

/-- Lines 95-127: `create_fanin_clauses`.  For each step the loops collect the positive
literal of every `svars[i][j][k][l]` into `pLits` and submit it as one clause;
`status` is the conjunction of the answers. -/
def create_fanin_clauses (spec : spec) (e : mig_encoder) : Except Fault (Bool × mig_encoder) :=
  (List.range spec.nr_steps).foldlM (fun (se : Bool × mig_encoder) i => do
    let pLits ← (List.range' 2 (spec.nr_in + i - 1)).foldlM (fun pLits l =>
      (List.range' 1 (l - 1)).foldlM (fun pLits k =>
        (List.range k).foldlM (fun pLits j => do
          let v ← svars_read se.2 i j k l
          pLits_push pLits (Abc_Var2Lit v 0)) pLits) pLits) []
    let r := add_clause se.2 pLits
    pure (se.1 && r.1, r.2)) (true, e)

/-- Lines 153-159: the unit literal that both `fix_output_sim_vars(spec, t)` and
`vfix_output_sim_vars(spec, t)` build. -/
def output_sim_lit (spec : spec) (e : mig_encoder) (t : Nat) : Nat :=
  let ilast_step := spec.nr_steps - 1
  let outbit := get_bit (spec.functions (spec.synth_func 0)) (t + 1)
  let outbit := if (spec.out_inv >>> spec.synth_func 0) % 2 ≠ 0 then 1 - outbit else outbit
  let sim_var := get_sim_var e spec ilast_step t
  Abc_Var2Lit sim_var (1 - outbit)

/-- Lines 150-161: `fix_output_sim_vars(spec, t)`. -/
def fix_output_sim_vars_at (spec : spec) (t : Nat) (e : mig_encoder) : Bool × mig_encoder :=
  add_clause e [output_sim_lit spec e t]

/-- Lines 131-140: `fix_output_sim_vars(spec)`. -/
def fix_output_sim_vars (spec : spec) (e : mig_encoder) : Bool × mig_encoder :=
  (List.range spec.tt_size).foldl (fun (re : Bool × mig_encoder) t =>
    let r := fix_output_sim_vars_at spec t re.2
    (re.1 && r.1, r.2)) (true, e)

/-- Lines 163-179: `vfix_output_sim_vars(spec, t)`. -/
def vfix_output_sim_vars_at (spec : spec) (t : Nat) (e : mig_encoder) :
    Except Fault mig_encoder := do
  let r := add_clause e [output_sim_lit spec e t]
  assert_ok r.2 r.1
  pure r.2

/-- Lines 142-147: `vfix_output_sim_vars(spec)`. -/
def vfix_output_sim_vars (spec : spec) (e : mig_encoder) : Except Fault mig_encoder :=
  (List.range spec.tt_size).foldlM (fun e t => vfix_output_sim_vars_at spec t e) e

/-! ## Simulation clauses -/

/-- Lines 181-190: `maj3`.  On a bit `x`, `(ca ? ~x : x) & 1` is `(x + 1) % 2` when `ca` is
set and `x % 2` otherwise. -/
def maj3 (a ca b cb c cc : Nat) : Nat :=
  let a := if ca ≠ 0 then (a + 1) % 2 else a % 2
  let b := if cb ≠ 0 then (b + 1) % 2 else b % 2
  let c := if cc ≠ 0 then (c + 1) % 2 else c % 2
  (a &&& b) ||| (a &&& c) ||| (b &&& c)

/-- The expression `((t + 1) & (1 << (p - 1))) ? 1 : 0` (lines 210, 219, 256, 265, 274). -/
def input_bit (t p : Nat) : Nat :=
  if (t + 1) &&& (1 <<< (p - 1)) ≠ 0 then 1 else 0

/-- The block repeated for each fanin `p` with hypothesised value `v` (lines 209-216,
218-225, 255-262, 264-271, 273-280): for a primary input, `none` (the function returns
true at once) when the row's bit differs from `v` and no literal otherwise; for a step, the
literal of its simulation variable. -/
def fanin_lits (spec : spec) (e : mig_encoder) (t p v : Nat) : Option (List Nat) :=
  if p ≤ spec.nr_in then
    if input_bit t p ≠ v then none else some []
  else some [Abc_Var2Lit (get_sim_var e spec (p - spec.nr_in - 1) t) v]

/-- The four tests `if (maj3(x, .., y, .., z, ..) == a) pLits[ctr++] = op literal`
(lines 231-246 with `x = 0`, lines 286-301 with `x = b`). -/
def op_lits (spec : spec) (e : mig_encoder) (i x y z a : Nat) : List Nat :=
  (if maj3 x 0 y 0 z 0 = a then [Abc_Var2Lit (get_op_var e spec i 0) 0] else []) ++
  (if maj3 x 1 y 0 z 0 = a then [Abc_Var2Lit (get_op_var e spec i 1) 0] else []) ++
  (if maj3 x 0 y 1 z 0 = a then [Abc_Var2Lit (get_op_var e spec i 2) 0] else []) ++
  (if maj3 x 0 y 0 z 1 = a then [Abc_Var2Lit (get_op_var e spec i 3) 0] else [])

/-- Lines 192-307: `add_simulation_clause`.  At most nine literals are stored in `pLits`.
The invocation is recorded in `calls`. -/
def add_simulation_clause (spec : spec) (t i j k l a b c d : Nat) (e : mig_encoder) :
    Except Fault (Bool × mig_encoder) :=
  let e := { e with calls := e.calls ++ [(t, i, j, k, l, a, b, c, d)] }
  if j = 0 then
    match fanin_lits spec e t k c with
    | none => .ok (true, e)
    | some lk =>
      match fanin_lits spec e t l d with
      | none => .ok (true, e)
      | some ll => do
        let s ← svars_read e i j k l
        let pLits := lk ++ ll ++ [Abc_Var2Lit s 1, Abc_Var2Lit (get_sim_var e spec i t) a] ++
          (if c ||| d ≠ 0 then op_lits spec e i 0 c d a else [])
        let r0 := add_clause e pLits
        let r := add_clause r0.2 pLits
        assert_ok r.2 r.1
        pure r
  else
    match fanin_lits spec e t j b with
    | none => .ok (true, e)
    | some lj =>
      match fanin_lits spec e t k c with
      | none => .ok (true, e)
      | some lk =>
        match fanin_lits spec e t l d with
        | none => .ok (true, e)
        | some ll => do
          let s ← svars_read e i j k l
          let pLits := lj ++ lk ++ ll ++
            [Abc_Var2Lit s 1, Abc_Var2Lit (get_sim_var e spec i t) a] ++
            (if b ||| c ||| d ≠ 0 then op_lits spec e i b c d a else [])
          let r := add_clause e pLits
          assert_ok r.2 r.1
          pure r

/-- The statement `ret &= add_simulation_clause(spec, t, i, j, k, l, a, b, c, d)`. -/
def sim_step (spec : spec) (t i j k l a b c d : Nat) (re : Bool × mig_encoder) :
    Except Fault (Bool × mig_encoder) := do
  let r ← add_simulation_clause spec t i j k l a b c d re.2
  pure (re.1 && r.1, r.2)

/-- Lines 431-445: the body of the innermost loop of `create_tt_clauses`. -/
def tt_body (spec : spec) (t i j k l : Nat) (re : Bool × mig_encoder) :
    Except Fault (Bool × mig_encoder) := do
  let re ← sim_step spec t i j k l 0 0 0 1 re
  let re ← sim_step spec t i j k l 0 0 1 0 re
  let re ← sim_step spec t i j k l 0 0 1 1 re
  let re ← sim_step spec t i j k l 0 1 0 0 re
  let re ← sim_step spec t i j k l 0 1 0 1 re
  let re ← sim_step spec t i j k l 0 1 1 0 re
  let re ← sim_step spec t i j k l 0 1 1 1 re
  let re ← sim_step spec t i j k l 1 0 0 0 re
  let re ← sim_step spec t i j k l 1 0 0 1 re
  let re ← sim_step spec t i j k l 1 0 1 0 re
  let re ← sim_step spec t i j k l 1 0 1 1 re
  let re ← sim_step spec t i j k l 1 1 0 0 re
  let re ← sim_step spec t i j k l 1 1 0 1 re
  let re ← sim_step spec t i j k l 1 1 1 0 re
  sim_step spec t i j k l 1 1 1 1 re

/-- Lines 424-453: `create_tt_clauses`. -/
def create_tt_clauses (spec : spec) (t : Nat) (e : mig_encoder) :
    Except Fault (Bool × mig_encoder) :=
  (List.range spec.nr_steps).foldlM (fun (re : Bool × mig_encoder) i => do
    let re ← (List.range' 2 (spec.nr_in + i - 1)).foldlM (fun re l =>
      (List.range' 1 (l - 1)).foldlM (fun re k =>
        (List.range k).foldlM (fun re j => tt_body spec t i j k l re) re) re) re
    assert_ok re.2 re.1
    pure re) (true, e)

/-- Lines 455-460: `create_main_clauses`. -/
def create_main_clauses (spec : spec) (e : mig_encoder) : Except Fault mig_encoder :=
  (List.range spec.tt_size).foldlM (fun e t => do
    let re ← create_tt_clauses spec t e
    pure re.2) e

/-- Lines 561-588: `encode`. -/
def encode (spec : spec) (e : mig_encoder) : Except Fault (Bool × mig_encoder) := do
  assert_ok e (decide (spec.nr_in ≥ 3))
  let e ← create_variables spec e
  let e ← create_main_clauses spec e
  let e ← vfix_output_sim_vars spec e
  let se ← create_fanin_clauses spec e
  if !se.1 then pure (false, se.2) else pure (true, se.2)

/-! ## Decoding -/

/-- Lines 606-611: the scan of the operation variables of step `i`, leaving at the first
one that is true; `op` keeps its initial value when none is. -/
def scan_op (spec : spec) (e : mig_encoder) (i : Nat) : List Nat → Nat → Nat
  | [], op => op
  | j :: js, op =>
    if e.solver.var_value (get_op_var e spec i j) then j else scan_op spec e i js op

/-- Lines 638-646: the innermost loop over `j`, left by `break` at the first selection
variable that is true. -/
def scan_j (e : mig_encoder) (i k l : Nat) :
    List Nat → Nat × Nat × Nat → Except Fault (Nat × Nat × Nat)
  | [], op_inputs => .ok op_inputs
  | j :: js, op_inputs => do
    let sel_var ← svars_read e i j k l
    if e.solver.var_value sel_var then pure (j, k, l) else scan_j e i k l js op_inputs

/-- Lines 598-656: `extract_mig`.  `op_inputs` is declared before the loop over the steps
and keeps its contents from one step to the next. -/
def extract_mig (spec : spec) (e : mig_encoder) (chain : mig) : Except Fault mig := do
  let chain := chain.reset spec.nr_in 1 spec.nr_steps
  let r ← (List.range spec.nr_steps).foldlM (fun (st : (Nat × Nat × Nat) × mig) i => do
    let op := scan_op spec e i (List.range MIG_OP_VARS_PER_STEP) 0
    if spec.verbosity ≠ 0 ∧ ¬ op < 4 then throw Fault.exited
    let op_inputs ← (List.range' 2 (spec.nr_in + i - 1)).foldlM (fun op_inputs l =>
      (List.range' 1 (l - 1)).foldlM (fun op_inputs k =>
        scan_j e i k l (List.range k) op_inputs) op_inputs) st.1
    pure (op_inputs, st.2.set_step i op_inputs.1 op_inputs.2.1 op_inputs.2.2 op))
    ((0, 0, 0), chain)
  pure (r.2.set_output 0 (((spec.nr_steps + spec.nr_in) <<< 1) + (spec.out_inv &&& 1)))

/-! ## Notions the properties are stated with -/

/-- The wirings `(j, k, l)` of step `i` in the order of the loops `for l = 2 .. nr_in + i`,
`for k = 1 .. l - 1`, `for j = 0 .. k - 1`. -/
def wirings (nr_in i : Nat) : List (Nat × Nat × Nat) :=
  (List.range' 2 (nr_in + i - 1)).flatMap fun l =>
    (List.range' 1 (l - 1)).flatMap fun k => (List.range k).map fun j => (j, k, l)

/-- The tuples `(i, j, k, l)` of all steps, in loop order. -/
def sel_tuples (spec : spec) : List (Nat × Nat × Nat × Nat) :=
  (List.range spec.nr_steps).flatMap fun i =>
    (wirings spec.nr_in i).map fun w => (i, w.1, w.2.1, w.2.2)

/-- The specification fits the table `svars[16][16][16][16]`: every step index and every
fanin index the loops reach is below 16. -/
def fits_table (spec : spec) : Prop :=
  spec.nr_steps ≤ 16 ∧ spec.nr_in + spec.nr_steps - 1 ≤ 15

/-- The body of the innermost loop of `create_variables` on a tuple `(i, j, k, l)`. -/
def var_body (e : mig_encoder) (x : Nat × Nat × Nat × Nat) : Except Fault mig_encoder := do
  let e ← svars_write e x.1 x.2.1 x.2.2.1 x.2.2.2 e.nr_sel_vars
  pure { e with nr_sel_vars := e.nr_sel_vars + 1 }

/-- The tuple `(i, j, k, l)` is a step of the specification with a wiring valid for it:
`0 ≤ i < nr_steps` and `0 ≤ j < k < l ≤ nr_in + i`. -/
def valid_sel (spec : spec) (i j k l : Nat) : Prop :=
  i < spec.nr_steps ∧ j < k ∧ k < l ∧ l ≤ spec.nr_in + i

/-- An encoder whose solver has no clause yet, accepts every clause and holds the
assignment `m`; its counters are zero and its table is zeroed. -/
def fresh (m : Nat → Bool) : mig_encoder :=
  { nr_sel_vars := 0, nr_op_vars := 0, nr_sim_vars := 0, total_nr_vars := 0, sel_offset := 0,
    ops_offset := 0, sim_offset := 0, svars := fun _ _ _ _ => 0,
    solver := { nr_vars := 0, clauses := [], accepts := fun _ _ => true, model := m },
    ndebug := false, calls := [] }

/-- The specification of one step over three inputs for the truth table `tt`, without
output inversion (`tt_size = 2 ^ 3 - 1`). -/
def spec3 (tt : Nat) : spec :=
  { nr_in := 3, nr_steps := 1, tt_size := 7, verbosity := 0, out_inv := 0,
    functions := fun _ => tt, synth_func := fun _ => 0, nr_nontriv := 1 }

/-- The body of the innermost loop of `create_fanin_clauses` on a wiring `(j, k, l)`. -/
def fanin_body (e : mig_encoder) (i : Nat) (pLits : List Nat) (w : Nat × Nat × Nat) :
    Except Fault (List Nat) := do
  let v ← svars_read e i w.1 w.2.1 w.2.2
  pLits_push pLits (Abc_Var2Lit v 0)

/-- The clause of step `i` made of the positive literal of `svars[i][j][k][l]` for every
wiring of the step. -/
def fanin_clause (e : mig_encoder) (nr_in i : Nat) : List Nat :=
  (wirings nr_in i).map fun w => Abc_Var2Lit (e.svars i w.1 w.2.1 w.2.2) 0

/-- The statement `ret &= fix_output_sim_vars(spec, t)` of the loop of
`fix_output_sim_vars(spec)`. -/
def fix_output_step (spec : spec) (re : Bool × mig_encoder) (t : Nat) : Bool × mig_encoder :=
  ((re.1 && (fix_output_sim_vars_at spec t re.2).1), (fix_output_sim_vars_at spec t re.2).2)

/-- The majority of three bits with input `o` inverted (`o = 1`: the first, `o = 2`: the
second, `o = 3`: the third, `o = 0`: none), as the operators `<abc>`, `<!abc>`, `<a!bc>`,
`<ab!c>` of lines 26-30 are told. -/
def maj_op (o : Nat) (x y z : Bool) : Bool :=
  let x := if o = 1 then !x else x
  let y := if o = 2 then !y else y
  let z := if o = 3 then !z else z
  (x && y) || (x && z) || (y && z)

/-- The encoder after `create_variables` on a fresh encoder holding the assignment `m`
(the fresh encoder itself if `create_variables` faults). -/
def prepared (spec : spec) (m : Nat → Bool) : mig_encoder :=
  match create_variables spec (fresh m) with
  | .ok e => e
  | .error _ => fresh m

/-- What a run returned and the clauses the solver holds after it; `none` for a fault. -/
def run_clauses (r : Except Fault (Bool × mig_encoder)) : Option (Bool × List (List Nat)) :=
  match r with
  | .ok x => some (x.1, x.2.solver.clauses)
  | .error _ => none

/-- The contents of `pLits` when `add_simulation_clause` reaches `add_clause` (lines 249
and 304), read off lines 207-247 and 255-302; `none` when the function returns before. -/
def sim_pLits (spec : spec) (e : mig_encoder) (t i j k l a b c d : Nat) : Option (List Nat) :=
  if j = 0 then
    (fanin_lits spec e t k c).bind fun lk =>
      (fanin_lits spec e t l d).map fun ll =>
        lk ++ ll ++ [Abc_Var2Lit (e.svars i j k l) 1, Abc_Var2Lit (get_sim_var e spec i t) a] ++
          (if c ||| d ≠ 0 then op_lits spec e i 0 c d a else [])
  else
    (fanin_lits spec e t j b).bind fun lj =>
      (fanin_lits spec e t k c).bind fun lk =>
        (fanin_lits spec e t l d).map fun ll =>
          lj ++ lk ++ ll ++
            [Abc_Var2Lit (e.svars i j k l) 1, Abc_Var2Lit (get_sim_var e spec i t) a] ++
            (if b ||| c ||| d ≠ 0 then op_lits spec e i b c d a else [])

/-- The clauses the solver holds after `encode` on a fresh encoder (none if `encode`
faults). -/
def encode_clauses (spec : spec) : List (List Nat) :=
  match encode spec (fresh fun _ => false) with
  | .ok r => r.2.solver.clauses
  | .error _ => []

/-- The chain `extract_mig` returns after `encode` on a fresh encoder whose solver holds the
assignment `m`; `none` if either faults. -/
def decoded (spec : spec) (m : Nat → Bool) : Option mig :=
  match encode spec (fresh m) with
  | .ok r =>
    match extract_mig spec r.2 ⟨0, [], []⟩ with
    | .ok chain => some chain
    | .error _ => none
  | .error _ => none

/-- The invocations of `add_simulation_clause` recorded after a run; `none` for a fault. -/
def run_calls (r : Except Fault (Bool × mig_encoder)) : Option (List sim_call) :=
  match r with
  | .ok x => some x.2.calls
  | .error _ => none

/-- The values of the signals of a chain on row `r`, by signal index: the constant 0, the
primary inputs `1 .. nr_in` (input `p` is bit `p - 1` of `r`), then the steps in order, step
`(j, k, l, o)` being the majority of signals `j, k, l` with input `o` inverted. -/
def chain_signals (nr_in : Nat) (steps : List (Nat × Nat × Nat × Nat)) (r : Nat) : List Bool :=
  steps.foldl (fun vals s =>
      vals ++ [maj_op s.2.2.2 (vals.getD s.1 false) (vals.getD s.2.1 false)
        (vals.getD s.2.2.1 false)])
    (false :: (List.range nr_in).map fun p => r.testBit p)

/-- The value of output 0 of a chain on row `r`: the output literal is twice the signal
index plus the inversion bit (lines 653-655). -/
def chain_output (chain : mig) (r : Nat) : Bool :=
  let out := chain.outputs.getD 0 0
  xor ((chain_signals chain.nr_in chain.steps r).getD (out >>> 1) false) (out % 2 == 1)

/-- The assignment read off a chain: true exactly on the selection variable of each
step's wiring, on the operation variable of each step's opcode, and on the simulation
variables `V[i][t]` of the rows `t + 1` on which step `i` evaluates to 1. -/
def chain_assignment (spec : spec) (e : mig_encoder) (steps : List (Nat × Nat × Nat × Nat))
    (v : Nat) : Bool :=
  (List.range steps.length).any fun i =>
    match steps.get? i with
    | none => false
    | some s =>
      v == e.svars i s.1 s.2.1 s.2.2.1 || v == get_op_var e spec i s.2.2.2 ||
      (List.range spec.tt_size).any fun t =>
        v == get_sim_var e spec i t &&
          (chain_signals spec.nr_in steps (t + 1)).getD (spec.nr_in + 1 + i) false

/-- An assignment for the target `x1 XOR x2 XOR x3` (truth table 150): the selection
variable of wiring `(1, 2, 3)`, all four operation variables, and the simulation variables
of the rows 1, 2, 4, 7. -/
def xor3_model (v : Nat) : Bool := decide (v ∈ [3, 4, 5, 6, 7, 8, 9, 11, 14])

/-- No assertion on the answers of the solver can fail from this state on: asserts are
compiled out, or the answers so far are all true and the solver accepts every clause. -/
def no_assert_fails (re : Bool × mig_encoder) : Prop :=
  re.2.ndebug = true ∨ (re.1 = true ∧ ∀ cs cl, re.2.solver.accepts cs cl = true)

/-- The values `(a, b, c, d)` of the fifteen calls of lines 431-445, in order. -/
def tt_combos : List (Nat × Nat × Nat × Nat) :=
  [(0, 0, 0, 1), (0, 0, 1, 0), (0, 0, 1, 1), (0, 1, 0, 0), (0, 1, 0, 1), (0, 1, 1, 0),
   (0, 1, 1, 1), (1, 0, 0, 0), (1, 0, 0, 1), (1, 0, 1, 0), (1, 0, 1, 1), (1, 1, 0, 0),
   (1, 1, 0, 1), (1, 1, 1, 0), (1, 1, 1, 1)]

/-- The invocations of `add_simulation_clause` that `create_tt_clauses(spec, t)` makes for
the wiring `(j, k, l)` of step `i`, in order. -/
def tt_body_calls (t i j k l : Nat) : List sim_call :=
  tt_combos.map fun q => (t, i, j, k, l, q.1, q.2.1, q.2.2.1, q.2.2.2)

/-- The invocations of `add_simulation_clause` that `create_tt_clauses(spec, t)` makes, in
the order of its loops. -/
def tt_calls (spec : spec) (t : Nat) : List sim_call :=
  (List.range spec.nr_steps).flatMap fun i =>
    (List.range' 2 (spec.nr_in + i - 1)).flatMap fun l =>
      (List.range' 1 (l - 1)).flatMap fun k =>
        (List.range k).flatMap fun j => tt_body_calls t i j k l

/-! ## `misc.hpp` -/

/-- Lines 35-41 of `misc.hpp`: the loop `for (int i = FI-1; i >= 0; i--)` of the
`std::array` overload of `colex_compare`, with `n` positions (`n - 1` down to `0`) left to
compare. -/
def colex_loop {α : Type} [LinearOrder α] {FI : Nat} (fanins1 fanins2 : Fin FI → α) :
    (n : Nat) → n ≤ FI → Int
  | 0, _ => 0
  | n + 1, h =>
    if fanins1 ⟨n, h⟩ < fanins2 ⟨n, h⟩ then -1
    else if fanins1 ⟨n, h⟩ > fanins2 ⟨n, h⟩ then 1
    else colex_loop fanins1 fanins2 n (Nat.le_of_succ_le h)

/-- Lines 29-45 of `misc.hpp`: `colex_compare` on two `std::array<fanin, FI>`. -/
def colex_compare {α : Type} [LinearOrder α] (FI : Nat) (fanins1 fanins2 : Fin FI → α) : Int :=
  colex_loop fanins1 fanins2 FI (Nat.le_refl FI)

/-- Lines 51-57 of `misc.hpp`: the loop of the pointer overload; a pointer is the map from
an offset to the element stored there. -/
def colex_loop_ptr {α : Type} [LinearOrder α] (fanins1 fanins2 : Nat → α) : Nat → Int
  | 0 => 0
  | n + 1 =>
    if fanins1 n < fanins2 n then -1
    else if fanins1 n > fanins2 n then 1
    else colex_loop_ptr fanins1 fanins2 n

/-- Lines 47-61 of `misc.hpp`: `colex_compare` on two `const fanin*`. -/
def colex_compare_ptr {α : Type} [LinearOrder α] (FI : Nat) (fanins1 fanins2 : Nat → α) : Int :=
  colex_loop_ptr fanins1 fanins2 FI

/-- The colexicographic order on arrays of length `FI`: `x` is smaller than `y` when, at the
highest index at which they differ, the element of `x` is the smaller one. -/
def colex_lt {α : Type} [LinearOrder α] {FI : Nat} (x y : Fin FI → α) : Prop :=
  ∃ i : Fin FI, x i < y i ∧ ∀ j : Fin FI, i < j → x j = y j

/-- The chain `extract_mig` returns on the encoder prepared by `create_variables` whose
solver holds the assignment `m`; `none` for a fault. -/
def extracted (spec : spec) (m : Nat → Bool) : Option mig :=
  match extract_mig spec (prepared spec m) ⟨0, [], []⟩ with
  | .ok chain => some chain
  | .error _ => none

/-- The fault a run ended with; `none` when it returned. -/
def fault_of {α : Type} (r : Except Fault α) : Option Fault :=
  match r with
  | .ok _ => none
  | .error f => some f

/-- A specification of one step over `n` inputs for the truth table `tt`, without output
inversion (`tt_size = 2 ^ n - 1`). -/
def spec_in (n tt : Nat) : spec :=
  { nr_in := n, nr_steps := 1, tt_size := 2 ^ n - 1, verbosity := 0, out_inv := 0,
    functions := fun _ => tt, synth_func := fun _ => 0, nr_nontriv := 1 }

/-- Lines 636-648: the loops over `l` and `k` around the scan over `j`, started with the
contents `op_inputs` has at that point. -/
def wiring_loops (spec : spec) (e : mig_encoder) (i : Nat) (op_inputs : Nat × Nat × Nat) :
    Except Fault (Nat × Nat × Nat) :=
  (List.range' 2 (spec.nr_in + i - 1)).foldlM (fun op_inputs l =>
    (List.range' 1 (l - 1)).foldlM (fun op_inputs k =>
      scan_j e i k l (List.range k) op_inputs) op_inputs) op_inputs

/-- Lines 604-650: the body of the loop of `extract_mig` over the steps, on the pair of the
contents of `op_inputs` and the chain. -/
def extract_body (spec : spec) (e : mig_encoder) (st : (Nat × Nat × Nat) × mig) (i : Nat) :
    Except Fault ((Nat × Nat × Nat) × mig) := do
  let op := scan_op spec e i (List.range MIG_OP_VARS_PER_STEP) 0
  if spec.verbosity ≠ 0 ∧ ¬ op < 4 then throw Fault.exited
  let op_inputs ← wiring_loops spec e i st.1
  pure (op_inputs, st.2.set_step i op_inputs.1 op_inputs.2.1 op_inputs.2.2 op)

/-! ## Symmetry breaking -/

/-- The store of a negated selection literal of step `i` into `pLits` (lines 480, 488,
493). -/
def colex_push (e : mig_encoder) (i jp kp lp : Nat) (pLits : List Nat) :
    Except Fault (List Nat) := do
  let s ← svars_read e i jp kp lp
  pLits_push pLits (Abc_Var2Lit s 1)

/-- Lines 473-496: the body of the innermost loop of `create_colex_clauses` for the indices
`(i, j, k, l)`: the clause of the negated literal of `svars[i][j][k][l]` followed by the
negated literals of `svars[i + 1][jp][kp][lp]` for `lp < l`, then for `lp = l` and `kp < k`,
then for `lp = l`, `kp = k` and `jp < j`. -/
def colex_body (e : mig_encoder) (i j k l : Nat) : Except Fault mig_encoder := do
  let pLits ← colex_push e i j k l []
  let pLits ← (List.range' 2 (l - 2)).foldlM (fun pLits lp =>
    (List.range' 1 (lp - 1)).foldlM (fun pLits kp =>
      (List.range kp).foldlM (fun pLits jp => colex_push e (i + 1) jp kp lp pLits) pLits) pLits)
    pLits
  let pLits ← (List.range' 1 (k - 1)).foldlM (fun pLits kp =>
    (List.range kp).foldlM (fun pLits jp => colex_push e (i + 1) jp kp l pLits) pLits) pLits
  let pLits ← (List.range j).foldlM (fun pLits jp => colex_push e (i + 1) jp k l pLits) pLits
  let r := add_clause e pLits
  assert_ok r.2 r.1
  pure r.2

/-- Lines 467-501: `create_colex_clauses`; the innermost loop runs `for (j = 0; j < l; j++)`. -/
def create_colex_clauses (spec : spec) (e : mig_encoder) : Except Fault mig_encoder :=
  (List.range (spec.nr_steps - 1)).foldlM (fun e i =>
    (List.range' 2 (spec.nr_in + i - 1)).foldlM (fun e l =>
      (List.range' 1 (l - 1)).foldlM (fun e k =>
        (List.range l).foldlM (fun e j => colex_body e i j k l) e) e) e) e

/-- The specification of `s` steps over `n` inputs for the truth table `tt`, without output
inversion (`tt_size = 2 ^ n - 1`). -/
def spec_of (n s tt : Nat) : spec :=
  { nr_in := n, nr_steps := s, tt_size := 2 ^ n - 1, verbosity := 0, out_inv := 0,
    functions := fun _ => tt, synth_func := fun _ => 0, nr_nontriv := 1 }

/-- The clauses the solver holds after `create_colex_clauses` on the encoder prepared by
`create_variables` (none for a fault). -/
def colex_clauses (spec : spec) : List (List Nat) :=
  match create_colex_clauses spec (prepared spec fun _ => false) with
  | .ok e => e.solver.clauses
  | .error _ => []

/-- The fanin array `{j, k, l}` of a step. -/
def fanin_array (j k l : Nat) : Fin 3 → Nat :=
  fun i => if i.val = 0 then j else if i.val = 1 then k else l

/-- An assignment for four inputs and the target `MAJ(x1, x2, x3)` (truth table 59624): the
selection variables 3 (`S[0][1][2][3]`) and 6 (`S[0][1][2][4]`), all four operation
variables (10 to 13), and the simulation variables of the rows on which the target is 1. -/
def two_sel_model (v : Nat) : Bool :=
  decide (v ∈ [3, 6, 10, 11, 12, 13, 16, 18, 19, 20, 24, 26, 27, 28])

/-! ## The clauses of a whole run -/

/-- The clauses one invocation `(t, i, j, k, l, a, b, c, d)` of `add_simulation_clause`
submits: none when it returns early, the contents of `pLits` once, or twice when `j = 0`
(lines 249-250). -/
def call_clauses (spec : spec) (e : mig_encoder) (x : sim_call) : List (List Nat) :=
  match sim_pLits spec e x.1 x.2.1 x.2.2.1 x.2.2.2.1 x.2.2.2.2.1 x.2.2.2.2.2.1
      x.2.2.2.2.2.2.1 x.2.2.2.2.2.2.2.1 x.2.2.2.2.2.2.2.2 with
  | none => []
  | some p => if x.2.2.1 = 0 then [p, p] else [p]

/-- The encoder `e0` after the invocations `K` of `add_simulation_clause`: they are added
to the history and their clauses to the solver. -/
def after_calls (spec : spec) (e0 : mig_encoder) (K : List sim_call) : mig_encoder :=
  { e0 with calls := e0.calls ++ K,
            solver := { e0.solver with
              clauses := e0.solver.clauses ++ K.flatMap (call_clauses spec e0) } }

/-- The invocations of `add_simulation_clause` that `create_main_clauses` makes. -/
def main_calls (spec : spec) : List sim_call :=
  (List.range spec.tt_size).flatMap (tt_calls spec)

/-- Line 458: the statement `(void)create_tt_clauses(spec, t);` of the loop of
`create_main_clauses`. -/
def main_step (spec : spec) (e : mig_encoder) (t : Nat) : Except Fault mig_encoder := do
  let re ← create_tt_clauses spec t e
  pure re.2

/-- The encoder `e` after the clauses `cs` have been submitted. -/
def with_clauses (e : mig_encoder) (cs : List (List Nat)) : mig_encoder :=
  { e with solver := { e.solver with clauses := e.solver.clauses ++ cs } }

/-- Lines 563-567: `encode` up to the call of `create_fanin_clauses`. -/
def encode_head (spec : spec) (e : mig_encoder) : Except Fault mig_encoder := do
  assert_ok e (decide (spec.nr_in ≥ 3))
  let e ← create_variables spec e
  let e ← create_main_clauses spec e
  vfix_output_sim_vars spec e

/-- The encoder when `encode` reaches the fanin phase, `e1` being the encoder after
`create_variables`: the invocations and clauses of `create_main_clauses`, then the unit
clauses of `vfix_output_sim_vars`. -/
def before_fanin (spec : spec) (e1 : mig_encoder) : mig_encoder :=
  with_clauses (after_calls spec e1 (main_calls spec))
    ((List.range spec.tt_size).map fun t => [output_sim_lit spec e1 t])

/-- Lines 105-113: the body of the loop of `create_fanin_clauses` over the steps. -/
def fanin_outer_body (spec : spec) (se : Bool × mig_encoder) (i : Nat) :
    Except Fault (Bool × mig_encoder) := do
  let pLits ← (List.range' 2 (spec.nr_in + i - 1)).foldlM (fun pLits l =>
    (List.range' 1 (l - 1)).foldlM (fun pLits k =>
      (List.range k).foldlM (fun pLits j => do
        let v ← svars_read se.2 i j k l
        pLits_push pLits (Abc_Var2Lit v 0)) pLits) pLits) []
  let r := add_clause se.2 pLits
  pure (se.1 && r.1, r.2)

/-- A fresh encoder whose solver answers false for the clause `bad` and true for every
other clause; `ndebug` says whether asserts are compiled out. -/
def picky (ndebug : Bool) (bad : List Nat) : mig_encoder :=
  { fresh (fun _ => false) with
    ndebug := ndebug,
    solver := { nr_vars := 0, clauses := [], accepts := fun _ cl => decide (cl ≠ bad),
                model := fun _ => false } }

/-! ## Binomial coefficients -/

/-- The value an `int` holds after an addition whose exact result is `z`: the result
reduced to 32 bits in two's complement (`z` itself when it fits). -/
def int_wrap (z : Int) : Int := (z + 2 ^ 31) % 2 ^ 32 - 2 ^ 31

/-- The store `C[i][j] = ...` of lines 14-18 of `misc.hpp` into the table `C` of `int`, an
entry of which holds no value (`none`) until it is stored into; the sum of line 17 has a
value only when both entries it reads have one, and is taken in `int`. -/
def binomial_store (C : Nat → Nat → Option Int) (i j : Nat) : Nat → Nat → Option Int :=
  fun i' j' =>
    if i' = i ∧ j' = j then
      (if j = 0 ∨ j = i then some 1
       else (C (i - 1) (j - 1)).bind fun x => (C (i - 1) j).map fun y => int_wrap (x + y))
    else C i' j'

/-- Lines 6-23 of `misc.hpp`: `binomial_coeff`.  The local table `int C[n+1][k+1]` is not
initialised; the loops run `i = 0 .. n` and `j = 0 .. min(i, k)`, and the result is the
entry `C[n][k]`, which holds no value when no iteration stored into it. -/
def binomial_coeff (n k : Nat) : Option Int :=
  ((List.range (n + 1)).foldl (fun C i =>
    (List.range (min i k + 1)).foldl (fun C j => binomial_store C i j) C)
    (fun _ _ => none)) n k

/-- The sum of `C(nr_in + i' + 1, 3)` over the steps `i' < i`: the number of selection
variables of the steps before step `i`. -/
def sel_before (nr_in i : Nat) : Nat :=
  ∑ i' ∈ Finset.range i, (nr_in + i' + 1).choose 3

/-- The closed form of the id of the selection variable of `(i, j, k, l)`. -/
def sel_id (nr_in : Nat) (x : Nat × Nat × Nat × Nat) : Nat :=
  sel_before nr_in x.1 + x.2.2.2.choose 3 + x.2.2.1.choose 2 + x.2.1

/-! ## Gate semantics -/

/-- The value of signal `p` on row `t` under the assignment `m`: a primary input
`1 ≤ p ≤ nr_in` has the value of bit `p - 1` of `t + 1`, a step signal `p > nr_in` the value
of the simulation variable of step `p - nr_in - 1` at row `t`. -/
def signal_value (spec : spec) (e : mig_encoder) (m : Nat → Bool) (t p : Nat) : Bool :=
  if p ≤ spec.nr_in then (t + 1).testBit (p - 1)
  else m (get_sim_var e spec (p - spec.nr_in - 1) t)

/-- The clause of the call with values `q = (a, b, c, d)` is falsified when the three
signals have the values `b, c, d`, the output has the value `a` and the operation `o` does
not produce `a` from `(b, c, d)` (or `b, c, d` are all 0, when the clause has no operation
literal). -/
def call_falsified (V sj sk sl : Bool) (o : Nat) (q : Nat × Nat × Nat × Nat) : Prop :=
  sj = decide (q.2.1 = 1) ∧ sk = decide (q.2.2.1 = 1) ∧ sl = decide (q.2.2.2 = 1) ∧
    V = decide (q.1 = 1) ∧
    ¬ (¬ (q.2.1 = 0 ∧ q.2.2.1 = 0 ∧ q.2.2.2 = 0) ∧
       maj_op o (decide (q.2.1 = 1)) (decide (q.2.2.1 = 1)) (decide (q.2.2.2 = 1))
         = decide (q.1 = 1))

instance call_falsified_dec (V sj sk sl : Bool) (o : Nat) (q : Nat × Nat × Nat × Nat) :
    Decidable (call_falsified V sj sk sl o q) := by
  unfold call_falsified
  infer_instance

/-- The contents of `pLits` when the invocation `x = (t, i, j, k, l, a, b, c, d)` of
`add_simulation_clause` reaches `add_clause`; `none` when it returns before (the combination
is skipped). -/
def call_pLits (spec : spec) (e : mig_encoder) (x : sim_call) : Option (List Nat) :=
  sim_pLits spec e x.1 x.2.1 x.2.2.1 x.2.2.2.1 x.2.2.2.2.1 x.2.2.2.2.2.1
    x.2.2.2.2.2.2.1 x.2.2.2.2.2.2.2.1 x.2.2.2.2.2.2.2.2

/-! ## Symmetric-variable clauses -/

/-- Modelled from the spec: the row obtained from row `r` by exchanging the values of the
variables `a` and `b` (bits `a` and `b` of `r`). -/
def swap_row (a b r : Nat) : Nat :=
  if r.testBit a = r.testBit b then r else r ^^^ (2 ^ a + 2 ^ b)

/-- Modelled from the spec: `kitty::swap(tt, a, b)`, the truth table over `nr_in` variables
in which the variables `a` and `b` are exchanged: its bit on row `r` is the bit of `tt` on
the row with the bits `a` and `b` of `r` exchanged. -/
def swap (nr_in tt a b : Nat) : Nat :=
  (List.range (2 ^ nr_in)).foldl (fun acc r => acc + get_bit tt (swap_row a b r) * 2 ^ r) 0

/-- Modelled from the spec: the equality test of two truth tables over `nr_in` variables:
they agree on every row. -/
def tt_equal (nr_in x y : Nat) : Bool :=
  (List.range (2 ^ nr_in)).all fun r => get_bit x r == get_bit y r

/-- Lines 507-514: the flag `symm` after the loop over the functions to synthesize: every
one of them is unchanged by the exchange of the inputs `p` and `q`. -/
def symm (spec : spec) (p q : Nat) : Bool :=
  (List.range spec.nr_nontriv).all fun i =>
    let f := spec.functions (spec.synth_func i)
    tt_equal spec.nr_in (swap spec.nr_in f (p - 1) (q - 1)) f

/-- Lines 523-541: the body of the innermost loop over `j` of `create_symvar_clauses`.  The
first component of the state says that the function has already returned false, after
which nothing more is executed.  The loop over `lp` runs to `nr_in + i`. -/
def symvar_body (spec : spec) (p q i j k l : Nat) (st : Bool × mig_encoder) :
    Except Fault (Bool × mig_encoder) :=
  if st.1 then pure st
  else if ¬ (j = q ∨ k = q ∨ l = q) ∨ j = p then pure st
  else do
    let s ← svars_read st.2 i j k l
    let pLits ← pLits_push [] (Abc_Var2Lit s 1)
    let pLits ← (List.range i).foldlM (fun pLits ip =>
      (List.range' 3 (spec.nr_in + i - 2)).foldlM (fun pLits lp =>
        (List.range' 2 (lp - 2)).foldlM (fun pLits kp =>
          (List.range' 1 (kp - 1)).foldlM (fun pLits jp =>
            if jp = p ∨ kp = p ∨ lp = p then do
              let s ← svars_read st.2 ip jp kp lp
              pLits_push pLits (Abc_Var2Lit s 0)
            else pure pLits) pLits) pLits) pLits) pLits
    let r := add_clause st.2 pLits
    if !r.1 then pure (true, r.2) else pure (false, r.2)

/-- Lines 503-549: `create_symvar_clauses`. -/
def create_symvar_clauses (spec : spec) (e : mig_encoder) : Except Fault (Bool × mig_encoder) := do
  let st ← (List.range' 2 (spec.nr_in - 1)).foldlM (fun st q =>
    (List.range' 1 (q - 1)).foldlM (fun (st : Bool × mig_encoder) p =>
      if st.1 then pure st
      else if !symm spec p q then pure st
      else
        (List.range' 1 (spec.nr_steps - 1)).foldlM (fun st i =>
          (List.range' 3 (spec.nr_in + i - 2)).foldlM (fun st l =>
            (List.range' 2 (l - 2)).foldlM (fun st k =>
              (List.range' 1 (k - 1)).foldlM (fun st j =>
                symvar_body spec p q i j k l st) st) st) st) st) st) (false, e)
  pure (!st.1, st.2)

/-- What `create_symvar_clauses` returns on the encoder prepared by `create_variables` and
the clauses the solver holds after it (none for a fault). -/
def symvar_clauses (spec : spec) : Option (Bool × List (List Nat)) :=
  run_clauses (create_symvar_clauses spec (prepared spec fun _ => false))

/-- An assignment for four inputs and two steps in which exactly the selection variables 0
(`S[0][0][1][2]`) and 16 (`S[1][1][2][4]`) are true. -/
def symvar_model (v : Nat) : Bool := decide (v = 0 ∨ v = 16)

/-! ## Properties -/

/-! ### Loops -/

theorem foldlM_flatMap {ε α β σ : Type} (f : α → List β) (g : σ → β → Except ε σ)
    (xs : List α) (s : σ) :
    (xs.flatMap f).foldlM g s = xs.foldlM (fun s x => (f x).foldlM g s) s := by
  induction xs generalizing s with
  | nil => simp
  | cons x xs ih =>
    simp only [List.flatMap_cons, List.foldlM_append, List.foldlM_cons]
    cases h : (f x).foldlM g s with
    | error err => rfl
    | ok s1 => simpa [bind, Except.bind] using ih s1

theorem foldlM_map_list {ε α β σ : Type} (f : α → β) (g : σ → β → Except ε σ)
    (xs : List α) (s : σ) :
    (xs.map f).foldlM g s = xs.foldlM (fun s x => g s (f x)) s := by
  induction xs generalizing s with
  | nil => simp
  | cons x xs ih =>
    simp only [List.map_cons, List.foldlM_cons]
    cases h : g s (f x) with
    | error err => rfl
    | ok s1 => simpa [bind, Except.bind] using ih s1

theorem mem_wirings (nr_in i j k l : Nat) :
    (j, k, l) ∈ wirings nr_in i ↔ j < k ∧ k < l ∧ l ≤ nr_in + i := by
  simp only [wirings, List.mem_flatMap, List.mem_range', List.mem_map, List.mem_range,
    Prod.mk.injEq]
  constructor
  · rintro ⟨l', ⟨a, ha, rfl⟩, k', ⟨b, hb, rfl⟩, j', hj, rfl, rfl, rfl⟩
    omega
  · rintro ⟨h1, h2, h3⟩
    exact ⟨l, ⟨l - 2, by omega, by omega⟩, k, ⟨k - 1, by omega, by omega⟩, j, h1, rfl, rfl, rfl⟩

theorem mem_sel_tuples (spec : spec) (i j k l : Nat) :
    (i, j, k, l) ∈ sel_tuples spec ↔ i < spec.nr_steps ∧ j < k ∧ k < l ∧ l ≤ spec.nr_in + i := by
  simp only [sel_tuples, List.mem_flatMap, List.mem_range, List.mem_map, Prod.mk.injEq]
  constructor
  · rintro ⟨i', hi, ⟨j', k', l'⟩, hw, rfl, rfl, rfl, rfl⟩
    exact ⟨hi, (mem_wirings _ _ _ _ _).1 hw⟩
  · rintro ⟨hi, hw⟩
    exact ⟨i, hi, (j, k, l), (mem_wirings _ _ _ _ _).2 hw, rfl, rfl, rfl, rfl⟩

theorem nodup_flatMap_of_tag {α β : Type} (xs : List α) (f : α → List β) (tag : β → α)
    (hx : xs.Nodup) (hf : ∀ x ∈ xs, (f x).Nodup) (ht : ∀ x ∈ xs, ∀ y ∈ f x, tag y = x) :
    (xs.flatMap f).Nodup := by
  rw [List.nodup_flatMap]
  refine ⟨hf, hx.pairwise_of_forall_ne ?_⟩
  intro a ha b hb hab
  show List.Disjoint (f a) (f b)
  rw [List.disjoint_left]
  intro y hya hyb
  exact hab ((ht a ha y hya).symm.trans (ht b hb y hyb))

theorem nodup_wirings (nr_in i : Nat) : (wirings nr_in i).Nodup := by
  unfold wirings
  refine nodup_flatMap_of_tag _ _ (fun w => w.2.2) (List.nodup_range' _ _) ?_ ?_
  · intro l _
    refine nodup_flatMap_of_tag _ _ (fun w => w.2.1) (List.nodup_range' _ _) ?_ ?_
    · intro k _
      refine (List.nodup_range k).map ?_
      intro a b hab
      simpa using hab
    · intro k _ y hy
      simp only [List.mem_map] at hy
      obtain ⟨j, _, rfl⟩ := hy
      rfl
  · intro l _ y hy
    simp only [List.mem_flatMap, List.mem_map] at hy
    obtain ⟨k, _, j, _, rfl⟩ := hy
    rfl

theorem nodup_sel_tuples (spec : spec) : (sel_tuples spec).Nodup := by
  unfold sel_tuples
  refine nodup_flatMap_of_tag _ _ (fun x => x.1) (List.nodup_range _) ?_ ?_
  · intro i _
    refine (nodup_wirings _ _).map ?_
    intro a b hab
    simp only [Prod.mk.injEq, true_and] at hab
    exact Prod.ext hab.1 (Prod.ext hab.2.1 hab.2.2)
  · intro i _ y hy
    simp only [List.mem_map] at hy
    obtain ⟨w, _, rfl⟩ := hy
    rfl

/-! ### Variables -/

theorem create_variables_loop (spec : spec) (e : mig_encoder) :
    (List.range spec.nr_steps).foldlM (fun e i =>
      (List.range' 2 (spec.nr_in + i - 1)).foldlM (fun e l =>
        (List.range' 1 (l - 1)).foldlM (fun e k =>
          (List.range k).foldlM (fun e j => do
            let e ← svars_write e i j k l e.nr_sel_vars
            pure { e with nr_sel_vars := e.nr_sel_vars + 1 }) e) e) e) e
      = (sel_tuples spec).foldlM var_body e := by
  simp only [sel_tuples, wirings, foldlM_flatMap, foldlM_map_list, List.map_flatMap,
    List.map_map]
  rfl

theorem var_fold (L : List (Nat × Nat × Nat × Nat))
    (hb : ∀ x ∈ L, x.1 < 16 ∧ x.2.1 < 16 ∧ x.2.2.1 < 16 ∧ x.2.2.2 < 16) (hn : L.Nodup)
    (e : mig_encoder) :
    ∃ sv, L.foldlM var_body e
        = .ok { e with svars := sv, nr_sel_vars := e.nr_sel_vars + L.length } ∧
      (∀ n (h : n < L.length),
        sv (L[n]).1 (L[n]).2.1 (L[n]).2.2.1 (L[n]).2.2.2 = e.nr_sel_vars + n) ∧
      (∀ i j k l, (i, j, k, l) ∉ L → sv i j k l = e.svars i j k l) := by
  induction L generalizing e with
  | nil => exact ⟨e.svars, rfl, by simp, by simp⟩
  | cons x L ih =>
    obtain ⟨i, j, k, l⟩ := x
    have hx := hb (i, j, k, l) (List.mem_cons_self _ _)
    have hxL : (i, j, k, l) ∉ L := (List.nodup_cons.1 hn).1
    obtain ⟨sv, h1, h2, h3⟩ := ih (fun y hy => hb y (List.mem_cons_of_mem _ hy))
      (List.nodup_cons.1 hn).2
      { e with svars := fun i' j' k' l' =>
                 if i' = i ∧ j' = j ∧ k' = k ∧ l' = l then e.nr_sel_vars else e.svars i' j' k' l',
               nr_sel_vars := e.nr_sel_vars + 1 }
    refine ⟨sv, ?_, ?_, ?_⟩
    · simp only [List.foldlM_cons, var_body, svars_write, SVARS_DIM]
      simp only [hx, and_self, if_true, bind, Except.bind, pure, Except.pure]
      rw [show (List.foldlM var_body _ L) = _ from h1]
      simp [Nat.add_assoc, Nat.add_comm 1]
    · intro n hn'
      cases n with
      | zero =>
        simp only [List.getElem_cons_zero, Nat.add_zero]
        rw [h3 i j k l hxL]
        simp
      | succ n =>
        simp only [List.getElem_cons_succ]
        rw [h2 n (by simpa using hn')]
        simp only []
        omega
    · intro i' j' k' l' hnot
      have hne : ¬ (i' = i ∧ j' = j ∧ k' = k ∧ l' = l) := by
        rintro ⟨rfl, rfl, rfl, rfl⟩
        exact hnot (List.mem_cons_self _ _)
      rw [h3 i' j' k' l' (fun h => hnot (List.mem_cons_of_mem _ h))]
      simp [hne]

theorem sel_tuples_bound (spec : spec) (hfit : fits_table spec) :
    ∀ x ∈ sel_tuples spec, x.1 < 16 ∧ x.2.1 < 16 ∧ x.2.2.1 < 16 ∧ x.2.2.2 < 16 := by
  rintro ⟨i, j, k, l⟩ hx
  have h := (mem_sel_tuples spec i j k l).1 hx
  have h1 := hfit.1
  have h2 := hfit.2
  simp only
  omega

theorem sel_tuples_length_le (spec : spec) (hfit : fits_table spec) :
    (sel_tuples spec).length ≤ 65536 := by
  have hsub : (sel_tuples spec).toFinset ⊆
      Finset.range 16 ×ˢ Finset.range 16 ×ˢ Finset.range 16 ×ˢ Finset.range 16 := by
    intro x hx
    have := sel_tuples_bound spec hfit x (List.mem_toFinset.1 hx)
    simp only [Finset.mem_product, Finset.mem_range]
    exact this
  have hc := Finset.card_le_card hsub
  rw [List.toFinset_card_of_nodup (nodup_sel_tuples spec)] at hc
  simpa using hc

/-- C4 (variable density).  For a specification within the capacity of the table and of
`int`, `create_variables` returns, the count it passes to `set_nr_vars` is
`total = nr_sel + 4 * nr_steps + nr_steps * tt_size` where `nr_sel` is the number of valid
tuples `(i, j, k, l)`, and the three id maps are injective with images exactly
`[0, nr_sel)`, `[nr_sel, nr_sel + 4 * nr_steps)` and `[nr_sel + 4 * nr_steps, total)`. -/
theorem variable_density (spec : spec) (e : mig_encoder) (hfit : fits_table spec)
    (hint : spec.nr_steps * spec.tt_size < 2 ^ 30) :
    ∃ e' nr_sel total,
      create_variables spec e = .ok e' ∧
      (∃ L : List (Nat × Nat × Nat × Nat), L.Nodup ∧
        (∀ i j k l, (i, j, k, l) ∈ L ↔ valid_sel spec i j k l) ∧ L.length = nr_sel) ∧
      total = nr_sel + 4 * spec.nr_steps + spec.nr_steps * spec.tt_size ∧
      total < 2 ^ 31 ∧
      e'.solver.nr_vars = total ∧
      (∀ i j k l, valid_sel spec i j k l →
        svars_read e' i j k l = .ok (e'.svars i j k l) ∧ e'.svars i j k l < nr_sel) ∧
      (∀ i j k l i' j' k' l', valid_sel spec i j k l → valid_sel spec i' j' k' l' →
        e'.svars i j k l = e'.svars i' j' k' l' → i = i' ∧ j = j' ∧ k = k' ∧ l = l') ∧
      (∀ n, n < nr_sel → ∃ i j k l, valid_sel spec i j k l ∧ e'.svars i j k l = n) ∧
      (∀ i v, i < spec.nr_steps → v < 4 →
        nr_sel ≤ get_op_var e' spec i v ∧ get_op_var e' spec i v < nr_sel + 4 * spec.nr_steps) ∧
      (∀ i v i' v', i < spec.nr_steps → v < 4 → i' < spec.nr_steps → v' < 4 →
        get_op_var e' spec i v = get_op_var e' spec i' v' → i = i' ∧ v = v') ∧
      (∀ n, nr_sel ≤ n → n < nr_sel + 4 * spec.nr_steps →
        ∃ i v, i < spec.nr_steps ∧ v < 4 ∧ get_op_var e' spec i v = n) ∧
      (∀ i t, i < spec.nr_steps → t < spec.tt_size →
        nr_sel + 4 * spec.nr_steps ≤ get_sim_var e' spec i t ∧ get_sim_var e' spec i t < total) ∧
      (∀ i t i' t', i < spec.nr_steps → t < spec.tt_size → i' < spec.nr_steps →
        t' < spec.tt_size → get_sim_var e' spec i t = get_sim_var e' spec i' t' →
        i = i' ∧ t = t') ∧
      (∀ n, nr_sel + 4 * spec.nr_steps ≤ n → n < total →
        ∃ i t, i < spec.nr_steps ∧ t < spec.tt_size ∧ get_sim_var e' spec i t = n) := by
  have hb := sel_tuples_bound spec hfit
  have hnd := nodup_sel_tuples spec
  have hlen := sel_tuples_length_le spec hfit
  obtain ⟨sv, h1, h2, h3⟩ := var_fold (sel_tuples spec) hb hnd
    { e with nr_op_vars := spec.nr_steps * MIG_OP_VARS_PER_STEP,
             nr_sim_vars := spec.nr_steps * spec.tt_size, nr_sel_vars := 0 }
  have hsteps := hfit.1
  have key : ∀ i j k l, valid_sel spec i j k l →
      ∃ n, n < (sel_tuples spec).length ∧ sv i j k l = n := by
    intro i j k l hv
    obtain ⟨n, hn, hx⟩ := List.getElem_of_mem ((mem_sel_tuples spec i j k l).2 hv)
    have := h2 n hn
    rw [hx] at this
    exact ⟨n, hn, by simpa using this⟩
  have hcv : ∃ e', create_variables spec e = .ok e' ∧ e'.svars = sv ∧
      e'.ops_offset = (sel_tuples spec).length ∧
      e'.sim_offset = (sel_tuples spec).length + spec.nr_steps * 4 ∧
      e'.solver.nr_vars
        = (sel_tuples spec).length + spec.nr_steps * 4 + spec.nr_steps * spec.tt_size := by
    simp only [create_variables, create_variables_loop]
    rw [h1]
    simp only [bind, Except.bind, pure, Except.pure, MIG_OP_VARS_PER_STEP,
      solver_wrapper.set_nr_vars, Nat.zero_add]
    exact ⟨_, rfl, rfl, rfl, rfl, rfl⟩
  obtain ⟨e', hok, hsv, hops, hsim, hnv⟩ := hcv
  subst hsv
  refine ⟨e', (sel_tuples spec).length,
    (sel_tuples spec).length + 4 * spec.nr_steps + spec.nr_steps * spec.tt_size, hok,
    ⟨sel_tuples spec, hnd, fun i j k l => mem_sel_tuples spec i j k l, rfl⟩, rfl, ?_, ?_⟩
  · omega
  simp only [get_op_var, get_sim_var, MIG_OP_VARS_PER_STEP, hops, hsim, hnv]
  refine ⟨by omega, ?_, ?_, ?_, ?_, ?_, ?_, ?_, ?_, ?_⟩
  · intro i j k l hv
    have hx := hb (i, j, k, l) ((mem_sel_tuples spec i j k l).2 hv)
    obtain ⟨n, hn, hs⟩ := key i j k l hv
    refine ⟨?_, by omega⟩
    simp only [svars_read, SVARS_DIM]
    simp only at hx
    simp [hx]
  · intro i j k l i' j' k' l' hv hv' heq
    obtain ⟨n, hn, hx⟩ := List.getElem_of_mem ((mem_sel_tuples spec i j k l).2 hv)
    obtain ⟨n', hn', hx'⟩ := List.getElem_of_mem ((mem_sel_tuples spec i' j' k' l').2 hv')
    have e1 := h2 n hn
    have e2 := h2 n' hn'
    rw [hx] at e1
    rw [hx'] at e2
    simp only [Nat.zero_add] at e1 e2
    have hnn : n = n' := by rw [← e1, ← e2]; exact heq
    subst hnn
    have := hx.symm.trans hx'
    simpa using this
  · intro n hn
    have hm := List.getElem_mem hn
    have e1 := h2 n hn
    generalize (sel_tuples spec)[n] = x at hm e1
    obtain ⟨i, j, k, l⟩ := x
    exact ⟨i, j, k, l, (mem_sel_tuples spec i j k l).1 hm, by simpa using e1⟩
  · intro i v hi hv
    omega
  · intro i v i' v' hi hv hi' hv' h
    omega
  · intro n h1 h2
    refine ⟨(n - (sel_tuples spec).length) / 4, (n - (sel_tuples spec).length) % 4, ?_, ?_, ?_⟩
    · omega
    · omega
    · omega
  · intro i t hi ht
    have : spec.tt_size * i + t < spec.tt_size * spec.nr_steps := by
      calc spec.tt_size * i + t < spec.tt_size * i + spec.tt_size := by omega
        _ = spec.tt_size * (i + 1) := by ring
        _ ≤ spec.tt_size * spec.nr_steps := Nat.mul_le_mul_left _ hi
    rw [Nat.mul_comm spec.nr_steps spec.tt_size]
    omega
  · intro i t i' t' hi ht hi' ht' h
    have h' : spec.tt_size * i + t = spec.tt_size * i' + t' := by omega
    have hi_eq : i = i' := by
      have a1 : (spec.tt_size * i + t) / spec.tt_size = i := by
        rw [Nat.add_comm, Nat.mul_comm, Nat.add_mul_div_right _ _ (by omega),
          Nat.div_eq_of_lt ht, Nat.zero_add]
      have a2 : (spec.tt_size * i' + t') / spec.tt_size = i' := by
        rw [Nat.add_comm, Nat.mul_comm, Nat.add_mul_div_right _ _ (by omega),
          Nat.div_eq_of_lt ht', Nat.zero_add]
      rw [← a1, ← a2, h']
    subst hi_eq
    exact ⟨rfl, by omega⟩
  · intro n h1 h2
    have hpos : 0 < spec.tt_size := by
      rcases Nat.eq_zero_or_pos spec.tt_size with h | h
      · rw [h] at h2; omega
      · exact h
    refine ⟨(n - ((sel_tuples spec).length + spec.nr_steps * 4)) / spec.tt_size,
      (n - ((sel_tuples spec).length + spec.nr_steps * 4)) % spec.tt_size, ?_, ?_, ?_⟩
    · rw [Nat.div_lt_iff_lt_mul hpos]
      omega
    · exact Nat.mod_lt _ hpos
    · have := Nat.div_add_mod (n - ((sel_tuples spec).length + spec.nr_steps * 4)) spec.tt_size
      omega

theorem variable_density_witness :
    fits_table (spec3 136) ∧ (spec3 136).nr_steps * (spec3 136).tt_size < 2 ^ 30 ∧
      ∃ e' total, create_variables (spec3 136) (fresh fun _ => false) = .ok e' ∧
        e'.solver.nr_vars = total ∧ total < 2 ^ 31 := by
  have hfit : fits_table (spec3 136) := by simp [fits_table, spec3]
  have hint : (spec3 136).nr_steps * (spec3 136).tt_size < 2 ^ 30 := by simp [spec3]
  obtain ⟨e', _, total, h1, _, _, h2, h3, _⟩ :=
    variable_density (spec3 136) (fresh fun _ => false) hfit hint
  exact ⟨hfit, hint, e', total, h1, h3, h2⟩

/-! ### Fanin clauses -/

set_option maxRecDepth 100000 in
theorem wirings_length_le (nr_in i : Nat) (h : nr_in + i ≤ 9) :
    (wirings nr_in i).length ≤ 120 := by
  have h0 : wirings nr_in i = wirings (nr_in + i) 0 := by simp [wirings]
  rw [h0]
  generalize nr_in + i = n at h
  interval_cases n <;> decide

theorem fanin_inner (e : mig_encoder) (i : Nat) (W : List (Nat × Nat × Nat)) (acc : List Nat)
    (hb : ∀ w ∈ W, i < 16 ∧ w.1 < 16 ∧ w.2.1 < 16 ∧ w.2.2 < 16)
    (hlen : acc.length + W.length ≤ 128) :
    W.foldlM (fanin_body e i) acc
      = .ok (acc ++ W.map fun w => Abc_Var2Lit (e.svars i w.1 w.2.1 w.2.2) 0) := by
  induction W generalizing acc with
  | nil => simp [pure, Except.pure]
  | cons w W ih =>
    have hw := hb w (List.mem_cons_self _ _)
    simp only [List.length_cons] at hlen
    simp only [List.foldlM_cons, fanin_body, svars_read, SVARS_DIM, hw, and_self, if_true, bind,
      Except.bind, pLits_push, PLITS_SIZE]
    rw [if_pos (by omega)]
    simp only []
    have := ih (acc ++ [Abc_Var2Lit (e.svars i w.1 w.2.1 w.2.2) 0])
      (fun y hy => hb y (List.mem_cons_of_mem _ hy)) (by simp; omega)
    simp only [fanin_body, svars_read, SVARS_DIM, bind, Except.bind, pLits_push,
      PLITS_SIZE] at this
    rw [this]
    simp

theorem fanin_loop (spec : spec) (e : mig_encoder) (i : Nat) :
    (List.range' 2 (spec.nr_in + i - 1)).foldlM (fun pLits l =>
      (List.range' 1 (l - 1)).foldlM (fun pLits k =>
        (List.range k).foldlM (fun pLits j => do
          let v ← svars_read e i j k l
          pLits_push pLits (Abc_Var2Lit v 0)) pLits) pLits) []
      = (wirings spec.nr_in i).foldlM (fanin_body e i) [] := by
  simp only [wirings, foldlM_flatMap, foldlM_map_list]
  rfl

theorem fanin_step (spec : spec) (e : mig_encoder) (i : Nat) (hcap : spec.nr_in + i ≤ 9) :
    (wirings spec.nr_in i).foldlM (fanin_body e i) [] = .ok (fanin_clause e spec.nr_in i) := by
  have hb : ∀ w ∈ wirings spec.nr_in i, i < 16 ∧ w.1 < 16 ∧ w.2.1 < 16 ∧ w.2.2 < 16 := by
    rintro ⟨j, k, l⟩ hw
    have := (mem_wirings _ _ _ _ _).1 hw
    simp only
    omega
  have hl := wirings_length_le spec.nr_in i hcap
  have := fanin_inner e i (wirings spec.nr_in i) [] hb (by simp; omega)
  simpa [fanin_clause] using this

theorem fanin_outer (spec : spec) (Is : List Nat) (hI : ∀ i ∈ Is, spec.nr_in + i ≤ 9)
    (st : Bool) (e : mig_encoder) :
    ∃ st', Is.foldlM (fun (se : Bool × mig_encoder) i => do
        let pLits ← (List.range' 2 (spec.nr_in + i - 1)).foldlM (fun pLits l =>
          (List.range' 1 (l - 1)).foldlM (fun pLits k =>
            (List.range k).foldlM (fun pLits j => do
              let v ← svars_read se.2 i j k l
              pLits_push pLits (Abc_Var2Lit v 0)) pLits) pLits) []
        let r := add_clause se.2 pLits
        pure (se.1 && r.1, r.2)) (st, e)
      = .ok (st', { e with solver := { e.solver with
          clauses := e.solver.clauses ++ Is.map (fanin_clause e spec.nr_in) } }) := by
  induction Is generalizing st e with
  | nil => exact ⟨st, by simp [pure, Except.pure]⟩
  | cons i Is ih =>
    obtain ⟨st', h⟩ := ih (fun y hy => hI y (List.mem_cons_of_mem _ hy))
      (st && (add_clause e (fanin_clause e spec.nr_in i)).1)
      (add_clause e (fanin_clause e spec.nr_in i)).2
    refine ⟨st', ?_⟩
    rw [List.foldlM_cons, fanin_loop, fanin_step spec e i (hI i (List.mem_cons_self _ _))]
    simp only [bind, Except.bind, pure, Except.pure]
    simp only [bind, Except.bind, pure, Except.pure] at h
    rw [h]
    simp [add_clause, solver_wrapper.add_clause, fanin_clause]

theorem lit_value_pos (m : Nat → Bool) (v : Nat) : lit_value m (Abc_Var2Lit v 0) = m v := by
  have h1 : (v + v) % 2 = 0 := by omega
  have h2 : (v + v) / 2 = v := by omega
  simp [lit_value, Abc_Var2Lit, h1, h2]

theorem lit_value_neg (m : Nat → Bool) (v : Nat) : lit_value m (Abc_Var2Lit v 1) = !(m v) := by
  have h1 : (v + v + 1) % 2 = 1 := by omega
  have h2 : (v + v + 1) / 2 = v := by omega
  simp [lit_value, Abc_Var2Lit, h1, h2]

theorem fanin_clause_sat (e : mig_encoder) (nr_in i : Nat) (m : Nat → Bool) :
    clause_sat m (fanin_clause e nr_in i) = true ↔
      ∃ j k l, j < k ∧ k < l ∧ l ≤ nr_in + i ∧ m (e.svars i j k l) = true := by
  simp only [clause_sat, fanin_clause, List.any_eq_true, List.mem_map]
  constructor
  · rintro ⟨x, ⟨⟨j, k, l⟩, hw, rfl⟩, hx⟩
    rw [lit_value_pos] at hx
    obtain ⟨h1, h2, h3⟩ := (mem_wirings _ _ _ _ _).1 hw
    exact ⟨j, k, l, h1, h2, h3, hx⟩
  · rintro ⟨j, k, l, h1, h2, h3, hx⟩
    exact ⟨_, ⟨(j, k, l), (mem_wirings _ _ _ _ _).2 ⟨h1, h2, h3⟩, rfl⟩, by
      rw [lit_value_pos]; exact hx⟩

/-- C5 (fanin clauses).  When every clause fits the buffer `pLits` (`nr_in + nr_steps ≤ 10`),
`create_fanin_clauses` returns after submitting exactly `nr_steps` clauses, one per step
`i` in order; the clause of step `i` is the list of the positive literals of
`svars[i][j][k][l]`, one for each wiring `0 ≤ j < k < l ≤ nr_in + i` (the list of wirings has
no repetition); an assignment satisfies it iff some selection variable of step `i` is
true, and it stays satisfied when more variables are made true, so no fanin clause forbids
two selections of a step together. -/
theorem fanin_clauses_emitted (spec : spec) (e : mig_encoder)
    (hcap : spec.nr_in + spec.nr_steps ≤ 10) :
    ∃ status e', create_fanin_clauses spec e = .ok (status, e') ∧
      e'.solver.clauses = e.solver.clauses ++
        (List.range spec.nr_steps).map (fun i =>
          (wirings spec.nr_in i).map fun w => Abc_Var2Lit (e.svars i w.1 w.2.1 w.2.2) 0) ∧
      ((List.range spec.nr_steps).map (fun i =>
          (wirings spec.nr_in i).map fun w =>
            Abc_Var2Lit (e.svars i w.1 w.2.1 w.2.2) 0)).length = spec.nr_steps ∧
      (∀ i, (wirings spec.nr_in i).Nodup ∧
        ∀ j k l, (j, k, l) ∈ wirings spec.nr_in i ↔ j < k ∧ k < l ∧ l ≤ spec.nr_in + i) ∧
      (∀ i m, clause_sat m
            ((wirings spec.nr_in i).map fun w => Abc_Var2Lit (e.svars i w.1 w.2.1 w.2.2) 0) = true ↔
          ∃ j k l, j < k ∧ k < l ∧ l ≤ spec.nr_in + i ∧ m (e.svars i j k l) = true) ∧
      (∀ i (m m' : Nat → Bool), (∀ v, m v = true → m' v = true) →
        clause_sat m
            ((wirings spec.nr_in i).map fun w => Abc_Var2Lit (e.svars i w.1 w.2.1 w.2.2) 0) = true →
        clause_sat m'
            ((wirings spec.nr_in i).map fun w => Abc_Var2Lit (e.svars i w.1 w.2.1 w.2.2) 0)
          = true) := by
  obtain ⟨st', h⟩ := fanin_outer spec (List.range spec.nr_steps)
    (fun i hi => by have := List.mem_range.1 hi; omega) true e
  refine ⟨st', _, h, rfl, by simp, fun i => ⟨nodup_wirings _ _, fun j k l => mem_wirings _ _ _ _ _⟩,
    fun i m => fanin_clause_sat e spec.nr_in i m, ?_⟩
  intro i m m' hmm hs
  have h1 := (fanin_clause_sat e spec.nr_in i m).1 hs
  obtain ⟨j, k, l, a, b, c, d⟩ := h1
  exact (fanin_clause_sat e spec.nr_in i m').2 ⟨j, k, l, a, b, c, hmm _ d⟩

theorem fanin_clauses_emitted_witness :
    (spec3 136).nr_in + (spec3 136).nr_steps ≤ 10 ∧
      ∃ status e', create_fanin_clauses (spec3 136) (fresh fun _ => false) = .ok (status, e') ∧
        e'.solver.clauses.length = 1 := by
  obtain ⟨status, e', h1, h2, h3, _⟩ :=
    fanin_clauses_emitted (spec3 136) (fresh fun _ => false) (by decide)
  refine ⟨by decide, status, e', h1, ?_⟩
  rw [h2, List.length_append, h3]
  rfl

/-! ### Output fixing -/

theorem get_bit_eq (tt i : Nat) : get_bit tt i = if tt.testBit i then 1 else 0 := by
  simp only [get_bit, Nat.testBit_to_div_mod, Nat.shiftRight_eq_div_pow]
  rcases Nat.mod_two_eq_zero_or_one (tt / 2 ^ i) with h | h <;> simp [h]

theorem output_sim_lit_sat (spec : spec) (e : mig_encoder) (t : Nat) (m : Nat → Bool) :
    clause_sat m [output_sim_lit spec e t] = true ↔
      m (get_sim_var e spec (spec.nr_steps - 1) t)
        = xor ((spec.functions (spec.synth_func 0)).testBit (t + 1))
            (spec.out_inv.testBit (spec.synth_func 0)) := by
  have hinv : (spec.out_inv >>> spec.synth_func 0) % 2
      = if spec.out_inv.testBit (spec.synth_func 0) then 1 else 0 := get_bit_eq _ _
  simp only [clause_sat, List.any_cons, List.any_nil, Bool.or_false, output_sim_lit, get_bit_eq,
    hinv]
  cases h1 : (spec.functions (spec.synth_func 0)).testBit (t + 1) <;>
    cases h2 : spec.out_inv.testBit (spec.synth_func 0) <;>
    simp [lit_value_pos, lit_value_neg]

theorem fix_output_fold (spec : spec) (e : mig_encoder) (n : Nat) :
    ((List.range n).foldl (fix_output_step spec) (true, e)).2
      = { e with solver := { e.solver with
            clauses := e.solver.clauses ++
              (List.range n).map fun t => [output_sim_lit spec e t] } } ∧
    ((List.range n).foldl (fix_output_step spec) (true, e)).1
      = (List.range n).all fun t =>
          e.solver.accepts
            (e.solver.clauses ++ (List.range t).map fun t' => [output_sim_lit spec e t'])
            [output_sim_lit spec e t] := by
  induction n with
  | zero => simp
  | succ n ih =>
    rw [List.range_succ, List.foldl_append, List.foldl_cons, List.foldl_nil]
    generalize (List.range n).foldl (fix_output_step spec) (true, e) = r at ih
    obtain ⟨r1, r2⟩ := r
    obtain ⟨ih2, ih1⟩ := ih
    simp only at ih1 ih2
    subst ih1 ih2
    simp only [fix_output_step, List.all_append, List.map_append, List.map_cons, List.map_nil,
      fix_output_sim_vars_at, add_clause, solver_wrapper.add_clause, output_sim_lit,
      get_sim_var, List.all_cons, List.all_nil, Bool.and_true, List.append_assoc]
    exact ⟨trivial, trivial⟩

/-- C6 (output fixing).  With at least one step, for every row `t < tt_size` the call
`fix_output_sim_vars(spec, t)` submits exactly one clause, a unit clause over the simulation
variable of the last step at row `t`, satisfied iff that variable equals bit `t + 1` of the
synthesised target XOR the target's output-inversion flag, and returns the solver's answer;
`fix_output_sim_vars(spec)` submits exactly these `tt_size` clauses, one per row in order,
and returns the conjunction of the answers of `add_clause`. -/
theorem output_fixing (spec : spec) (e : mig_encoder) (hsteps : 1 ≤ spec.nr_steps) :
    (∀ t, t < spec.tt_size →
      (fix_output_sim_vars_at spec t e).2.solver.clauses
          = e.solver.clauses ++ [[output_sim_lit spec e t]] ∧
        (fix_output_sim_vars_at spec t e).1
          = e.solver.accepts e.solver.clauses [output_sim_lit spec e t] ∧
        output_sim_lit spec e t / 2 = get_sim_var e spec (spec.nr_steps - 1) t ∧
        ∀ m, clause_sat m [output_sim_lit spec e t] = true ↔
          m (get_sim_var e spec (spec.nr_steps - 1) t)
            = xor ((spec.functions (spec.synth_func 0)).testBit (t + 1))
                (spec.out_inv.testBit (spec.synth_func 0))) ∧
    (fix_output_sim_vars spec e).2.solver.clauses
      = e.solver.clauses ++ (List.range spec.tt_size).map (fun t => [output_sim_lit spec e t]) ∧
    ((List.range spec.tt_size).map (fun t => [output_sim_lit spec e t])).length
      = spec.tt_size ∧
    (fix_output_sim_vars spec e).1
      = (List.range spec.tt_size).all fun t =>
          e.solver.accepts
            (e.solver.clauses ++ (List.range t).map fun t' => [output_sim_lit spec e t'])
            [output_sim_lit spec e t] := by
  have _ := hsteps
  have hfold : fix_output_sim_vars spec e
      = (List.range spec.tt_size).foldl (fix_output_step spec) (true, e) := rfl
  obtain ⟨h2, h1⟩ := fix_output_fold spec e spec.tt_size
  refine ⟨?_, ?_, by simp, ?_⟩
  · intro t _
    refine ⟨rfl, rfl, ?_, output_sim_lit_sat spec e t⟩
    have hb : ∀ v c, c ≤ 1 → Abc_Var2Lit v c / 2 = v := by
      intro v c hc
      simp only [Abc_Var2Lit]
      omega
    apply hb
    simp only [get_bit]
    split <;> omega
  · rw [hfold, h2]
  · rw [hfold, h1]

theorem output_fixing_witness :
    1 ≤ (spec3 136).nr_steps ∧
      (fix_output_sim_vars (spec3 136) (fresh fun _ => false)).2.solver.clauses.length = 7 := by
  have h := (output_fixing (spec3 136) (fresh fun _ => false) (by decide)).2
  refine ⟨by decide, ?_⟩
  rw [h.1, List.length_append, h.2.1]
  rfl

/-! ### Simulation clauses -/

theorem input_bit_eq (t p : Nat) :
    input_bit t p = if (t + 1).testBit (p - 1) then 1 else 0 := by
  simp only [input_bit, Nat.one_shiftLeft, Nat.and_two_pow]
  cases (t + 1).testBit (p - 1) <;> simp

theorem fanin_lits_none (spec : spec) (e : mig_encoder) (t p v : Nat)
    (h : p ≤ spec.nr_in ∧ (if (t + 1).testBit (p - 1) then 1 else 0) ≠ v) :
    fanin_lits spec e t p v = none := by
  simp only [fanin_lits, input_bit_eq, h.1, if_true]
  simp [h.2]

/-- C8 (primary-input pruning).  When some fanin index `p` among `j`, `k`, `l` is a primary
input (`1 ≤ p ≤ nr_in`) and its hypothesised value (`b` for `j`, `c` for `k`, `d` for `l`)
differs from bit `p - 1` of `t + 1`, the call of `add_simulation_clause` returns true and the
solver is left as it was: no clause is submitted. -/
theorem primary_input_pruning (spec : spec) (e : mig_encoder) (t i j k l a b c d : Nat)
    (h : (1 ≤ j ∧ j ≤ spec.nr_in ∧ (if (t + 1).testBit (j - 1) then 1 else 0) ≠ b) ∨
         (1 ≤ k ∧ k ≤ spec.nr_in ∧ (if (t + 1).testBit (k - 1) then 1 else 0) ≠ c) ∨
         (1 ≤ l ∧ l ≤ spec.nr_in ∧ (if (t + 1).testBit (l - 1) then 1 else 0) ≠ d)) :
    ∃ e', add_simulation_clause spec t i j k l a b c d e = .ok (true, e') ∧
      e'.solver = e.solver ∧ e'.solver.clauses = e.solver.clauses := by
  have hl : ∀ (e1 : mig_encoder) (p v : Nat),
      (1 ≤ p ∧ p ≤ spec.nr_in ∧ (if (t + 1).testBit (p - 1) then 1 else 0) ≠ v) →
      fanin_lits spec e1 t p v = none := fun e1 p v hp => fanin_lits_none spec e1 t p v hp.2
  refine ⟨{ e with calls := e.calls ++ [(t, i, j, k, l, a, b, c, d)] }, ?_, rfl, rfl⟩
  unfold add_simulation_clause
  by_cases hj : j = 0
  · simp only [hj, if_true]
    rcases h with h | h | h
    · omega
    · rw [hl _ k c h]
    · rw [hl _ l d h]
      cases fanin_lits spec _ t k c <;> rfl
  · simp only [hj, if_false]
    rcases h with h | h | h
    · rw [hl _ j b h]
    · rw [hl _ k c h]
      cases fanin_lits spec _ t j b <;> rfl
    · rw [hl _ l d h]
      cases fanin_lits spec _ t j b with
      | none => rfl
      | some lj => cases fanin_lits spec _ t k c <;> rfl

theorem primary_input_pruning_witness :
    ((1 ≤ 0 ∧ 0 ≤ (spec3 136).nr_in ∧ (if (3 + 1).testBit (0 - 1) then 1 else 0) ≠ 0) ∨
     (1 ≤ 1 ∧ 1 ≤ (spec3 136).nr_in ∧ (if (3 + 1).testBit (1 - 1) then 1 else 0) ≠ 1) ∨
     (1 ≤ 2 ∧ 2 ≤ (spec3 136).nr_in ∧ (if (3 + 1).testBit (2 - 1) then 1 else 0) ≠ 0)) ∧
    ∃ e', add_simulation_clause (spec3 136) 3 0 0 1 2 0 0 1 0 (fresh fun _ => false)
        = .ok (true, e') ∧
      e'.solver = (fresh fun _ => false).solver ∧
      e'.solver.clauses = (fresh fun _ => false).solver.clauses :=
  ⟨Or.inr (Or.inl (by decide)),
    primary_input_pruning (spec3 136) (fresh fun _ => false) 3 0 0 1 2 0 0 1 0
      (Or.inr (Or.inl (by decide)))⟩

theorem op_lits_mem (spec : spec) (e : mig_encoder) (i p q r a x : Nat) :
    x ∈ op_lits spec e i p q r a ↔
      ∃ o, o < 4 ∧ x = Abc_Var2Lit (get_op_var e spec i o) 0 ∧
        maj3 p (if o = 1 then 1 else 0) q (if o = 2 then 1 else 0) r (if o = 3 then 1 else 0)
          = a := by
  simp only [op_lits, List.mem_append]
  constructor
  · rintro (((h | h) | h) | h)
    · split at h
      · exact ⟨0, by omega, by simpa using h, by simpa using ‹_›⟩
      · simp at h
    · split at h
      · exact ⟨1, by omega, by simpa using h, by simpa using ‹_›⟩
      · simp at h
    · split at h
      · exact ⟨2, by omega, by simpa using h, by simpa using ‹_›⟩
      · simp at h
    · split at h
      · exact ⟨3, by omega, by simpa using h, by simpa using ‹_›⟩
      · simp at h
  · rintro ⟨o, ho, rfl, hm⟩
    interval_cases o
    · simp only [Nat.zero_ne_one, if_false, OfNat.zero_ne_ofNat] at hm
      simp [hm]
    · simp at hm
      simp [hm]
    · simp at hm
      simp [hm]
    · simp at hm
      simp [hm]

theorem maj3_maj_op (o p q r a : Nat) (ho : o < 4) (hp : p ≤ 1) (hq : q ≤ 1) (hr : r ≤ 1)
    (ha : a ≤ 1) :
    maj3 p (if o = 1 then 1 else 0) q (if o = 2 then 1 else 0) r (if o = 3 then 1 else 0) = a ↔
      maj_op o (decide (p = 1)) (decide (q = 1)) (decide (r = 1)) = decide (a = 1) := by
  interval_cases o <;> interval_cases p <;> interval_cases q <;> interval_cases r <;>
    interval_cases a <;> decide

theorem fanin_lits_cases (spec : spec) (e : mig_encoder) (t p v : Nat) :
    fanin_lits spec e t p v = none ∨
    (p ≤ spec.nr_in ∧ fanin_lits spec e t p v = some []) ∨
    (spec.nr_in < p ∧
      fanin_lits spec e t p v = some [Abc_Var2Lit (get_sim_var e spec (p - spec.nr_in - 1) t) v]) := by
  unfold fanin_lits
  by_cases hp : p ≤ spec.nr_in
  · by_cases hv : input_bit t p ≠ v
    · left; simp [hp, hv]
    · right; left; simp [hp, hv]
  · right; right
    simp [hp]
    omega

theorem assert_ok_of (e : mig_encoder) (r : Bool)
    (hok : e.ndebug = true ∨ r = true) : assert_ok e r = .ok () := by
  unfold assert_ok
  rcases hok with h | h <;> simp [h]

theorem add_simulation_clause_eq (spec : spec) (e : mig_encoder) (t i j k l a b c d : Nat)
    (hbound : i < 16 ∧ j < 16 ∧ k < 16 ∧ l < 16)
    (hok : e.ndebug = true ∨ ∀ cs cl, e.solver.accepts cs cl = true) :
    add_simulation_clause spec t i j k l a b c d e = .ok
      (match sim_pLits spec e t i j k l a b c d with
       | none => (true, { e with calls := e.calls ++ [(t, i, j, k, l, a, b, c, d)] })
       | some p =>
         (if j = 0 then e.solver.accepts (e.solver.clauses ++ [p]) p
            else e.solver.accepts e.solver.clauses p,
          { e with calls := e.calls ++ [(t, i, j, k, l, a, b, c, d)],
                   solver := { e.solver with clauses :=
                     e.solver.clauses ++ (if j = 0 then [p, p] else [p]) } })) := by
  have hrd : ∀ e1 : mig_encoder, svars_read e1 i j k l = .ok (e1.svars i j k l) := by
    intro e1
    simp [svars_read, SVARS_DIM, hbound]
  have hfl : ∀ cl p v, fanin_lits spec { e with calls := cl } t p v = fanin_lits spec e t p v :=
    fun _ _ _ => rfl
  unfold add_simulation_clause sim_pLits
  by_cases hj : j = 0
  · simp only [hj, if_true, hfl]
    cases h1 : fanin_lits spec e t k c with
    | none => rfl
    | some lk =>
      cases h2 : fanin_lits spec e t l d with
      | none => rfl
      | some ll =>
        simp only [Option.bind_some, Option.map_some', ← hj, hrd, bind, Except.bind]
        rw [assert_ok_of]
        · simp only [pure, Except.pure, add_clause, solver_wrapper.add_clause,
            List.append_assoc, get_sim_var, op_lits, get_op_var]
          rfl
        · rcases hok with h | h
          · exact Or.inl h
          · exact Or.inr (h _ _)
  · simp only [hj, if_false, hfl]
    cases h0 : fanin_lits spec e t j b with
    | none => rfl
    | some lj =>
      cases h1 : fanin_lits spec e t k c with
      | none => rfl
      | some lk =>
        cases h2 : fanin_lits spec e t l d with
        | none => rfl
        | some ll =>
          simp only [Option.bind_some, Option.map_some', hrd, bind, Except.bind]
          rw [assert_ok_of]
          · simp only [pure, Except.pure, add_clause, solver_wrapper.add_clause,
              List.append_assoc, get_sim_var, op_lits, get_op_var]
            rfl
          · rcases hok with h | h
            · exact Or.inl h
            · exact Or.inr (h _ _)

theorem lor_bits (x y : Nat) (hx : x ≤ 1) (hy : y ≤ 1) :
    x ||| y ≠ 0 ↔ ¬ (x = 0 ∧ y = 0) := by
  interval_cases x <;> interval_cases y <;> decide

theorem lor_bits3 (x y z : Nat) (hx : x ≤ 1) (hy : y ≤ 1) (hz : z ≤ 1) :
    x ||| y ||| z ≠ 0 ↔ ¬ (x = 0 ∧ y = 0 ∧ z = 0) := by
  interval_cases x <;> interval_cases y <;> interval_cases z <;> decide

theorem op_part_mem (spec : spec) (e : mig_encoder) (i a b c d x : Nat)
    (ha : a ≤ 1) (hb : b ≤ 1) (hc : c ≤ 1) (hd : d ≤ 1) :
    x ∈ (if b ||| c ||| d ≠ 0 then op_lits spec e i b c d a else []) ↔
      ∃ o, o < 4 ∧ x = Abc_Var2Lit (get_op_var e spec i o) 0 ∧ ¬ (b = 0 ∧ c = 0 ∧ d = 0) ∧
        maj_op o (decide (b = 1)) (decide (c = 1)) (decide (d = 1)) = decide (a = 1) := by
  by_cases h : b ||| c ||| d ≠ 0
  · have h' := (lor_bits3 b c d hb hc hd).1 h
    rw [if_pos h, op_lits_mem]
    constructor
    · rintro ⟨o, ho, hx, hm⟩
      exact ⟨o, ho, hx, h', (maj3_maj_op o b c d a ho hb hc hd ha).1 hm⟩
    · rintro ⟨o, ho, hx, _, hm⟩
      exact ⟨o, ho, hx, (maj3_maj_op o b c d a ho hb hc hd ha).2 hm⟩
  · have h' : ¬ ¬ (b = 0 ∧ c = 0 ∧ d = 0) := fun hn => h ((lor_bits3 b c d hb hc hd).2 hn)
    rw [if_neg h]
    constructor
    · intro hx
      cases hx
    · rintro ⟨o, _, _, hn, _⟩
      exact absurd hn h'

theorem sim_pLits_mem (spec : spec) (e : mig_encoder) (t i j k l a b c d : Nat)
    (ha : a ≤ 1) (hb : b ≤ 1) (hc : c ≤ 1) (hd : d ≤ 1) (hj0 : j = 0 → b = 0)
    (p : List Nat) (hp : sim_pLits spec e t i j k l a b c d = some p) (x : Nat) :
    x ∈ p ↔
      (x = Abc_Var2Lit (e.svars i j k l) 1 ∨
       x = Abc_Var2Lit (get_sim_var e spec i t) a ∨
       (spec.nr_in < j ∧ x = Abc_Var2Lit (get_sim_var e spec (j - spec.nr_in - 1) t) b) ∨
       (spec.nr_in < k ∧ x = Abc_Var2Lit (get_sim_var e spec (k - spec.nr_in - 1) t) c) ∨
       (spec.nr_in < l ∧ x = Abc_Var2Lit (get_sim_var e spec (l - spec.nr_in - 1) t) d) ∨
       (∃ o, o < 4 ∧ x = Abc_Var2Lit (get_op_var e spec i o) 0 ∧ ¬ (b = 0 ∧ c = 0 ∧ d = 0) ∧
          maj_op o (decide (b = 1)) (decide (c = 1)) (decide (d = 1)) = decide (a = 1))) := by
  have hfm : ∀ q v (lq : List Nat), fanin_lits spec e t q v = some lq →
      (x ∈ lq ↔ (spec.nr_in < q ∧ x = Abc_Var2Lit (get_sim_var e spec (q - spec.nr_in - 1) t) v)) := by
    intro q v lq hq
    rcases fanin_lits_cases spec e t q v with h | ⟨h1, h2⟩ | ⟨h1, h2⟩
    · rw [h] at hq; cases hq
    · rw [h2] at hq
      cases hq
      simp only [List.not_mem_nil, false_iff, not_and]
      omega
    · rw [h2] at hq
      cases hq
      simp [h1]
  unfold sim_pLits at hp
  by_cases hj : j = 0
  · have hb0 := hj0 hj
    subst hb0
    simp only [hj, if_true] at hp
    cases h1 : fanin_lits spec e t k c with
    | none => rw [h1] at hp; cases hp
    | some lk =>
      cases h2 : fanin_lits spec e t l d with
      | none => rw [h1, h2] at hp; cases hp
      | some ll =>
        rw [h1, h2] at hp
        simp only [Option.some_bind, Option.map_some', Option.some.injEq] at hp
        subst hp
        have hop := op_part_mem spec e i a 0 c d x ha hb hc hd
        simp only [Nat.zero_or] at hop
        simp only [List.mem_append, hfm k c lk h1, hfm l d ll h2, hop, List.mem_cons, List.mem_singleton,
          List.not_mem_nil, or_false, hj]
        constructor
        · rintro (((h | h) | h | h) | h)
          · exact Or.inr (Or.inr (Or.inr (Or.inl h)))
          · exact Or.inr (Or.inr (Or.inr (Or.inr (Or.inl h))))
          · exact Or.inl h
          · exact Or.inr (Or.inl h)
          · exact Or.inr (Or.inr (Or.inr (Or.inr (Or.inr h))))
        · rintro (h | h | h | h | h | h)
          · exact Or.inl (Or.inr (Or.inl h))
          · exact Or.inl (Or.inr (Or.inr h))
          · omega
          · exact Or.inl (Or.inl (Or.inl h))
          · exact Or.inl (Or.inl (Or.inr h))
          · exact Or.inr h
  · simp only [hj, if_false] at hp
    cases h0 : fanin_lits spec e t j b with
    | none => rw [h0] at hp; cases hp
    | some lj =>
      cases h1 : fanin_lits spec e t k c with
      | none => rw [h0, h1] at hp; cases hp
      | some lk =>
        cases h2 : fanin_lits spec e t l d with
        | none => rw [h0, h1, h2] at hp; cases hp
        | some ll =>
          rw [h0, h1, h2] at hp
          simp only [Option.some_bind, Option.map_some', Option.some.injEq] at hp
          subst hp
          simp only [List.mem_append, hfm j b lj h0, hfm k c lk h1, hfm l d ll h2,
            op_part_mem spec e i a b c d x ha hb hc hd, List.mem_cons, List.mem_singleton,
            List.not_mem_nil, or_false]
          constructor
          · rintro ((((h | h) | h) | h | h) | h)
            · exact Or.inr (Or.inr (Or.inl h))
            · exact Or.inr (Or.inr (Or.inr (Or.inl h)))
            · exact Or.inr (Or.inr (Or.inr (Or.inr (Or.inl h))))
            · exact Or.inl h
            · exact Or.inr (Or.inl h)
            · exact Or.inr (Or.inr (Or.inr (Or.inr (Or.inr h))))
          · rintro (h | h | h | h | h | h)
            · exact Or.inl (Or.inr (Or.inl h))
            · exact Or.inl (Or.inr (Or.inr h))
            · exact Or.inl (Or.inl (Or.inl (Or.inl h)))
            · exact Or.inl (Or.inl (Or.inl (Or.inr h)))
            · exact Or.inl (Or.inl (Or.inr h))
            · exact Or.inr h

/-- C7, as the code has it.  For a step `i` and a wiring `(j, k, l)` valid for it, within the
table, values `a, b, c, d` in `{0, 1}` with `b = 0` when `j = 0` (the constant), and no
failing assertion: every clause the call of `add_simulation_clause` submits consists of
exactly the negated selection literal of `svars[i][j][k][l]`, the literal of `V[i][t]`
negated iff `a = 1`, for each fanin that is a step the literal of its simulation variable
at row `t` negated iff its hypothesised value is 1, and the positive literal of operation
variable `o < 4` exactly when `b, c, d` are not all 0 and the majority of `(b, c, d)` with
input `o` inverted equals `a`. -/
theorem simulation_clause_content (spec : spec) (e : mig_encoder) (t i j k l a b c d : Nat)
    (hfit : fits_table spec) (hv : valid_sel spec i j k l)
    (ha : a ≤ 1) (hb : b ≤ 1) (hc : c ≤ 1) (hd : d ≤ 1) (hj0 : j = 0 → b = 0)
    (hok : e.ndebug = true ∨ ∀ cs cl, e.solver.accepts cs cl = true) :
    ∃ r e' news, add_simulation_clause spec t i j k l a b c d e = .ok (r, e') ∧
      e'.solver.clauses = e.solver.clauses ++ news ∧
      ∀ cl ∈ news, ∀ x, x ∈ cl ↔
        (x = Abc_Var2Lit (e.svars i j k l) 1 ∨
         x = Abc_Var2Lit (get_sim_var e spec i t) a ∨
         (spec.nr_in < j ∧ x = Abc_Var2Lit (get_sim_var e spec (j - spec.nr_in - 1) t) b) ∨
         (spec.nr_in < k ∧ x = Abc_Var2Lit (get_sim_var e spec (k - spec.nr_in - 1) t) c) ∨
         (spec.nr_in < l ∧ x = Abc_Var2Lit (get_sim_var e spec (l - spec.nr_in - 1) t) d) ∨
         (∃ o, o < 4 ∧ x = Abc_Var2Lit (get_op_var e spec i o) 0 ∧
            ¬ (b = 0 ∧ c = 0 ∧ d = 0) ∧
            maj_op o (decide (b = 1)) (decide (c = 1)) (decide (d = 1)) = decide (a = 1))) := by
  have hbound : i < 16 ∧ j < 16 ∧ k < 16 ∧ l < 16 := by
    obtain ⟨h1, h2, h3, h4⟩ := hv
    obtain ⟨h5, h6⟩ := hfit
    omega
  rw [add_simulation_clause_eq spec e t i j k l a b c d hbound hok]
  cases hp : sim_pLits spec e t i j k l a b c d with
  | none => exact ⟨_, _, [], rfl, by simp, by simp⟩
  | some p =>
    refine ⟨_, _, if j = 0 then [p, p] else [p], rfl, rfl, ?_⟩
    intro cl hcl x
    have hclp : cl = p := by
      split at hcl
      · simp only [List.mem_cons, List.mem_singleton, List.not_mem_nil, or_false, or_self] at hcl
        exact hcl
      · simpa using hcl
    rw [hclp]
    exact sim_pLits_mem spec e t i j k l a b c d ha hb hc hd hj0 p hp x

theorem simulation_clause_content_witness :
    fits_table (spec3 136) ∧ valid_sel (spec3 136) 0 0 1 2 ∧
      ∃ r e' news,
        add_simulation_clause (spec3 136) 0 0 0 1 2 0 0 1 0 (prepared (spec3 136) fun _ => false)
          = .ok (r, e') ∧
        e'.solver.clauses = (prepared (spec3 136) fun _ => false).solver.clauses ++ news := by
  have hfit : fits_table (spec3 136) := by simp [fits_table, spec3]
  have hv : valid_sel (spec3 136) 0 0 1 2 := by simp [valid_sel, spec3]
  obtain ⟨r, e', news, h1, h2, _⟩ :=
    simulation_clause_content (spec3 136) (prepared (spec3 136) fun _ => false) 0 0 0 1 2 0 0 1 0
      hfit hv (by decide) (by decide) (by decide) (by decide) (fun _ => rfl)
      (Or.inr (fun _ _ => rfl))
  exact ⟨hfit, hv, r, e', news, h1, h2⟩

/-- C7 fails as stated.  With `nr_in = 3`, one step, wiring `(0, 1, 2)`: at row `t = 3` the
call with `(a, b, c, d) = (0, 0, 0, 0)` submits the clause `[1, 22]`, without the literal of
operation variable 0 although the majority of `(0, 0, 0)` is `0 = a`; at row `t = 0` the call
with `(a, b, c, d) = (0, 1, 1, 0)` submits `[1, 16, 8, 12]`, with the literal of operation
variable 0 although the majority of `(1, 1, 0)` is `1 ≠ a`. -/
theorem simulation_clause_content_fails :
    run_clauses (add_simulation_clause (spec3 136) 3 0 0 1 2 0 0 0 0
        (prepared (spec3 136) fun _ => false)) = some (true, [[1, 22], [1, 22]]) ∧
    ¬ (Abc_Var2Lit (get_op_var (prepared (spec3 136) fun _ => false) (spec3 136) 0 0) 0
          ∈ [1, 22] ↔ maj_op 0 false false false = false) ∧
    run_clauses (add_simulation_clause (spec3 136) 0 0 0 1 2 0 1 1 0
        (prepared (spec3 136) fun _ => false))
      = some (true, [[1, 16, 8, 12], [1, 16, 8, 12]]) ∧
    ¬ (Abc_Var2Lit (get_op_var (prepared (spec3 136) fun _ => false) (spec3 136) 0 0) 0
          ∈ [1, 16, 8, 12] ↔ maj_op 0 true true false = false) := by
  decide

/-! ### The encoding at three inputs and one step -/

/-- C9: the code does not skip.  With `nr_in = 3`, the call
`add_simulation_clause(spec, 3, 0, 0, 1, 2, 0, 1, 0, 0)` (first fanin the constant, `b = 1`)
submits the clause `[1, 22]`, that is `¬S[0][0][1][2] ∨ V[0][3]`, twice. -/
theorem const_zero_not_skipped :
    run_clauses (add_simulation_clause (spec3 136) 3 0 0 1 2 0 1 0 0
        (prepared (spec3 136) fun _ => false)) = some (true, [[1, 22], [1, 22]]) ∧
    (prepared (spec3 136) fun _ => false).svars 0 0 1 2 = 0 ∧
    get_sim_var (prepared (spec3 136) fun _ => false) (spec3 136) 0 3 = 11 := by
  decide

set_option maxRecDepth 100000 in
theorem and_clauses_mem :
    [1, 22] ∈ encode_clauses (spec3 136) ∧ [1, 23] ∈ encode_clauses (spec3 136) := by
  decide

set_option maxRecDepth 100000 in
/-- C3: the code excludes the wiring.  For `nr_in = 3`, one step and the target `x1 AND x2`
(truth table 136), `encode` returns true, `S[0][0][1][2]` is variable 0, and no assignment
that satisfies the emitted clauses makes it true. -/
theorem and_wiring_excluded :
    (run_clauses (encode (spec3 136) (fresh fun _ => false))).map Prod.fst = some true ∧
    (prepared (spec3 136) fun _ => false).svars 0 0 1 2 = 0 ∧
    ¬ ∃ m : Nat → Bool, cnf_sat m (encode_clauses (spec3 136)) = true ∧ m 0 = true := by
  refine ⟨by decide, by decide, ?_⟩
  rintro ⟨m, hs, hm⟩
  obtain ⟨h1, h2⟩ := and_clauses_mem
  simp only [cnf_sat, List.all_eq_true] at hs
  have a1 := hs _ h1
  have a2 := hs _ h2
  simp [clause_sat, lit_value, hm] at a1 a2
  rw [a1] at a2
  cases a2

set_option maxRecDepth 100000 in
/-- C2: the code rejects a correct chain.  For `nr_in = 3` and the target `x1 AND x2`, the
chain of one step with fanins `(0, 1, 2)` and opcode 0 equals the target on all 8 rows, and
the assignment read off it violates a clause emitted by `encode`. -/
theorem and_chain_rejected :
    (∀ r, r < 8 →
      (chain_signals 3 [(0, 1, 2, 0)] r).getD 4 false = (136).testBit r) ∧
    cnf_sat (chain_assignment (spec3 136) (prepared (spec3 136) fun _ => false) [(0, 1, 2, 0)])
      (encode_clauses (spec3 136)) = false ∧
    clause_sat (chain_assignment (spec3 136) (prepared (spec3 136) fun _ => false) [(0, 1, 2, 0)])
      [1, 22] = false := by
  refine ⟨by decide, by decide, by decide⟩

set_option maxRecDepth 100000 in
/-- C1: the decoded chain can differ from the target.  For `nr_in = 3`, one step and the
target `x1 XOR x2 XOR x3` (truth table 150), the assignment `xor3_model` satisfies every
clause emitted by `encode`, `extract_mig` returns the step `(1, 2, 3)` with opcode 0, and
on row 3 the chain gives 1 where the target has 0. -/
theorem roundtrip_fails :
    cnf_sat xor3_model (encode_clauses (spec3 150)) = true ∧
    decoded (spec3 150) xor3_model = some ⟨3, [(1, 2, 3, 0)], [8]⟩ ∧
    chain_output ⟨3, [(1, 2, 3, 0)], [8]⟩ 3 = true ∧ (150).testBit 3 = false := by
  refine ⟨by decide, by decide, by decide, by decide⟩

set_option maxRecDepth 100000 in
/-- C10 fails as stated.  With `nr_in = 3` and one step, `create_tt_clauses(spec, 0)` makes
60 invocations, 15 for each of the 4 wirings, and none with `(a, b, c, d) = (0, 0, 0, 0)`:
the invocation `(t, i, j, k, l, a, b, c, d) = (0, 0, 0, 1, 2, 0, 0, 0, 0)` is absent. -/
theorem tt_calls_miss_zero :
    (run_calls (create_tt_clauses (spec3 136) 0 (prepared (spec3 136) fun _ => false))).map
        (fun L => (L.length, decide ((0, 0, 0, 1, 2, 0, 0, 0, 0) ∈ L)))
      = some (60, false) := by
  decide

/-! ### The enumeration of `create_tt_clauses` -/

theorem foldlM_calls {α : Type}
    (f : Bool × mig_encoder → α → Except Fault (Bool × mig_encoder)) (g : α → List sim_call)
    (xs : List α)
    (hf : ∀ x ∈ xs, ∀ s, no_assert_fails s →
      ∃ s', f s x = .ok s' ∧ no_assert_fails s' ∧ s'.2.calls = s.2.calls ++ g x)
    (s : Bool × mig_encoder) (hs : no_assert_fails s) :
    ∃ s', xs.foldlM f s = .ok s' ∧ no_assert_fails s' ∧
      s'.2.calls = s.2.calls ++ xs.flatMap g := by
  induction xs generalizing s with
  | nil => exact ⟨s, rfl, hs, by simp⟩
  | cons x xs ih =>
    obtain ⟨s1, h1, g1, c1⟩ := hf x (List.mem_cons_self _ _) s hs
    obtain ⟨s2, h2, g2, c2⟩ := ih (fun y hy => hf y (List.mem_cons_of_mem _ hy)) s1 g1
    refine ⟨s2, ?_, g2, ?_⟩
    · rw [List.foldlM_cons, h1]
      exact h2
    · rw [c2, c1, List.flatMap_cons, List.append_assoc]

theorem sim_step_calls (spec : spec) (t i j k l a b c d : Nat)
    (hbound : i < 16 ∧ j < 16 ∧ k < 16 ∧ l < 16) (s : Bool × mig_encoder)
    (hs : no_assert_fails s) :
    ∃ s', sim_step spec t i j k l a b c d s = .ok s' ∧ no_assert_fails s' ∧
      s'.2.calls = s.2.calls ++ [(t, i, j, k, l, a, b, c, d)] := by
  have hok : s.2.ndebug = true ∨ ∀ cs cl, s.2.solver.accepts cs cl = true := by
    rcases hs with h | h
    · exact Or.inl h
    · exact Or.inr h.2
  unfold sim_step
  rw [add_simulation_clause_eq spec s.2 t i j k l a b c d hbound hok]
  cases hp : sim_pLits spec s.2 t i j k l a b c d with
  | none =>
    refine ⟨_, rfl, ?_, rfl⟩
    rcases hs with h | h
    · exact Or.inl h
    · exact Or.inr ⟨by simp [h.1], h.2⟩
  | some p =>
    refine ⟨_, rfl, ?_, rfl⟩
    rcases hs with h | h
    · exact Or.inl h
    · refine Or.inr ⟨?_, h.2⟩
      simp only [h.1, Bool.true_and]
      split <;> exact h.2 _ _

theorem tt_body_eq (spec : spec) (t i j k l : Nat) (re : Bool × mig_encoder) :
    tt_body spec t i j k l re
      = tt_combos.foldlM (fun re q => sim_step spec t i j k l q.1 q.2.1 q.2.2.1 q.2.2.2 re) re := by
  simp only [tt_body, tt_combos, List.foldlM_cons, List.foldlM_nil, bind_pure]

theorem tt_body_good (spec : spec) (t i j k l : Nat)
    (hbound : i < 16 ∧ j < 16 ∧ k < 16 ∧ l < 16) (s : Bool × mig_encoder)
    (hs : no_assert_fails s) :
    ∃ s', tt_body spec t i j k l s = .ok s' ∧ no_assert_fails s' ∧
      s'.2.calls = s.2.calls ++ tt_body_calls t i j k l := by
  rw [tt_body_eq]
  obtain ⟨s', h1, h2, h3⟩ := foldlM_calls
    (fun re q => sim_step spec t i j k l q.1 q.2.1 q.2.2.1 q.2.2.2 re)
    (fun q => [(t, i, j, k, l, q.1, q.2.1, q.2.2.1, q.2.2.2)]) tt_combos
    (fun q _ s hs => sim_step_calls spec t i j k l _ _ _ _ hbound s hs) s hs
  refine ⟨s', h1, h2, ?_⟩
  rw [h3]
  rfl

theorem create_tt_clauses_calls (spec : spec) (t : Nat) (e : mig_encoder)
    (hfit : fits_table spec) (hs : no_assert_fails (true, e)) :
    ∃ s', create_tt_clauses spec t e = .ok s' ∧ no_assert_fails s' ∧
      s'.2.calls = e.calls ++ tt_calls spec t := by
  unfold create_tt_clauses tt_calls
  refine foldlM_calls _ _ _ ?_ (true, e) hs
  intro i hi s hs
  have hi' := List.mem_range.1 hi
  obtain ⟨h16, h15⟩ := hfit
  obtain ⟨s', h1, h2, h3⟩ := foldlM_calls
    (fun re l =>
      (List.range' 1 (l - 1)).foldlM (fun re k =>
        (List.range k).foldlM (fun re j => tt_body spec t i j k l re) re) re)
    (fun l => (List.range' 1 (l - 1)).flatMap fun k =>
      (List.range k).flatMap fun j => tt_body_calls t i j k l)
    (List.range' 2 (spec.nr_in + i - 1))
    (by
      intro l hl s hs
      have hl' := List.mem_range'.1 hl
      refine foldlM_calls _ _ _ ?_ s hs
      intro k hk s hs
      have hk' := List.mem_range'.1 hk
      refine foldlM_calls _ _ _ ?_ s hs
      intro j hj s hs
      have hj' := List.mem_range.1 hj
      exact tt_body_good spec t i j k l (by omega) s hs)
    s hs
  refine ⟨s', ?_, h2, h3⟩
  simp only [bind, Except.bind] at h1 ⊢
  rw [h1]
  have ha : assert_ok s'.2 s'.1 = .ok () := by
    apply assert_ok_of
    rcases h2 with h | h
    · exact Or.inl h
    · exact Or.inr h.1
  simp only [ha]
  rfl

theorem mem_tt_combos (a b c d : Nat) :
    (a, b, c, d) ∈ tt_combos ↔
      a ≤ 1 ∧ b ≤ 1 ∧ c ≤ 1 ∧ d ≤ 1 ∧ ¬ (a = 0 ∧ b = 0 ∧ c = 0 ∧ d = 0) := by
  constructor
  · intro h
    simp only [tt_combos, List.mem_cons, Prod.mk.injEq, List.not_mem_nil, or_false] at h
    omega
  · rintro ⟨ha, hb, hc, hd, hn⟩
    interval_cases a <;> interval_cases b <;> interval_cases c <;> interval_cases d <;>
      first
      | decide
      | exact absurd ⟨rfl, rfl, rfl, rfl⟩ hn

theorem mem_tt_calls (spec : spec) (t t' i j k l a b c d : Nat) :
    (t', i, j, k, l, a, b, c, d) ∈ tt_calls spec t ↔
      t' = t ∧ valid_sel spec i j k l ∧
        a ≤ 1 ∧ b ≤ 1 ∧ c ≤ 1 ∧ d ≤ 1 ∧ ¬ (a = 0 ∧ b = 0 ∧ c = 0 ∧ d = 0) := by
  simp only [tt_calls, tt_body_calls, List.mem_flatMap, List.mem_range, List.mem_range',
    List.mem_map, Prod.mk.injEq, valid_sel]
  constructor
  · rintro ⟨i', hi, l', ⟨x, hx, rfl⟩, k', ⟨y, hy, rfl⟩, j', hj, ⟨a', b', c', d'⟩, hq,
      rfl, rfl, rfl, rfl, rfl, rfl, rfl, rfl, rfl⟩
    have := (mem_tt_combos a' b' c' d').1 hq
    refine ⟨rfl, ⟨hi, hj, by omega, by omega⟩, this⟩
  · rintro ⟨rfl, ⟨hi, h1, h2, h3⟩, hq⟩
    exact ⟨i, hi, l, ⟨l - 2, by omega, by omega⟩, k, ⟨k - 1, by omega, by omega⟩, j, h1,
      (a, b, c, d), (mem_tt_combos a b c d).2 hq, rfl, rfl, rfl, rfl, rfl, rfl, rfl, rfl, rfl⟩

theorem nodup_tt_calls (spec : spec) (t : Nat) : (tt_calls spec t).Nodup := by
  unfold tt_calls
  refine nodup_flatMap_of_tag _ _ (fun x => x.2.1) (List.nodup_range _) ?_ ?_
  · intro i _
    refine nodup_flatMap_of_tag _ _ (fun x => x.2.2.2.2.1) (List.nodup_range' _ _) ?_ ?_
    · intro l _
      refine nodup_flatMap_of_tag _ _ (fun x => x.2.2.2.1) (List.nodup_range' _ _) ?_ ?_
      · intro k _
        refine nodup_flatMap_of_tag _ _ (fun x => x.2.2.1) (List.nodup_range _) ?_ ?_
        · intro j _
          unfold tt_body_calls
          refine List.Nodup.map ?_ (by decide)
          rintro ⟨a, b, c, d⟩ ⟨a', b', c', d'⟩ h
          simp only [Prod.mk.injEq, true_and] at h
          simp only [Prod.mk.injEq]
          exact h
        · intro j _ y hy
          simp only [tt_body_calls, List.mem_map] at hy
          obtain ⟨q, _, rfl⟩ := hy
          rfl
      · intro k _ y hy
        simp only [tt_body_calls, List.mem_flatMap, List.mem_map] at hy
        obtain ⟨j, _, q, _, rfl⟩ := hy
        rfl
    · intro l _ y hy
      simp only [tt_body_calls, List.mem_flatMap, List.mem_map] at hy
      obtain ⟨k, _, j, _, q, _, rfl⟩ := hy
      rfl
  · intro i _ y hy
    simp only [tt_body_calls, List.mem_flatMap, List.mem_map] at hy
    obtain ⟨l, _, k, _, j, _, q, _, rfl⟩ := hy
    rfl

/-- C10, as the code has it.  For a specification within the table and no failing
assertion, `create_tt_clauses(spec, t)` returns, and the invocations of
`add_simulation_clause` it makes are, each exactly once, those with row `t`, a step `i`, a
wiring `0 ≤ j < k < l ≤ nr_in + i` and one of the 15 combinations `(a, b, c, d)` in
`{0, 1}^4` other than `(0, 0, 0, 0)`. -/
theorem tt_calls_enumeration (spec : spec) (t : Nat) (e : mig_encoder)
    (hfit : fits_table spec)
    (hok : e.ndebug = true ∨ ∀ cs cl, e.solver.accepts cs cl = true) :
    ∃ r e' L, create_tt_clauses spec t e = .ok (r, e') ∧ e'.calls = e.calls ++ L ∧
      L.Nodup ∧
      ∀ t' i j k l a b c d, (t', i, j, k, l, a, b, c, d) ∈ L ↔
        t' = t ∧ valid_sel spec i j k l ∧
          a ≤ 1 ∧ b ≤ 1 ∧ c ≤ 1 ∧ d ≤ 1 ∧ ¬ (a = 0 ∧ b = 0 ∧ c = 0 ∧ d = 0) := by
  have hs : no_assert_fails (true, e) := by
    rcases hok with h | h
    · exact Or.inl h
    · exact Or.inr ⟨rfl, h⟩
  obtain ⟨s', h1, _, h3⟩ := create_tt_clauses_calls spec t e hfit hs
  exact ⟨s'.1, s'.2, tt_calls spec t, h1, h3, nodup_tt_calls spec t,
    fun t' i j k l a b c d => mem_tt_calls spec t t' i j k l a b c d⟩

theorem tt_calls_enumeration_witness :
    fits_table (spec3 136) ∧
      ∃ r e' L, create_tt_clauses (spec3 136) 0 (prepared (spec3 136) fun _ => false)
          = .ok (r, e') ∧
        e'.calls = (prepared (spec3 136) fun _ => false).calls ++ L ∧ L.Nodup := by
  have hfit : fits_table (spec3 136) := by simp [fits_table, spec3]
  obtain ⟨r, e', L, h1, h2, h3, _⟩ :=
    tt_calls_enumeration (spec3 136) 0 (prepared (spec3 136) fun _ => false) hfit
      (Or.inr (fun _ _ => rfl))
  exact ⟨hfit, r, e', L, h1, h2, h3⟩

/-! ### `colex_compare` -/

theorem colex_loop_neg {α : Type} [LinearOrder α] {FI : Nat} (x y : Fin FI → α) (n : Nat)
    (h : n ≤ FI) :
    colex_loop x y n h = -1 ↔
      ∃ i : Fin FI, i.val < n ∧ x i < y i ∧ ∀ j : Fin FI, i < j → j.val < n → x j = y j := by
  induction n with
  | zero =>
    simp only [colex_loop]
    constructor
    · intro h0
      cases h0
    · rintro ⟨i, hi, _⟩
      omega
  | succ n ih =>
    simp only [colex_loop]
    by_cases h1 : x ⟨n, h⟩ < y ⟨n, h⟩
    · simp only [h1, if_true, true_iff]
      refine ⟨⟨n, h⟩, Nat.lt_succ_self n, h1, ?_⟩
      intro j hj hjn
      have : n < j.val := hj
      omega
    · simp only [h1, if_false]
      by_cases h2 : x ⟨n, h⟩ > y ⟨n, h⟩
      · simp only [h2, if_true]
        constructor
        · intro h0
          cases h0
        · rintro ⟨i, hi, hlt, hall⟩
          exfalso
          by_cases hin : i.val = n
          · have : i = ⟨n, h⟩ := Fin.ext hin
            rw [this] at hlt
            exact h1 hlt
          · have hj := hall ⟨n, h⟩ (by show i.val < n; omega) (Nat.lt_succ_self n)
            rw [hj] at h2
            exact lt_irrefl _ h2
      · simp only [h2, if_false]
        have heq : x ⟨n, h⟩ = y ⟨n, h⟩ := le_antisymm (not_lt.1 h2) (not_lt.1 h1)
        rw [ih (Nat.le_of_succ_le h)]
        constructor
        · rintro ⟨i, hi, hlt, hall⟩
          refine ⟨i, by omega, hlt, ?_⟩
          intro j hj hjn
          by_cases hjn' : j.val = n
          · have : j = ⟨n, h⟩ := Fin.ext hjn'
            rw [this]
            exact heq
          · exact hall j hj (by omega)
        · rintro ⟨i, hi, hlt, hall⟩
          have hin : i.val ≠ n := by
            intro hin
            have : i = ⟨n, h⟩ := Fin.ext hin
            rw [this, heq] at hlt
            exact lt_irrefl _ hlt
          exact ⟨i, by omega, hlt, fun j hj hjn => hall j hj (by omega)⟩

theorem colex_loop_swap {α : Type} [LinearOrder α] {FI : Nat} (x y : Fin FI → α) (n : Nat)
    (h : n ≤ FI) : colex_loop x y n h = - colex_loop y x n h := by
  induction n with
  | zero => simp [colex_loop]
  | succ n ih =>
    simp only [colex_loop]
    rcases lt_trichotomy (x ⟨n, h⟩) (y ⟨n, h⟩) with h1 | h1 | h1
    · have h2 : ¬ y ⟨n, h⟩ < x ⟨n, h⟩ := not_lt.2 (le_of_lt h1)
      simp [h1, h2]
    · simp only [h1, lt_irrefl, if_false, gt_iff_lt]
      exact ih (Nat.le_of_succ_le h)
    · have h2 : ¬ x ⟨n, h⟩ < y ⟨n, h⟩ := not_lt.2 (le_of_lt h1)
      simp [h1, h2]

theorem colex_loop_zero {α : Type} [LinearOrder α] {FI : Nat} (x y : Fin FI → α) (n : Nat)
    (h : n ≤ FI) :
    colex_loop x y n h = 0 ↔ ∀ j : Fin FI, j.val < n → x j = y j := by
  induction n with
  | zero =>
    simp only [colex_loop, true_iff]
    intro j hj
    omega
  | succ n ih =>
    simp only [colex_loop]
    by_cases h1 : x ⟨n, h⟩ < y ⟨n, h⟩
    · simp only [h1, if_true]
      constructor
      · intro h0
        cases h0
      · intro hall
        have := hall ⟨n, h⟩ (Nat.lt_succ_self n)
        rw [this] at h1
        exact absurd h1 (lt_irrefl _)
    · simp only [h1, if_false]
      by_cases h2 : x ⟨n, h⟩ > y ⟨n, h⟩
      · simp only [h2, if_true]
        constructor
        · intro h0
          cases h0
        · intro hall
          have := hall ⟨n, h⟩ (Nat.lt_succ_self n)
          rw [this] at h2
          exact absurd h2 (lt_irrefl _)
      · simp only [h2, if_false]
        have heq : x ⟨n, h⟩ = y ⟨n, h⟩ := le_antisymm (not_lt.1 h2) (not_lt.1 h1)
        rw [ih (Nat.le_of_succ_le h)]
        constructor
        · intro hall j hj
          by_cases hjn : j.val = n
          · have : j = ⟨n, h⟩ := Fin.ext hjn
            rw [this]
            exact heq
          · exact hall j (by omega)
        · intro hall j hj
          exact hall j (by omega)

theorem colex_loop_range {α : Type} [LinearOrder α] {FI : Nat} (x y : Fin FI → α) (n : Nat)
    (h : n ≤ FI) :
    colex_loop x y n h = 1 ∨ colex_loop x y n h = -1 ∨ colex_loop x y n h = 0 := by
  induction n with
  | zero => simp [colex_loop]
  | succ n ih =>
    simp only [colex_loop]
    split
    · simp
    · split
      · simp
      · exact ih _

theorem colex_loop_ptr_eq {α : Type} [LinearOrder α] {FI : Nat} (x y : Fin FI → α)
    (p q : Nat → α) (hp : ∀ i : Fin FI, p i.val = x i) (hq : ∀ i : Fin FI, q i.val = y i)
    (n : Nat) (h : n ≤ FI) : colex_loop_ptr p q n = colex_loop x y n h := by
  induction n with
  | zero => rfl
  | succ n ih =>
    simp only [colex_loop, colex_loop_ptr]
    have h1 := hp ⟨n, h⟩
    have h2 := hq ⟨n, h⟩
    simp only at h1 h2
    rw [h1, h2, ih (Nat.le_of_succ_le h)]

/-- C18 (`colex_compare`).  On two arrays of length `FI` the result is `1` exactly when the
first is colexicographically greater (the order decided at the highest index at which they
differ), `-1` exactly when it is smaller, and `0` otherwise; it is `0` iff the arrays are
equal; `colex_compare(x, y) = -colex_compare(y, x)`; and the pointer overload returns the same
value on the same contents. -/
theorem colex_compare_spec {α : Type} [LinearOrder α] (FI : Nat) (x y : Fin FI → α) :
    (colex_compare FI x y = 1 ↔ colex_lt y x) ∧
    (colex_compare FI x y = -1 ↔ colex_lt x y) ∧
    (colex_compare FI x y = 0 ↔ ¬ colex_lt y x ∧ ¬ colex_lt x y) ∧
    (colex_compare FI x y = 0 ↔ x = y) ∧
    colex_compare FI x y = - colex_compare FI y x ∧
    ∀ p q : Nat → α, (∀ i : Fin FI, p i.val = x i) → (∀ i : Fin FI, q i.val = y i) →
      colex_compare_ptr FI p q = colex_compare FI x y := by
  have hneg : ∀ a b : Fin FI → α, colex_compare FI a b = -1 ↔ colex_lt a b := by
    intro a b
    unfold colex_compare colex_lt
    rw [colex_loop_neg]
    constructor
    · rintro ⟨i, _, h1, h2⟩
      exact ⟨i, h1, fun j hj => h2 j hj j.isLt⟩
    · rintro ⟨i, h1, h2⟩
      exact ⟨i, i.isLt, h1, fun j hj _ => h2 j hj⟩
  have hswap : colex_compare FI x y = - colex_compare FI y x := colex_loop_swap x y FI _
  have hpos : colex_compare FI x y = 1 ↔ colex_lt y x := by
    rw [← hneg y x, hswap]
    constructor
    · intro h
      have : colex_compare FI y x = -(1 : Int) := by rw [← h]; simp
      exact this
    · intro h
      rw [h]
      rfl
  have hzero : colex_compare FI x y = 0 ↔ x = y := by
    unfold colex_compare
    rw [colex_loop_zero]
    constructor
    · intro h
      funext j
      exact h j j.isLt
    · intro h j _
      rw [h]
  refine ⟨hpos, hneg x y, ?_, hzero, hswap, ?_⟩
  · rw [← hpos, ← hneg x y]
    rcases colex_loop_range x y FI (Nat.le_refl FI) with h | h | h
    · have h' : colex_compare FI x y = 1 := h
      rw [h']
      decide
    · have h' : colex_compare FI x y = -1 := h
      rw [h']
      decide
    · have h' : colex_compare FI x y = 0 := h
      rw [h']
      decide
  · intro p q hp hq
    exact colex_loop_ptr_eq x y p q hp hq FI _

/-! ### Decoding at three inputs and one step -/

/-- C11: the decoder does not take the first true selection.  With `nr_in = 4`, one step and
the assignment `two_sel_model`, in which the selection variables 3 (`S[0][1][2][3]`) and 6
(`S[0][1][2][4]`) of step 0 are true, `extract_mig` sets the fanins `(1, 2, 4)`, those of the
true selection variable with the larger id, and the chain differs from the target
`MAJ(x1, x2, x3)` on row 5. -/
theorem extract_takes_last_block :
    extracted (spec_of 4 1 59624) two_sel_model = some ⟨4, [(1, 2, 4, 0)], [10]⟩ ∧
    (prepared (spec_of 4 1 59624) two_sel_model).svars 0 1 2 3 = 3 ∧
    (prepared (spec_of 4 1 59624) two_sel_model).svars 0 1 2 4 = 6 ∧
    two_sel_model 3 = true ∧ two_sel_model 6 = true ∧
    (∀ v, v < 3 → two_sel_model v = false) ∧
    chain_output ⟨4, [(1, 2, 4, 0)], [10]⟩ 5 = false ∧ (59624).testBit 5 = true := by
  decide

/-- C12: the decoder does not abort.  With `nr_in = 3`, one step and an assignment in which
no operation variable is true (only the selection variable 3 is), `extract_mig` returns the
chain with step `(1, 2, 3)` and opcode 0, whether `verbosity` is 0 or 1. -/
theorem extract_without_op_returns :
    extracted (spec3 136) (fun v => decide (v = 3)) = some ⟨3, [(1, 2, 3, 0)], [8]⟩ ∧
    extracted { spec3 136 with verbosity := 1 } (fun v => decide (v = 3))
      = some ⟨3, [(1, 2, 3, 0)], [8]⟩ ∧
    (∀ v, v < 4 →
      (prepared (spec3 136) fun v => decide (v = 3)).solver.var_value
        (get_op_var (prepared (spec3 136) fun v => decide (v = 3)) (spec3 136) 0 v) = false) := by
  decide

/-- C14: the inversion bit of the output is bit 0 of `out_inv`.  With `nr_in = 3`, one step,
`synth_func(0) = 1` and `out_inv = 2`, `extract_mig` sets the output literal 8, signal 4
with inversion bit 0, while `(out_inv >> synth_func(0)) & 1` is 1 and the unit clause of
`fix_output_sim_vars` for row 7, where the target 136 has a 1, is the negated literal 29 of `V[0][6]`. -/
theorem output_inversion_differs :
    extracted { spec3 136 with out_inv := 2, synth_func := fun _ => 1 } (fun v => decide (v = 3))
      = some ⟨3, [(1, 2, 3, 0)], [8]⟩ ∧
    8 >>> 1 = 3 + 1 ∧ 8 % 2 = 0 ∧ (2 >>> 1) % 2 = 1 ∧
    output_sim_lit { spec3 136 with out_inv := 2, synth_func := fun _ => 1 }
      (prepared { spec3 136 with out_inv := 2, synth_func := fun _ => 1 } fun _ => false) 6
      = 29 ∧ (136).testBit 7 = true := by
  decide

set_option maxRecDepth 1000000 in
/-- C16: no capacity check.  With `nr_in = 16` and one step (`nr_in + nr_steps - 1 = 16 > 15`)
both `create_variables` and `encode` run into the store `svars[0][0][1][16]`, outside the
table; no configuration error is reported before it. -/
theorem no_capacity_check :
    ¬ fits_table (spec_in 16 0) ∧
    fault_of (create_variables (spec_in 16 0) (fresh fun _ => false))
      = some Fault.out_of_bounds ∧
    fault_of (encode (spec_in 16 0) (fresh fun _ => false)) = some Fault.out_of_bounds := by
  refine ⟨by simp [fits_table, spec_in], by decide, by decide⟩

set_option maxRecDepth 1000000 in
/-- C17: a fanin clause can exceed the buffer.  With `nr_in = 10` and one step, which fits
the table, the fanin clause of step 0 has 165 literals and `create_fanin_clauses` stores
beyond `pLits[127]`. -/
theorem fanin_clause_overflows :
    3 ≤ (spec_in 10 0).nr_in ∧ fits_table (spec_in 10 0) ∧
    (wirings (spec_in 10 0).nr_in 0).length = 165 ∧
    fault_of (create_fanin_clauses (spec_in 10 0) (prepared (spec_in 10 0) fun _ => false))
      = some Fault.out_of_bounds := by
  refine ⟨by decide, by simp [fits_table, spec_in], by decide, by decide⟩

/-! ### Decoding -/

theorem extract_mig_eq (spec : spec) (e : mig_encoder) (chain : mig) :
    extract_mig spec e chain = (do
      let r ← (List.range spec.nr_steps).foldlM (extract_body spec e)
        ((0, 0, 0), chain.reset spec.nr_in 1 spec.nr_steps)
      pure (r.2.set_output 0 (((spec.nr_steps + spec.nr_in) <<< 1) + (spec.out_inv &&& 1)))) :=
  rfl

theorem scan_op_spec (spec : spec) (e : mig_encoder) (i : Nat) :
    scan_op spec e i (List.range MIG_OP_VARS_PER_STEP) 0 < 4 ∧
    ((∃ v, v < 4 ∧ e.solver.var_value (get_op_var e spec i v) = true) →
      e.solver.var_value
          (get_op_var e spec i (scan_op spec e i (List.range MIG_OP_VARS_PER_STEP) 0)) = true ∧
        ∀ v, v < scan_op spec e i (List.range MIG_OP_VARS_PER_STEP) 0 →
          e.solver.var_value (get_op_var e spec i v) = false) := by
  have hr : List.range MIG_OP_VARS_PER_STEP = [0, 1, 2, 3] := by decide
  rw [hr]
  simp only [scan_op]
  cases h0 : e.solver.var_value (get_op_var e spec i 0) <;>
    cases h1 : e.solver.var_value (get_op_var e spec i 1) <;>
    cases h2 : e.solver.var_value (get_op_var e spec i 2) <;>
    cases h3 : e.solver.var_value (get_op_var e spec i 3) <;>
    simp only [if_true, if_false, Bool.false_eq_true] <;>
    refine ⟨by omega, ?_⟩ <;>
    rintro ⟨v, hv, hv'⟩ <;>
    first
    | (refine ⟨by assumption, ?_⟩
       intro w hw
       interval_cases w <;> assumption)
    | (exfalso; interval_cases v <;> simp_all)

theorem scan_j_ok (e : mig_encoder) (i k l : Nat) (hb : i < 16 ∧ k < 16 ∧ l < 16)
    (js : List Nat) (hjs : ∀ j ∈ js, j < 16) (acc : Nat × Nat × Nat) :
    ∃ r, scan_j e i k l js acc = .ok r := by
  induction js with
  | nil => exact ⟨acc, rfl⟩
  | cons j js ih =>
    have hj := hjs j (List.mem_cons_self _ _)
    obtain ⟨r, hr⟩ := ih (fun y hy => hjs y (List.mem_cons_of_mem _ hy))
    simp only [scan_j, svars_read, SVARS_DIM, hb, hj, and_self, if_true, bind, Except.bind]
    by_cases hv : e.solver.var_value (e.svars i j k l) = true
    · exact ⟨(j, k, l), by simp [hv, pure, Except.pure]⟩
    · exact ⟨r, by simp [hv, hr]⟩

theorem foldlM_ok {α σ : Type} (f : σ → α → Except Fault σ) (xs : List α)
    (hf : ∀ x ∈ xs, ∀ s, ∃ s', f s x = .ok s') (s : σ) : ∃ s', xs.foldlM f s = .ok s' := by
  induction xs generalizing s with
  | nil => exact ⟨s, rfl⟩
  | cons x xs ih =>
    obtain ⟨s1, h1⟩ := hf x (List.mem_cons_self _ _) s
    obtain ⟨s2, h2⟩ := ih (fun y hy => hf y (List.mem_cons_of_mem _ hy)) s1
    exact ⟨s2, by rw [List.foldlM_cons, h1]; exact h2⟩

theorem wiring_loops_ok (spec : spec) (e : mig_encoder) (i : Nat) (hfit : fits_table spec)
    (hi : i < spec.nr_steps) (acc : Nat × Nat × Nat) :
    ∃ r, wiring_loops spec e i acc = .ok r := by
  obtain ⟨h16, h15⟩ := hfit
  unfold wiring_loops
  refine foldlM_ok _ _ ?_ acc
  intro l hl s
  have hl' := List.mem_range'.1 hl
  refine foldlM_ok _ _ ?_ s
  intro k hk s
  have hk' := List.mem_range'.1 hk
  refine scan_j_ok e i k l (by omega) _ ?_ s
  intro j hj
  have := List.mem_range.1 hj
  omega

theorem extract_body_ok (spec : spec) (e : mig_encoder) (hfit : fits_table spec)
    (st : (Nat × Nat × Nat) × mig) (i : Nat) (hi : i < spec.nr_steps) :
    ∃ w, wiring_loops spec e i st.1 = .ok w ∧
      extract_body spec e st i = .ok (w, st.2.set_step i w.1 w.2.1 w.2.2
        (scan_op spec e i (List.range MIG_OP_VARS_PER_STEP) 0)) := by
  obtain ⟨w, hw⟩ := wiring_loops_ok spec e i hfit hi st.1
  refine ⟨w, hw, ?_⟩
  have hop := (scan_op_spec spec e i).1
  unfold extract_body
  simp only [hop, not_true_eq_false, and_false, if_false, hw, bind, Except.bind, pure,
    Except.pure]

theorem extract_fold (spec : spec) (e : mig_encoder) (hfit : fits_table spec)
    (st0 : (Nat × Nat × Nat) × mig) (hlen : st0.2.steps.length = spec.nr_steps) (n : Nat)
    (hn : n ≤ spec.nr_steps) :
    ∃ st, (List.range n).foldlM (extract_body spec e) st0 = .ok st ∧
      st.2.steps.length = spec.nr_steps ∧ st.2.nr_in = st0.2.nr_in ∧
      st.2.outputs = st0.2.outputs ∧
      ∀ i, i < n → ∃ prev w, wiring_loops spec e i prev = .ok w ∧
        st.2.steps[i]? = some (w.1, w.2.1, w.2.2,
          scan_op spec e i (List.range MIG_OP_VARS_PER_STEP) 0) := by
  induction n with
  | zero => exact ⟨st0, rfl, hlen, rfl, rfl, fun i hi => absurd hi (Nat.not_lt_zero i)⟩
  | succ n ih =>
    obtain ⟨st, h1, h2, h3, h4, h5⟩ := ih (Nat.le_of_succ_le hn)
    obtain ⟨w, hw, hb⟩ := extract_body_ok spec e hfit st n (by omega)
    refine ⟨(w, st.2.set_step n w.1 w.2.1 w.2.2
      (scan_op spec e n (List.range MIG_OP_VARS_PER_STEP) 0)), ?_, ?_, ?_, ?_, ?_⟩
    · rw [List.range_succ, List.foldlM_append, h1]
      simp only [bind, Except.bind, List.foldlM_cons, List.foldlM_nil, hb]
      rfl
    · simp [mig.set_step, h2]
    · simpa [mig.set_step] using h3
    · simpa [mig.set_step] using h4
    · intro i hi
      by_cases hin : i = n
      · subst hin
        refine ⟨st.1, w, hw, ?_⟩
        simp only [mig.set_step]
        rw [List.getElem?_set_self (by omega)]
      · obtain ⟨prev, w', hw', hs⟩ := h5 i (by omega)
        refine ⟨prev, w', hw', ?_⟩
        simp only [mig.set_step]
        rw [List.getElem?_set_ne (fun h => hin h.symm)]
        exact hs

/-- C13 (decoder opcode choice).  For a specification within the table, `extract_mig`
returns a chain, and for every step `i` with at least one true operation variable the
opcode of step `i` is an index `op < 4` whose operation variable is true while those of all
smaller indices are false; when exactly one operation variable of the step is true the
opcode is its index. -/
theorem opcode_choice (spec : spec) (e : mig_encoder) (chain0 : mig) (hfit : fits_table spec) :
    ∃ chain, extract_mig spec e chain0 = .ok chain ∧
      ∀ i, i < spec.nr_steps →
        (∃ v, v < 4 ∧ e.solver.var_value (get_op_var e spec i v) = true) →
        ∃ j k l op, chain.steps[i]? = some (j, k, l, op) ∧ op < 4 ∧
          e.solver.var_value (get_op_var e spec i op) = true ∧
          (∀ v, v < op → e.solver.var_value (get_op_var e spec i v) = false) ∧
          (∀ v0, v0 < 4 →
            (∀ v, v < 4 → (e.solver.var_value (get_op_var e spec i v) = true ↔ v = v0)) →
            op = v0) := by
  obtain ⟨st, h1, _, _, _, h5⟩ := extract_fold spec e hfit
    ((0, 0, 0), chain0.reset spec.nr_in 1 spec.nr_steps) (by simp [mig.reset]) spec.nr_steps
    (Nat.le_refl _)
  refine ⟨st.2.set_output 0 (((spec.nr_steps + spec.nr_in) <<< 1) + (spec.out_inv &&& 1)),
    ?_, ?_⟩
  · rw [extract_mig_eq, h1]
    rfl
  · intro i hi hex
    obtain ⟨prev, w, _, hs⟩ := h5 i hi
    obtain ⟨hlt, hsp⟩ := scan_op_spec spec e i
    obtain ⟨htrue, hsmall⟩ := hsp hex
    refine ⟨w.1, w.2.1, w.2.2, _, ?_, hlt, htrue, hsmall, ?_⟩
    · simpa [mig.set_output] using hs
    · intro v0 hv0 huniq
      exact (huniq _ hlt).1 htrue

theorem opcode_choice_witness :
    fits_table (spec3 136) ∧
      ∃ chain, extract_mig (spec3 136) (prepared (spec3 136) xor3_model) ⟨0, [], []⟩
        = .ok chain := by
  have hfit : fits_table (spec3 136) := by simp [fits_table, spec3]
  obtain ⟨chain, h, _⟩ :=
    opcode_choice (spec3 136) (prepared (spec3 136) xor3_model) ⟨0, [], []⟩ hfit
  exact ⟨hfit, chain, h⟩

/-! ### Colex clauses and selections at small sizes -/

set_option maxRecDepth 1000000 in
/-- C20: the colex clauses do not order the wirings.  With `nr_in = 3` and two steps,
`create_colex_clauses` returns after submitting 8 clauses for step 0, which has 4 valid
wirings (the loop over `j` runs to `l`, not to `k`), each clause a disjunction of negated
literals; the assignment in which exactly the variables 3 (`S[0][1][2][3]`) and 4
(`S[1][0][1][2]`) are true satisfies them all, although `(0, 1, 2)` is colexicographically
smaller than `(1, 2, 3)`. -/
theorem colex_order_not_enforced :
    fault_of (create_colex_clauses (spec_of 3 2 136) (prepared (spec_of 3 2 136) fun _ => false))
      = none ∧
    colex_clauses (spec_of 3 2 136)
      = [[1], [1, 9], [3, 9], [1, 9, 11], [1, 9, 11, 1], [5, 9, 11], [7, 9, 11, 13],
         [1, 9, 11, 13, 15]] ∧
    (wirings 3 0).length = 4 ∧
    (prepared (spec_of 3 2 136) fun _ => false).svars 0 1 2 3 = 3 ∧
    (prepared (spec_of 3 2 136) fun _ => false).svars 1 0 1 2 = 4 ∧
    cnf_sat (fun v => decide (v = 3 ∨ v = 4)) (colex_clauses (spec_of 3 2 136)) = true ∧
    colex_compare 3 (fanin_array 0 1 2) (fanin_array 1 2 3) = -1 := by
  decide

/-! ### The clauses of a whole run -/

theorem after_calls_nil (spec : spec) (e0 : mig_encoder) : after_calls spec e0 [] = e0 := by
  simp [after_calls]

theorem sim_step_after (spec : spec) (e0 : mig_encoder) (t i j k l a b c d : Nat)
    (hbound : i < 16 ∧ j < 16 ∧ k < 16 ∧ l < 16) (r : Bool) (K : List sim_call)
    (hs : no_assert_fails (r, e0)) :
    ∃ r', sim_step spec t i j k l a b c d (r, after_calls spec e0 K)
        = .ok (r', after_calls spec e0 (K ++ [(t, i, j, k, l, a, b, c, d)])) ∧
      no_assert_fails (r', e0) := by
  have hok : (after_calls spec e0 K).ndebug = true ∨
      ∀ cs cl, (after_calls spec e0 K).solver.accepts cs cl = true := by
    rcases hs with h | h
    · exact Or.inl h
    · exact Or.inr h.2
  have hsp : sim_pLits spec (after_calls spec e0 K) t i j k l a b c d
      = sim_pLits spec e0 t i j k l a b c d := rfl
  unfold sim_step
  rw [add_simulation_clause_eq spec _ t i j k l a b c d hbound hok, hsp]
  cases hp : sim_pLits spec e0 t i j k l a b c d with
  | none =>
    refine ⟨r && true, ?_, ?_⟩
    · simp only [bind, Except.bind, pure, Except.pure, after_calls, call_clauses, hp,
        List.flatMap_append, List.flatMap_cons, List.flatMap_nil, List.append_nil,
        List.append_assoc]
    · rcases hs with h | h
      · exact Or.inl h
      · have hr : r = true := h.1
        exact Or.inr ⟨by simp [hr], h.2⟩
  | some p =>
    refine ⟨r && (if j = 0 then e0.solver.accepts
        ((e0.solver.clauses ++ K.flatMap (call_clauses spec e0)) ++ [p]) p
      else e0.solver.accepts (e0.solver.clauses ++ K.flatMap (call_clauses spec e0)) p), ?_, ?_⟩
    · simp only [bind, Except.bind, pure, Except.pure, after_calls, call_clauses, hp,
        List.flatMap_append, List.flatMap_cons, List.flatMap_nil, List.append_nil,
        List.append_assoc]
    · rcases hs with h | h
      · exact Or.inl h
      · have hr : r = true := h.1
        have ha : ∀ cs cl, e0.solver.accepts cs cl = true := h.2
        refine Or.inr ⟨?_, h.2⟩
        show (r && _) = true
        rw [hr, Bool.true_and]
        split <;> exact ha _ _

theorem foldlM_after {α : Type} (spec : spec) (e0 : mig_encoder)
    (f : Bool × mig_encoder → α → Except Fault (Bool × mig_encoder)) (g : α → List sim_call)
    (xs : List α)
    (hf : ∀ x ∈ xs, ∀ r K, no_assert_fails (r, e0) →
      ∃ r', f (r, after_calls spec e0 K) x = .ok (r', after_calls spec e0 (K ++ g x)) ∧
        no_assert_fails (r', e0))
    (r : Bool) (K : List sim_call) (hs : no_assert_fails (r, e0)) :
    ∃ r', xs.foldlM f (r, after_calls spec e0 K)
        = .ok (r', after_calls spec e0 (K ++ xs.flatMap g)) ∧ no_assert_fails (r', e0) := by
  induction xs generalizing r K with
  | nil => exact ⟨r, by simp [pure, Except.pure], hs⟩
  | cons x xs ih =>
    obtain ⟨r1, h1, g1⟩ := hf x (List.mem_cons_self _ _) r K hs
    obtain ⟨r2, h2, g2⟩ := ih (fun y hy => hf y (List.mem_cons_of_mem _ hy)) r1 (K ++ g x) g1
    refine ⟨r2, ?_, g2⟩
    rw [List.foldlM_cons, h1]
    simp only [bind, Except.bind]
    rw [h2, List.flatMap_cons, List.append_assoc]

theorem tt_body_after (spec : spec) (e0 : mig_encoder) (t i j k l : Nat)
    (hbound : i < 16 ∧ j < 16 ∧ k < 16 ∧ l < 16) (r : Bool) (K : List sim_call)
    (hs : no_assert_fails (r, e0)) :
    ∃ r', tt_body spec t i j k l (r, after_calls spec e0 K)
        = .ok (r', after_calls spec e0 (K ++ tt_body_calls t i j k l)) ∧
      no_assert_fails (r', e0) := by
  rw [tt_body_eq]
  obtain ⟨r', h1, h2⟩ := foldlM_after spec e0
    (fun re q => sim_step spec t i j k l q.1 q.2.1 q.2.2.1 q.2.2.2 re)
    (fun q => [(t, i, j, k, l, q.1, q.2.1, q.2.2.1, q.2.2.2)]) tt_combos
    (fun q _ r K hs => sim_step_after spec e0 t i j k l _ _ _ _ hbound r K hs) r K hs
  refine ⟨r', ?_, h2⟩
  rw [h1]
  rfl

theorem create_tt_clauses_after (spec : spec) (e0 : mig_encoder) (t : Nat)
    (hfit : fits_table spec) (K : List sim_call) (hs : no_assert_fails (true, e0)) :
    ∃ r', create_tt_clauses spec t (after_calls spec e0 K)
        = .ok (r', after_calls spec e0 (K ++ tt_calls spec t)) ∧
      no_assert_fails (r', e0) := by
  unfold create_tt_clauses tt_calls
  refine foldlM_after spec e0 _ _ _ ?_ true K hs
  intro i hi r K hs
  have hi' := List.mem_range.1 hi
  obtain ⟨h16, h15⟩ := hfit
  obtain ⟨r', h1, h2⟩ := foldlM_after spec e0
    (fun re l =>
      (List.range' 1 (l - 1)).foldlM (fun re k =>
        (List.range k).foldlM (fun re j => tt_body spec t i j k l re) re) re)
    (fun l => (List.range' 1 (l - 1)).flatMap fun k =>
      (List.range k).flatMap fun j => tt_body_calls t i j k l)
    (List.range' 2 (spec.nr_in + i - 1))
    (by
      intro l hl r K hs
      have hl' := List.mem_range'.1 hl
      refine foldlM_after spec e0 _ _ _ ?_ r K hs
      intro k hk r K hs
      have hk' := List.mem_range'.1 hk
      refine foldlM_after spec e0 _ _ _ ?_ r K hs
      intro j hj r K hs
      have hj' := List.mem_range.1 hj
      exact tt_body_after spec e0 t i j k l (by omega) r K hs)
    r K hs
  refine ⟨r', ?_, h2⟩
  simp only [bind, Except.bind] at h1 ⊢
  rw [h1]
  have ha : assert_ok (after_calls spec e0
      (K ++ (List.range' 2 (spec.nr_in + i - 1)).flatMap fun l =>
        (List.range' 1 (l - 1)).flatMap fun k =>
          (List.range k).flatMap fun j => tt_body_calls t i j k l)) r' = .ok () := by
    apply assert_ok_of
    rcases h2 with h | h
    · exact Or.inl h
    · exact Or.inr h.1
  simp only [ha]
  rfl

theorem create_main_clauses_after (spec : spec) (e0 : mig_encoder) (hfit : fits_table spec)
    (hok : e0.ndebug = true ∨ ∀ cs cl, e0.solver.accepts cs cl = true) :
    create_main_clauses spec e0 = .ok (after_calls spec e0 (main_calls spec)) := by
  have hs : no_assert_fails (true, e0) := by
    rcases hok with h | h
    · exact Or.inl h
    · exact Or.inr ⟨rfl, h⟩
  have hstep : ∀ t K, main_step spec (after_calls spec e0 K) t
      = .ok (after_calls spec e0 (K ++ tt_calls spec t)) := by
    intro t K
    obtain ⟨r', h1, _⟩ := create_tt_clauses_after spec e0 t hfit K hs
    simp only [main_step, bind, Except.bind, h1, pure, Except.pure]
  have key : ∀ (ts : List Nat) (K : List sim_call),
      ts.foldlM (main_step spec) (after_calls spec e0 K)
        = .ok (after_calls spec e0 (K ++ ts.flatMap (tt_calls spec))) := by
    intro ts
    induction ts with
    | nil => intro K; simp [pure, Except.pure]
    | cons t ts ih =>
      intro K
      rw [List.foldlM_cons, hstep]
      simp only [bind, Except.bind]
      rw [ih (K ++ tt_calls spec t), List.flatMap_cons, List.append_assoc]
  have := key (List.range spec.tt_size) []
  rw [after_calls_nil, List.nil_append] at this
  exact this

theorem vfix_fold (spec : spec) (e : mig_encoder)
    (hok : e.ndebug = true ∨ ∀ cs cl, e.solver.accepts cs cl = true) (ts : List Nat)
    (cs : List (List Nat)) :
    ts.foldlM (fun e t => vfix_output_sim_vars_at spec t e) (with_clauses e cs)
      = .ok (with_clauses e (cs ++ ts.map fun t => [output_sim_lit spec e t])) := by
  induction ts generalizing cs with
  | nil => simp [pure, Except.pure]
  | cons t ts ih =>
    have hstep : vfix_output_sim_vars_at spec t (with_clauses e cs)
        = .ok (with_clauses e (cs ++ [[output_sim_lit spec e t]])) := by
      unfold vfix_output_sim_vars_at
      have ha : assert_ok (add_clause (with_clauses e cs) [output_sim_lit spec (with_clauses e cs) t]).2
          (add_clause (with_clauses e cs) [output_sim_lit spec (with_clauses e cs) t]).1
          = .ok () := by
        apply assert_ok_of
        rcases hok with h | h
        · exact Or.inl h
        · exact Or.inr (h _ _)
      simp only [bind, Except.bind, ha, pure, Except.pure]
      simp [with_clauses, add_clause, solver_wrapper.add_clause, output_sim_lit, get_sim_var]
    rw [List.foldlM_cons, hstep]
    simp only [bind, Except.bind]
    rw [ih (cs ++ [[output_sim_lit spec e t]])]
    simp

theorem vfix_eq (spec : spec) (e : mig_encoder)
    (hok : e.ndebug = true ∨ ∀ cs cl, e.solver.accepts cs cl = true) :
    vfix_output_sim_vars spec e
      = .ok (with_clauses e ((List.range spec.tt_size).map fun t => [output_sim_lit spec e t])) := by
  have h := vfix_fold spec e hok (List.range spec.tt_size) []
  have h0 : with_clauses e [] = e := by simp [with_clauses]
  rw [h0, List.nil_append] at h
  exact h

theorem fanin_outer_body_eq (spec : spec) (e : mig_encoder) (st : Bool) (i : Nat)
    (hi : spec.nr_in + i ≤ 9) :
    fanin_outer_body spec (st, e) i
      = .ok (st && e.solver.accepts e.solver.clauses (fanin_clause e spec.nr_in i),
          with_clauses e [fanin_clause e spec.nr_in i]) := by
  unfold fanin_outer_body
  rw [fanin_loop, fanin_step spec e i hi]
  rfl

theorem fanin_fold (spec : spec) (e : mig_encoder) (n : Nat) (hn : n = 0 ∨ spec.nr_in + n ≤ 10) :
    (List.range n).foldlM (fanin_outer_body spec) (true, e)
      = .ok ((List.range n).all (fun i =>
            e.solver.accepts
              (e.solver.clauses ++ (List.range i).map (fanin_clause e spec.nr_in))
              (fanin_clause e spec.nr_in i)),
          with_clauses e ((List.range n).map (fanin_clause e spec.nr_in))) := by
  induction n with
  | zero => simp [with_clauses, pure, Except.pure]
  | succ n ih =>
    have hn' : spec.nr_in + n ≤ 9 := by omega
    rw [List.range_succ, List.foldlM_append, ih (by omega)]
    simp only [bind, Except.bind, List.foldlM_cons, List.foldlM_nil]
    rw [fanin_outer_body_eq spec _ _ n hn']
    simp [with_clauses, fanin_clause, List.all_append, pure, Except.pure]

theorem create_fanin_clauses_eq (spec : spec) (e : mig_encoder)
    (hcap : spec.nr_steps = 0 ∨ spec.nr_in + spec.nr_steps ≤ 10) :
    create_fanin_clauses spec e
      = .ok ((List.range spec.nr_steps).all (fun i =>
            e.solver.accepts
              (e.solver.clauses ++ (List.range i).map (fanin_clause e spec.nr_in))
              (fanin_clause e spec.nr_in i)),
          with_clauses e ((List.range spec.nr_steps).map (fanin_clause e spec.nr_in))) :=
  fanin_fold spec e spec.nr_steps hcap

theorem create_variables_frame (spec : spec) (e : mig_encoder) (hfit : fits_table spec) :
    ∃ e1, create_variables spec e = .ok e1 ∧ e1.ndebug = e.ndebug ∧
      e1.solver.accepts = e.solver.accepts ∧ e1.solver.clauses = e.solver.clauses ∧
      e1.calls = e.calls ∧ e1.solver.model = e.solver.model := by
  obtain ⟨sv, h1, _, _⟩ := var_fold (sel_tuples spec) (sel_tuples_bound spec hfit)
    (nodup_sel_tuples spec)
    { e with nr_op_vars := spec.nr_steps * MIG_OP_VARS_PER_STEP,
             nr_sim_vars := spec.nr_steps * spec.tt_size, nr_sel_vars := 0 }
  simp only [create_variables, create_variables_loop]
  rw [h1]
  simp only [bind, Except.bind, pure, Except.pure, solver_wrapper.set_nr_vars]
  exact ⟨_, rfl, rfl, rfl, rfl, rfl, rfl⟩

theorem encode_split (spec : spec) (e : mig_encoder) :
    encode spec e = (do
      let e2 ← encode_head spec e
      let se ← create_fanin_clauses spec e2
      if !se.1 then pure (false, se.2) else pure (true, se.2)) := by
  simp only [encode, encode_head, bind_assoc]

theorem encode_head_eq (spec : spec) (e : mig_encoder) (h3 : 3 ≤ spec.nr_in)
    (hfit : fits_table spec)
    (hok : e.ndebug = true ∨ ∀ cs cl, e.solver.accepts cs cl = true) :
    ∃ e1, create_variables spec e = .ok e1 ∧ e1.solver.clauses = e.solver.clauses ∧
      encode_head spec e = .ok (before_fanin spec e1) := by
  obtain ⟨e1, hcv, hnd, hacc, hcl, _, _⟩ := create_variables_frame spec e hfit
  have hok1 : e1.ndebug = true ∨ ∀ cs cl, e1.solver.accepts cs cl = true := by
    rw [hnd, hacc]
    exact hok
  refine ⟨e1, hcv, hcl, ?_⟩
  have ha : assert_ok e (decide (spec.nr_in ≥ 3)) = .ok () := by
    apply assert_ok_of
    right
    simpa using h3
  have hm := create_main_clauses_after spec e1 hfit hok1
  have hv := vfix_eq spec (after_calls spec e1 (main_calls spec)) hok1
  simp only [encode_head, ha, hcv, hm, bind, Except.bind]
  rw [hv]
  rfl

/-- C15, as the code has it.  For a specification with `nr_in ≥ 3` whose clauses fit the
buffer and for every solver behaviour: with asserts compiled out `encode` always reaches
the fanin phase; if it does not reach it, it ends with the fault of the earlier phase; and
if it reaches it, `encode` returns, and returns false exactly when an `add_clause` call of
the fanin phase answers false. -/
theorem failure_propagation (spec : spec) (e : mig_encoder) (h3 : 3 ≤ spec.nr_in)
    (hcap : spec.nr_in + spec.nr_steps ≤ 10) :
    (e.ndebug = true → ∃ e2, encode_head spec e = .ok e2) ∧
    (∀ f, encode_head spec e = .error f → encode spec e = .error f) ∧
    (∀ e2, encode_head spec e = .ok e2 →
      ∃ b e', encode spec e = .ok (b, e') ∧
        (b = false ↔ ∃ i, i < spec.nr_steps ∧
          e2.solver.accepts
            (e2.solver.clauses ++ (List.range i).map (fanin_clause e2 spec.nr_in))
            (fanin_clause e2 spec.nr_in i) = false)) := by
  have hfit : fits_table spec := ⟨by omega, by omega⟩
  refine ⟨?_, ?_, ?_⟩
  · intro hnd
    obtain ⟨e1, _, _, h⟩ := encode_head_eq spec e h3 hfit (Or.inl hnd)
    exact ⟨_, h⟩
  · intro f hf
    rw [encode_split, hf]
    rfl
  · intro e2 h2
    rw [encode_split, h2]
    simp only [bind, Except.bind]
    rw [create_fanin_clauses_eq spec e2 (Or.inr hcap)]
    simp only []
    cases hb : (List.range spec.nr_steps).all (fun i =>
        e2.solver.accepts
          (e2.solver.clauses ++ (List.range i).map (fanin_clause e2 spec.nr_in))
          (fanin_clause e2 spec.nr_in i)) with
    | false =>
      refine ⟨false, _, rfl, ?_⟩
      simp only [true_iff]
      rw [List.all_eq_false] at hb
      obtain ⟨i, hi, hx⟩ := hb
      exact ⟨i, List.mem_range.1 hi, by simpa using hx⟩
    | true =>
      refine ⟨true, _, rfl, ?_⟩
      simp only [Bool.true_eq_false, false_iff, not_exists, not_and]
      intro i hi
      rw [List.all_eq_true] at hb
      have := hb i (List.mem_range.2 hi)
      simp [this]

theorem failure_propagation_witness :
    3 ≤ (spec3 136).nr_in ∧ (spec3 136).nr_in + (spec3 136).nr_steps ≤ 10 ∧
      (picky true [0, 2, 4, 6]).ndebug = true ∧
      ∃ e2, encode_head (spec3 136) (picky true [0, 2, 4, 6]) = .ok e2 :=
  ⟨by decide, by decide, rfl,
    (failure_propagation (spec3 136) (picky true [0, 2, 4, 6]) (by decide) (by decide)).1 rfl⟩

set_option maxRecDepth 1000000 in
/-- C15 fails as stated.  With `nr_in = 3`, one step and a solver that answers false for the
simulation clause `[1, 16, 8, 12]` only: with asserts compiled in `encode` ends in a failed
assertion, and with asserts compiled out `encode` submits that clause and returns true. -/
theorem rejected_simulation_clause_ignored :
    fault_of (encode (spec3 136) (picky false [1, 16, 8, 12])) = some Fault.assertion ∧
    (run_clauses (encode (spec3 136) (picky true [1, 16, 8, 12]))).map
        (fun r => (r.1, decide ([1, 16, 8, 12] ∈ r.2))) = some (true, true) ∧
    (picky true [1, 16, 8, 12]).solver.accepts [] [1, 16, 8, 12] = false := by
  refine ⟨by decide, by decide, by decide⟩

theorem cnf_sat_append (m : Nat → Bool) (a b : List (List Nat)) :
    cnf_sat m (a ++ b) = true ↔ cnf_sat m a = true ∧ cnf_sat m b = true := by
  simp [cnf_sat, List.all_append]

/-- C19, as the code has it.  For a specification with `nr_in ≥ 3` whose clauses fit the
buffer and no failing assertion, `encode` returns, and in every assignment that satisfies
the clauses it emitted each step has at least one true selection variable among its valid
wirings. -/
theorem selection_at_least_one (spec : spec) (e : mig_encoder) (m : Nat → Bool)
    (h3 : 3 ≤ spec.nr_in) (hcap : spec.nr_in + spec.nr_steps ≤ 10)
    (hok : e.ndebug = true ∨ ∀ cs cl, e.solver.accepts cs cl = true) :
    ∃ b e' emitted, encode spec e = .ok (b, e') ∧
      e'.solver.clauses = e.solver.clauses ++ emitted ∧
      (cnf_sat m emitted = true →
        ∀ i, i < spec.nr_steps →
          ∃ j k l, j < k ∧ k < l ∧ l ≤ spec.nr_in + i ∧ m (e'.svars i j k l) = true) := by
  have hfit : fits_table spec := ⟨by omega, by omega⟩
  obtain ⟨e1, _, hcl, hpre⟩ := encode_head_eq spec e h3 hfit hok
  have henc : ∃ b, encode spec e = .ok (b, with_clauses (before_fanin spec e1)
      ((List.range spec.nr_steps).map (fanin_clause (before_fanin spec e1) spec.nr_in))) := by
    rw [encode_split, hpre]
    simp only [bind, Except.bind]
    rw [create_fanin_clauses_eq spec _ (Or.inr hcap)]
    simp only []
    split
    · exact ⟨false, rfl⟩
    · exact ⟨true, rfl⟩
  obtain ⟨b, henc⟩ := henc
  refine ⟨b, with_clauses (before_fanin spec e1)
      ((List.range spec.nr_steps).map (fanin_clause (before_fanin spec e1) spec.nr_in)),
    (main_calls spec).flatMap (call_clauses spec e1) ++
      ((List.range spec.tt_size).map fun t => [output_sim_lit spec e1 t]) ++
      (List.range spec.nr_steps).map (fanin_clause e1 spec.nr_in), henc, ?_, ?_⟩
  · simp only [with_clauses, before_fanin, after_calls, hcl, List.append_assoc]
    rfl
  · intro hs i hi
    rw [cnf_sat_append] at hs
    have hf := hs.2
    simp only [cnf_sat, List.all_eq_true, List.mem_map, List.mem_range] at hf
    have := hf _ ⟨i, hi, rfl⟩
    exact (fanin_clause_sat e1 spec.nr_in i m).1 this

theorem selection_at_least_one_witness :
    3 ≤ (spec3 136).nr_in ∧ (spec3 136).nr_in + (spec3 136).nr_steps ≤ 10 ∧
      ∃ b e' emitted, encode (spec3 136) (fresh fun _ => false) = .ok (b, e') ∧
        e'.solver.clauses = (fresh fun _ => false).solver.clauses ++ emitted := by
  obtain ⟨b, e', emitted, h1, h2, _⟩ :=
    selection_at_least_one (spec3 136) (fresh fun _ => false) (fun _ => false) (by decide)
      (by decide) (Or.inr (fun _ _ => rfl))
  exact ⟨by decide, by decide, b, e', emitted, h1, h2⟩

/-! ### Closed form of the selection ids -/


theorem flatMap_range_tele (g h : Nat → Nat) (hstep : ∀ x, g (x + 1) = g x + h x) (a n : Nat) :
    (List.range' a n).flatMap (fun x => List.range' (g x) (h x))
      = List.range' (g a) (g (a + n) - g a) := by
  induction n generalizing a with
  | zero => simp
  | succ n ih =>
    have hmono : ∀ m, g (a + 1) ≤ g (a + 1 + m) := by
      intro m
      induction m with
      | zero => exact Nat.le_refl _
      | succ m ihm =>
        have e0 := hstep (a + 1 + m)
        show g (a + 1) ≤ g (a + 1 + m + 1)
        omega
    have h1 := hstep a
    have h2 := hmono n
    rw [List.range'_succ, List.flatMap_cons, ih (a + 1)]
    have e1 : g (a + 1) = g a + 1 * h a := by omega
    rw [e1, List.range'_append]
    congr 1
    have e3 : a + (n + 1) = a + 1 + n := by omega
    rw [e3]
    omega

theorem pairs_ids (B l : Nat) :
    (List.range' 1 (l - 1)).flatMap (fun k => (List.range k).map fun j => B + k.choose 2 + j)
      = List.range' B (l.choose 2) := by
  have h1 : ∀ k, ((List.range k).map fun j => B + k.choose 2 + j)
      = List.range' (B + k.choose 2) k := by
    intro k
    rw [List.range'_eq_map_range]
  simp only [h1]
  rw [flatMap_range_tele (fun k => B + k.choose 2) (fun k => k)
    (by intro x; simp [Nat.choose_succ_succ, Nat.add_comm, Nat.add_left_comm])]
  simp only [Nat.choose_one_right, Nat.choose_succ_self, Nat.add_zero]
  congr 1
  rcases l with _ | l
  · simp
  · have : 1 + (l + 1 - 1) = l + 1 := by omega
    rw [this]
    omega

theorem wirings_ids (nr_in i B : Nat) :
    (wirings nr_in i).map (fun w => B + w.2.2.choose 3 + w.2.1.choose 2 + w.1)
      = List.range' B ((nr_in + i + 1).choose 3) := by
  unfold wirings
  simp only [List.map_flatMap, List.map_map, Function.comp_def]
  simp only [pairs_ids]
  rw [flatMap_range_tele (fun l => B + l.choose 3) (fun l => l.choose 2)
    (by intro x; simp [Nat.choose_succ_succ, Nat.add_comm, Nat.add_left_comm])]
  have h23 : Nat.choose 2 3 = 0 := by decide
  simp only [h23, Nat.add_zero]
  congr 1
  rcases Nat.eq_zero_or_pos (nr_in + i) with h | h
  · rw [h]
    have h13 : Nat.choose 1 3 = 0 := by decide
    simp [h23, h13]
  · have : 2 + (nr_in + i - 1) = nr_in + i + 1 := by omega
    rw [this]
    omega

theorem sel_before_succ (nr_in i : Nat) :
    sel_before nr_in (i + 1) = sel_before nr_in i + (nr_in + i + 1).choose 3 := by
  simp [sel_before, Finset.sum_range_succ]

theorem sel_tuples_ids (spec : spec) :
    (sel_tuples spec).map (sel_id spec.nr_in)
      = List.range (sel_before spec.nr_in spec.nr_steps) := by
  unfold sel_tuples
  simp only [List.map_flatMap, List.map_map, Function.comp_def, sel_id]
  simp only [wirings_ids]
  rw [List.range_eq_range' (n := spec.nr_steps),
    flatMap_range_tele (fun i => sel_before spec.nr_in i)
      (fun i => (spec.nr_in + i + 1).choose 3) (sel_before_succ spec.nr_in)]
  simp [sel_before, List.range_eq_range']

theorem int_wrap_small (z : Int) (h0 : 0 ≤ z) (h1 : z < 2 ^ 31) : int_wrap z = z := by
  unfold int_wrap
  omega

theorem choose_33_16 : Nat.choose 33 16 = 1166803110 := by
  rw [Nat.choose_eq_factorial_div_factorial (by norm_num)]
  norm_num [Nat.factorial]

theorem choose_fits_int (i j : Nat) (hi : i ≤ 33) : (i.choose j : Int) < 2 ^ 31 := by
  have h1 : i.choose j ≤ Nat.choose 33 j := Nat.choose_le_choose j hi
  have h2 : Nat.choose 33 j ≤ Nat.choose 33 (33 / 2) := Nat.choose_le_middle j 33
  have h3 : Nat.choose 33 (33 / 2) = 1166803110 := choose_33_16
  have h4 : i.choose j ≤ 1166803110 := by omega
  have h5 : (i.choose j : Int) ≤ 1166803110 := by exact_mod_cast h4
  have h6 : (1166803110 : Int) < 2 ^ 31 := by norm_num
  omega

theorem binomial_row (i k m : Nat) (hi : i ≤ 33) (hm : m ≤ min i k + 1) :
    (List.range m).foldl (fun C j => binomial_store C i j)
        (fun i' j' => if i' < i ∧ j' ≤ min i' k then some ((i'.choose j' : Nat) : Int) else none)
      = fun i' j' =>
          if (i' < i ∧ j' ≤ min i' k) ∨ (i' = i ∧ j' < m) then some ((i'.choose j' : Nat) : Int)
          else none := by
  induction m with
  | zero =>
    funext i' j'
    simp
  | succ m ih =>
    rw [List.range_succ, List.foldl_append, ih (by omega)]
    funext i' j'
    simp only [List.foldl_cons, List.foldl_nil, binomial_store]
    by_cases hc : i' = i ∧ j' = m
    · obtain ⟨rfl, rfl⟩ := hc
      have hpos : (i' < i' ∧ j' ≤ min i' k) ∨ (i' = i' ∧ j' < j' + 1) := Or.inr ⟨rfl, by omega⟩
      rw [if_pos ⟨rfl, rfl⟩, if_pos hpos]
      by_cases h0 : j' = 0 ∨ j' = i'
      · rw [if_pos h0]
        rcases h0 with h | h
        · simp [h]
        · simp [h]
      · rw [if_neg h0]
        have h1 : (i' - 1 < i' ∧ j' - 1 ≤ min (i' - 1) k) ∨ (i' - 1 = i' ∧ j' - 1 < j') :=
          Or.inl (by omega)
        have h2 : (i' - 1 < i' ∧ j' ≤ min (i' - 1) k) ∨ (i' - 1 = i' ∧ j' < j') :=
          Or.inl (by omega)
        rw [if_pos h1, if_pos h2]
        simp only [Option.some_bind, Option.map_some', Option.some.injEq]
        obtain ⟨a, rfl⟩ : ∃ a, i' = a + 1 := ⟨i' - 1, by omega⟩
        obtain ⟨b, rfl⟩ : ∃ b, j' = b + 1 := ⟨j' - 1, by omega⟩
        have hfit := choose_fits_int (a + 1) (b + 1) hi
        have hsum : ((a.choose b : Nat) : Int) + ((a.choose (b + 1) : Nat) : Int)
            = (((a + 1).choose (b + 1) : Nat) : Int) := by
          rw [Nat.choose_succ_succ]
          push_cast
          rfl
        simp only [Nat.add_sub_cancel]
        rw [hsum, int_wrap_small _ (by positivity) hfit]
    · rw [if_neg hc]
      refine if_congr ?_ rfl rfl
      constructor
      · rintro (h | h)
        · exact Or.inl h
        · exact Or.inr ⟨h.1, by omega⟩
      · rintro (h | h)
        · exact Or.inl h
        · refine Or.inr ⟨h.1, ?_⟩
          have : j' ≠ m := fun hj => hc ⟨h.1, hj⟩
          omega

theorem binomial_table (n k : Nat) (hn : n ≤ 34) :
    (List.range n).foldl (fun C i =>
        (List.range (min i k + 1)).foldl (fun C j => binomial_store C i j) C)
        (fun _ _ => none)
      = fun i' j' =>
          if i' < n ∧ j' ≤ min i' k then some ((i'.choose j' : Nat) : Int) else none := by
  induction n with
  | zero =>
    funext i' j'
    simp
  | succ n ih =>
    rw [List.range_succ, List.foldl_append, ih (by omega)]
    simp only [List.foldl_cons, List.foldl_nil]
    rw [binomial_row n k (min n k + 1) (by omega) (Nat.le_refl _)]
    funext i' j'
    refine if_congr ?_ rfl rfl
    constructor
    · rintro (h | ⟨rfl, h⟩)
      · exact ⟨by omega, h.2⟩
      · exact ⟨by omega, by omega⟩
    · rintro ⟨h1, h2⟩
      by_cases hi : i' = n
      · exact Or.inr ⟨hi, by subst hi; omega⟩
      · exact Or.inl ⟨by omega, h2⟩

theorem binomial_coeff_eq (n k : Nat) (hn : n ≤ 33) :
    binomial_coeff n k = if k ≤ n then some ((n.choose k : Nat) : Int) else none := by
  unfold binomial_coeff
  rw [binomial_table (n + 1) k (by omega)]
  simp only
  refine if_congr ?_ rfl rfl
  constructor
  · intro h
    omega
  · intro h
    omega

set_option maxRecDepth 1000000 in
set_option maxHeartbeats 4000000 in
theorem binomial_coeff_overflow : binomial_coeff 34 17 = some (-1961361076) := by
  decide

theorem colex_compare_fanin (j k l j' k' l' : Nat) :
    colex_compare 3 (fanin_array j k l) (fanin_array j' k' l')
      = if l < l' then -1 else if l' < l then 1 else if k < k' then -1 else if k' < k then 1
        else if j < j' then -1 else if j' < j then 1 else 0 := by
  simp [colex_compare, colex_loop, fanin_array]

theorem colex_compare_fanin_neg (j k l j' k' l' : Nat) :
    colex_compare 3 (fanin_array j k l) (fanin_array j' k' l') = -1 ↔
      (l < l' ∨ (l = l' ∧ (k < k' ∨ (k = k' ∧ j < j')))) := by
  rw [colex_compare_fanin]
  split_ifs <;> simp <;> omega

theorem wiring_id_lt (j k l j' k' l' : Nat) (hjk : j < k) (hkl : k < l)
    (h : l < l' ∨ (l = l' ∧ (k < k' ∨ (k = k' ∧ j < j')))) :
    l.choose 3 + k.choose 2 + j < l'.choose 3 + k'.choose 2 + j' := by
  have hk1 : (k + 1).choose 2 = k + k.choose 2 := by
    simp [Nat.choose_succ_succ]
  rcases h with h | ⟨rfl, h | ⟨rfl, h⟩⟩
  · have hl1 : (l + 1).choose 3 = l.choose 2 + l.choose 3 := by
      simp [Nat.choose_succ_succ]
    have m1 : (k + 1).choose 2 ≤ l.choose 2 := Nat.choose_le_choose 2 (by omega)
    have m2 : (l + 1).choose 3 ≤ l'.choose 3 := Nat.choose_le_choose 3 (by omega)
    omega
  · have m1 : (k + 1).choose 2 ≤ k'.choose 2 := Nat.choose_le_choose 2 (by omega)
    omega
  · omega

theorem colex_compare_fanin_pos (j k l j' k' l' : Nat) :
    colex_compare 3 (fanin_array j k l) (fanin_array j' k' l') = 1 ↔
      (l' < l ∨ (l' = l ∧ (k' < k ∨ (k' = k ∧ j' < j)))) := by
  rw [colex_compare_fanin]
  split_ifs <;> simp <;> omega

theorem create_variables_ids (spec : spec) (e : mig_encoder) (hfit : fits_table spec) :
    ∃ e', create_variables spec e = .ok e' ∧
      e'.nr_sel_vars = sel_before spec.nr_in spec.nr_steps ∧
      e'.ops_offset = sel_before spec.nr_in spec.nr_steps ∧
      e'.sim_offset = sel_before spec.nr_in spec.nr_steps + spec.nr_steps * 4 ∧
      e'.solver.clauses = e.solver.clauses ∧ e'.solver.model = e.solver.model ∧
      e'.solver.accepts = e.solver.accepts ∧ e'.ndebug = e.ndebug ∧ e'.calls = e.calls ∧
      (∀ i j k l, valid_sel spec i j k l → e'.svars i j k l = sel_id spec.nr_in (i, j, k, l)) ∧
      (∀ i j k l, ¬ valid_sel spec i j k l → e'.svars i j k l = e.svars i j k l) := by
  have hb := sel_tuples_bound spec hfit
  have hnd := nodup_sel_tuples spec
  obtain ⟨sv, h1, h2, h3⟩ := var_fold (sel_tuples spec) hb hnd
    { e with nr_op_vars := spec.nr_steps * MIG_OP_VARS_PER_STEP,
             nr_sim_vars := spec.nr_steps * spec.tt_size, nr_sel_vars := 0 }
  have hids := sel_tuples_ids spec
  have hlen : (sel_tuples spec).length = sel_before spec.nr_in spec.nr_steps := by
    have := congrArg List.length hids
    simpa using this
  have hcv : ∃ e', create_variables spec e = .ok e' ∧ e'.svars = sv ∧
      e'.nr_sel_vars = (sel_tuples spec).length ∧
      e'.ops_offset = (sel_tuples spec).length ∧
      e'.sim_offset = (sel_tuples spec).length + spec.nr_steps * 4 ∧
      e'.solver.clauses = e.solver.clauses ∧ e'.solver.model = e.solver.model ∧
      e'.solver.accepts = e.solver.accepts ∧ e'.ndebug = e.ndebug ∧ e'.calls = e.calls := by
    simp only [create_variables, create_variables_loop]
    rw [h1]
    simp only [bind, Except.bind, pure, Except.pure, MIG_OP_VARS_PER_STEP,
      solver_wrapper.set_nr_vars, Nat.zero_add]
    exact ⟨_, rfl, rfl, rfl, rfl, rfl, rfl, rfl, rfl, rfl, rfl⟩
  obtain ⟨e', hok, hsv, g1, g2, g3, g4, g5, g6, g7, g8⟩ := hcv
  subst hsv
  refine ⟨e', hok, by rw [g1, hlen], by rw [g2, hlen], by rw [g3, hlen], g4, g5, g6, g7, g8,
    ?_, ?_⟩
  · intro i j k l hv
    obtain ⟨n, hn, hx⟩ := List.getElem_of_mem ((mem_sel_tuples spec i j k l).2 hv)
    have e1 := h2 n hn
    rw [hx] at e1
    simp only [Nat.zero_add] at e1
    have hn2 : n < ((sel_tuples spec).map (sel_id spec.nr_in)).length := by simpa using hn
    have e2 : ((sel_tuples spec).map (sel_id spec.nr_in))[n] = n := by
      simp only [hids]
      simp
    rw [List.getElem_map, hx] at e2
    rw [e1, e2]
  · intro i j k l hv
    exact h3 i j k l (fun h => hv ((mem_sel_tuples spec i j k l).1 h))

/-- C25 (closed form of the selection ids).  For a specification within the table,
`create_variables` returns, and then for every step `i < nr_steps` and every wiring
`0 ≤ j < k < l ≤ nr_in + i` the entry `svars[i][j][k][l]` is the sum over `i' < i` of
`C(nr_in + i' + 1, 3)`, plus `C(l, 3) + C(k, 2) + j`; `nr_sel_vars` is the sum over
`i < nr_steps` of `C(nr_in + i + 1, 3)`; and within a step `colex_compare` on the fanin
arrays answers -1 exactly when the id of the first wiring is the smaller one and 1 exactly
when it is the larger one.  `C(n, k)` is the binomial coefficient, the value
`binomial_coeff(n, k)` returns for `k ≤ n ≤ 33`, the range in which no entry of its `int`
table overflows. -/
theorem selection_id_closed_form (spec : spec) (e : mig_encoder) (hfit : fits_table spec) :
    ∃ e', create_variables spec e = .ok e' ∧
      (∀ i j k l, valid_sel spec i j k l →
        e'.svars i j k l
          = (∑ i' ∈ Finset.range i, (spec.nr_in + i' + 1).choose 3)
            + l.choose 3 + k.choose 2 + j) ∧
      e'.nr_sel_vars = ∑ i ∈ Finset.range spec.nr_steps, (spec.nr_in + i + 1).choose 3 ∧
      (∀ i j k l j' k' l', valid_sel spec i j k l → valid_sel spec i j' k' l' →
        (colex_compare 3 (fanin_array j k l) (fanin_array j' k' l') = -1 ↔
          e'.svars i j k l < e'.svars i j' k' l') ∧
        (colex_compare 3 (fanin_array j k l) (fanin_array j' k' l') = 1 ↔
          e'.svars i j' k' l' < e'.svars i j k l)) ∧
      (∀ n k, k ≤ n → n ≤ 33 → binomial_coeff n k = some ((n.choose k : Nat) : Int)) := by
  obtain ⟨e', hok, hn, _, _, _, _, _, _, _, hid, _⟩ := create_variables_ids spec e hfit
  refine ⟨e', hok, ?_, hn, ?_, ?_⟩
  · intro i j k l hv
    rw [hid i j k l hv]
    rfl
  · intro i j k l j' k' l' hv hv'
    have key : ∀ a b c a' b' c', valid_sel spec i a b c → valid_sel spec i a' b' c' →
        ((c < c' ∨ (c = c' ∧ (b < b' ∨ (b = b' ∧ a < a')))) ↔
          e'.svars i a b c < e'.svars i a' b' c') := by
      intro a b c a' b' c' h h'
      rw [hid i a b c h, hid i a' b' c' h']
      simp only [sel_id]
      constructor
      · intro hlt
        have := wiring_id_lt a b c a' b' c' h.2.1 h.2.2.1 hlt
        omega
      · intro hlt
        by_contra hne
        have hcases : (c' < c ∨ (c' = c ∧ (b' < b ∨ (b' = b ∧ a' < a)))) ∨
            (a = a' ∧ b = b' ∧ c = c') := by omega
        rcases hcases with hgt | ⟨rfl, rfl, rfl⟩
        · have := wiring_id_lt a' b' c' a b c h'.2.1 h'.2.2.1 hgt
          omega
        · omega
    rw [colex_compare_fanin_neg, colex_compare_fanin_pos]
    exact ⟨key j k l j' k' l' hv hv', key j' k' l' j k l hv' hv⟩
  · intro n k hk hn
    rw [binomial_coeff_eq n k hn, if_pos hk]

theorem selection_id_closed_form_witness :
    fits_table (spec_of 3 2 136) ∧
      ∃ e', create_variables (spec_of 3 2 136) (fresh fun _ => false) = .ok e' ∧
        e'.svars 1 1 2 4 = 4 + 4 + 1 + 1 ∧ e'.nr_sel_vars = 14 ∧
        binomial_coeff 5 3 = some 10 := by
  have hfit : fits_table (spec_of 3 2 136) := by simp [fits_table, spec_of]
  obtain ⟨e', h1, h2, h3, _, h5⟩ :=
    selection_id_closed_form (spec_of 3 2 136) (fresh fun _ => false) hfit
  refine ⟨hfit, e', h1, ?_, ?_, ?_⟩
  · rw [h2 1 1 2 4 (by simp [valid_sel, spec_of])]
    decide
  · rw [h3]
    decide
  · rw [h5 5 3 (by decide) (by decide)]
    decide

/-! ### Readback under uniqueness -/

theorem foldlM_fixed {α σ : Type} (f : σ → α → Except Fault σ) (xs : List α) (s : σ)
    (hf : ∀ x ∈ xs, f s x = .ok s) : xs.foldlM f s = .ok s := by
  induction xs with
  | nil => rfl
  | cons x xs ih =>
    rw [List.foldlM_cons, hf x (List.mem_cons_self _ _)]
    exact ih (fun y hy => hf y (List.mem_cons_of_mem _ hy))

theorem foldlM_single_hit {α σ : Type} (f : σ → α → Except Fault σ) (xs : List α) (x0 : α)
    (t : σ) (hnd : xs.Nodup) (hx0 : x0 ∈ xs) (hhit : ∀ s, f s x0 = .ok t)
    (hmiss : ∀ x ∈ xs, x ≠ x0 → ∀ s, f s x = .ok s) (s : σ) :
    xs.foldlM f s = .ok t := by
  induction xs generalizing s with
  | nil => cases hx0
  | cons x xs ih =>
    rw [List.foldlM_cons]
    by_cases hx : x = x0
    · subst hx
      rw [hhit s]
      refine foldlM_fixed f xs t ?_
      intro y hy
      have hne : y ≠ x := fun h => (List.nodup_cons.1 hnd).1 (h ▸ hy)
      exact hmiss y (List.mem_cons_of_mem _ hy) hne t
    · rw [hmiss x (List.mem_cons_self _ _) hx s]
      have hx0' : x0 ∈ xs := by
        rcases List.mem_cons.1 hx0 with h | h
        · exact absurd h.symm hx
        · exact h
      exact ih (List.nodup_cons.1 hnd).2 hx0'
        (fun y hy => hmiss y (List.mem_cons_of_mem _ hy)) s

theorem scan_j_miss (e : mig_encoder) (i k l : Nat) (hb : i < 16 ∧ k < 16 ∧ l < 16)
    (js : List Nat) (hjs : ∀ j ∈ js, j < 16)
    (hfalse : ∀ j ∈ js, e.solver.var_value (e.svars i j k l) = false) (acc : Nat × Nat × Nat) :
    scan_j e i k l js acc = .ok acc := by
  induction js with
  | nil => rfl
  | cons j js ih =>
    have hj := hjs j (List.mem_cons_self _ _)
    have hv := hfalse j (List.mem_cons_self _ _)
    simp only [scan_j, svars_read, SVARS_DIM, hb, hj, and_self, if_true, bind, Except.bind, hv,
      Bool.false_eq_true, if_false]
    exact ih (fun y hy => hjs y (List.mem_cons_of_mem _ hy))
      (fun y hy => hfalse y (List.mem_cons_of_mem _ hy))

theorem scan_j_hit (e : mig_encoder) (i k l : Nat) (hb : i < 16 ∧ k < 16 ∧ l < 16)
    (js : List Nat) (hjs : ∀ j ∈ js, j < 16) (j0 : Nat) (hj0 : j0 ∈ js)
    (htrue : e.solver.var_value (e.svars i j0 k l) = true)
    (hfalse : ∀ j ∈ js, j ≠ j0 → e.solver.var_value (e.svars i j k l) = false)
    (acc : Nat × Nat × Nat) :
    scan_j e i k l js acc = .ok (j0, k, l) := by
  induction js with
  | nil => cases hj0
  | cons j js ih =>
    have hj := hjs j (List.mem_cons_self _ _)
    simp only [scan_j, svars_read, SVARS_DIM, hb, hj, and_self, if_true, bind, Except.bind]
    by_cases hx : j = j0
    · subst hx
      simp [htrue, pure, Except.pure]
    · have hv := hfalse j (List.mem_cons_self _ _) hx
      simp only [hv, Bool.false_eq_true, if_false]
      have hj0' : j0 ∈ js := by
        rcases List.mem_cons.1 hj0 with h | h
        · exact absurd h.symm hx
        · exact h
      exact ih (fun y hy => hjs y (List.mem_cons_of_mem _ hy)) hj0'
        (fun y hy => hfalse y (List.mem_cons_of_mem _ hy))

theorem wiring_loops_unique (spec : spec) (e : mig_encoder) (i : Nat) (hfit : fits_table spec)
    (hi : i < spec.nr_steps) (j0 k0 l0 : Nat) (hv0 : valid_sel spec i j0 k0 l0)
    (huniq : ∀ j k l, valid_sel spec i j k l →
      (e.solver.var_value (e.svars i j k l) = true ↔ (j, k, l) = (j0, k0, l0)))
    (acc : Nat × Nat × Nat) :
    wiring_loops spec e i acc = .ok (j0, k0, l0) := by
  obtain ⟨h16, h15⟩ := hfit
  obtain ⟨_, hjk0, hkl0, hl0⟩ := hv0
  have hval : ∀ j k l, j < k → k < l → l ≤ spec.nr_in + i → (j, k, l) ≠ (j0, k0, l0) →
      e.solver.var_value (e.svars i j k l) = false := by
    intro j k l h1 h2 h3 hne
    cases hv : e.solver.var_value (e.svars i j k l) with
    | false => rfl
    | true => exact absurd ((huniq j k l ⟨hi, h1, h2, h3⟩).1 hv) hne
  have htrue : e.solver.var_value (e.svars i j0 k0 l0) = true :=
    (huniq j0 k0 l0 ⟨hi, hjk0, hkl0, hl0⟩).2 rfl
  unfold wiring_loops
  refine foldlM_single_hit _ _ l0 (j0, k0, l0) (List.nodup_range' _ _)
    (List.mem_range'.2 ⟨l0 - 2, by omega, by omega⟩) ?_ ?_ acc
  · intro s
    refine foldlM_single_hit _ _ k0 (j0, k0, l0) (List.nodup_range' _ _)
      (List.mem_range'.2 ⟨k0 - 1, by omega, by omega⟩) ?_ ?_ s
    · intro s
      refine scan_j_hit e i k0 l0 (by omega) _ ?_ j0 (List.mem_range.2 hjk0) htrue ?_ s
      · intro j hj
        have := List.mem_range.1 hj
        omega
      · intro j hj hne
        exact hval j k0 l0 (List.mem_range.1 hj) hkl0 hl0 (by simpa using hne)
    · intro k hk hne s
      obtain ⟨a, ha, rfl⟩ := List.mem_range'.1 hk
      refine scan_j_miss e i _ l0 (by omega) _ ?_ ?_ s
      · intro j hj
        have := List.mem_range.1 hj
        omega
      · intro j hj
        exact hval j _ l0 (List.mem_range.1 hj) (by omega) hl0 (by simpa using fun _ => hne)
  · intro l hl hne s
    obtain ⟨a, ha, rfl⟩ := List.mem_range'.1 hl
    refine foldlM_fixed _ _ s ?_
    intro k hk
    obtain ⟨b, hb, rfl⟩ := List.mem_range'.1 hk
    refine scan_j_miss e i _ _ (by omega) _ ?_ ?_ s
    · intro j hj
      have := List.mem_range.1 hj
      omega
    · intro j hj
      exact hval j _ _ (List.mem_range.1 hj) (by omega) (by omega)
        (by simpa using fun _ _ => hne)

/-- C23 (exact readback under uniqueness).  For a specification within the table, any
encoder state and any assignment in which every step `i` has exactly one valid wiring
`w i = (j, k, l)` whose selection variable `svars[i][j][k][l]` is true, `extract_mig`
returns a chain with `nr_steps` steps in which the fanins of every step `i` are exactly
`w i`, whatever `w` is at the other steps. -/
theorem exact_readback (spec : spec) (e : mig_encoder) (chain0 : mig)
    (w : Nat → Nat × Nat × Nat) (hfit : fits_table spec)
    (huniq : ∀ i, i < spec.nr_steps →
      valid_sel spec i (w i).1 (w i).2.1 (w i).2.2 ∧
      ∀ j k l, valid_sel spec i j k l →
        (e.solver.var_value (e.svars i j k l) = true ↔ (j, k, l) = w i)) :
    ∃ chain, extract_mig spec e chain0 = .ok chain ∧
      chain.steps.length = spec.nr_steps ∧
      ∀ i, i < spec.nr_steps →
        ∃ op, chain.steps[i]? = some ((w i).1, (w i).2.1, (w i).2.2, op) := by
  obtain ⟨st, h1, h2, _, _, h5⟩ := extract_fold spec e hfit
    ((0, 0, 0), chain0.reset spec.nr_in 1 spec.nr_steps) (by simp [mig.reset]) spec.nr_steps
    (Nat.le_refl _)
  refine ⟨st.2.set_output 0 (((spec.nr_steps + spec.nr_in) <<< 1) + (spec.out_inv &&& 1)),
    ?_, ?_, ?_⟩
  · rw [extract_mig_eq, h1]
    rfl
  · simpa [mig.set_output] using h2
  · intro i hi
    obtain ⟨prev, w', hw', hs⟩ := h5 i hi
    obtain ⟨hv, hu⟩ := huniq i hi
    have hw := wiring_loops_unique spec e i hfit hi (w i).1 (w i).2.1 (w i).2.2 hv hu prev
    rw [hw] at hw'
    cases hw'
    exact ⟨_, by simpa [mig.set_output] using hs⟩

theorem exact_readback_witness :
    fits_table (spec3 136) ∧
      ∃ chain, extract_mig (spec3 136)
          (prepared (spec3 136) fun v => decide (v = 2)) ⟨0, [], []⟩ = .ok chain ∧
        ∃ op, chain.steps[0]? = some (0, 2, 3, op) := by
  have hfit : fits_table (spec3 136) := by simp [fits_table, spec3]
  have hu : ∀ i, i < (spec3 136).nr_steps →
      valid_sel (spec3 136) i ((fun _ => (0, 2, 3)) i : Nat × Nat × Nat).1
        ((fun _ => (0, 2, 3)) i : Nat × Nat × Nat).2.1
        ((fun _ => (0, 2, 3)) i : Nat × Nat × Nat).2.2 ∧
      ∀ j k l, valid_sel (spec3 136) i j k l →
        ((prepared (spec3 136) fun v => decide (v = 2)).solver.var_value
            ((prepared (spec3 136) fun v => decide (v = 2)).svars i j k l) = true ↔
          (j, k, l) = (fun _ => (0, 2, 3)) i) := by
    intro i hi
    have hi0 : i = 0 := by
      simp only [spec3] at hi
      omega
    subst hi0
    refine ⟨by simp [valid_sel, spec3], ?_⟩
    intro j k l hv
    obtain ⟨_, h1, h2, h3⟩ := hv
    simp only [spec3, Nat.add_zero] at h3
    have hl : l = 2 ∨ l = 3 := by omega
    rcases hl with rfl | rfl
    · have hk : k = 1 := by omega
      subst hk
      have hj : j = 0 := by omega
      subst hj
      decide
    · have hk : k = 1 ∨ k = 2 := by omega
      rcases hk with rfl | rfl
      · have hj : j = 0 := by omega
        subst hj
        decide
      · have hj : j = 0 ∨ j = 1 := by omega
        rcases hj with rfl | rfl <;> decide
  obtain ⟨chain, h1, _, h3⟩ :=
    exact_readback (spec3 136) (prepared (spec3 136) fun v => decide (v = 2)) ⟨0, [], []⟩
      (fun _ => (0, 2, 3)) hfit hu
  exact ⟨hfit, chain, h1, h3 0 (by simp [spec3])⟩

/-! ### Gate semantics of the simulation clauses -/

theorem lit_value_pol (m : Nat → Bool) (v a : Nat) (ha : a ≤ 1) :
    lit_value m (Abc_Var2Lit v a) = true ↔ m v ≠ decide (a = 1) := by
  interval_cases a
  · simp [lit_value_pos]
  · simp [lit_value_neg]

theorem fanin_sem (spec : spec) (e : mig_encoder) (m : Nat → Bool) (t p v : Nat) (hv : v ≤ 1) :
    (fanin_lits spec e t p v = none → signal_value spec e m t p ≠ decide (v = 1)) ∧
    (∀ lq, fanin_lits spec e t p v = some lq →
      (clause_sat m lq = true ↔ signal_value spec e m t p ≠ decide (v = 1))) := by
  unfold fanin_lits signal_value
  by_cases hp : p ≤ spec.nr_in
  · simp only [hp, if_true, input_bit_eq]
    cases (t + 1).testBit (p - 1) <;> interval_cases v <;> simp [clause_sat]
  · simp only [hp, if_false]
    refine ⟨fun h => (by cases h), ?_⟩
    intro lq hlq
    cases hlq
    simp only [clause_sat, List.any_cons, List.any_nil, Bool.or_false]
    exact lit_value_pol m _ v hv

theorem ops_sem (spec : spec) (e : mig_encoder) (m : Nat → Bool) (i a b c d o : Nat)
    (ha : a ≤ 1) (hb : b ≤ 1) (hc : c ≤ 1) (hd : d ≤ 1) (ho : o < 4)
    (hop : ∀ v, v < 4 → (m (get_op_var e spec i v) = true ↔ v = o)) :
    clause_sat m (if b ||| c ||| d ≠ 0 then op_lits spec e i b c d a else []) = true ↔
      (¬ (b = 0 ∧ c = 0 ∧ d = 0) ∧
        maj_op o (decide (b = 1)) (decide (c = 1)) (decide (d = 1)) = decide (a = 1)) := by
  simp only [clause_sat, List.any_eq_true]
  constructor
  · rintro ⟨x, hx, hl⟩
    obtain ⟨o', ho', rfl, hn, hm⟩ := (op_part_mem spec e i a b c d x ha hb hc hd).1 hx
    rw [lit_value_pos] at hl
    have := (hop o' ho').1 hl
    subst this
    exact ⟨hn, hm⟩
  · rintro ⟨hn, hm⟩
    refine ⟨Abc_Var2Lit (get_op_var e spec i o) 0,
      (op_part_mem spec e i a b c d _ ha hb hc hd).2 ⟨o, ho, rfl, hn, hm⟩, ?_⟩
    rw [lit_value_pos]
    exact (hop o ho).2 rfl

theorem clause_sat_append (m : Nat → Bool) (xs ys : List Nat) :
    clause_sat m (xs ++ ys) = true ↔ clause_sat m xs = true ∨ clause_sat m ys = true := by
  simp [clause_sat, List.any_append]

theorem or_falsified (A B C D E : Prop) :
    ((((¬ A ∨ ¬ B) ∨ ¬ C) ∨ ¬ D) ∨ E) ↔ ¬ (A ∧ B ∧ C ∧ D ∧ ¬ E) := by
  tauto

theorem call_sat (spec : spec) (e : mig_encoder) (m : Nat → Bool) (t i j k l a b c d o : Nat)
    (ha : a ≤ 1) (hb : b ≤ 1) (hc : c ≤ 1) (hd : d ≤ 1) (hj : j ≠ 0) (ho : o < 4)
    (hS : m (e.svars i j k l) = true)
    (hop : ∀ v, v < 4 → (m (get_op_var e spec i v) = true ↔ v = o)) :
    (∀ cl ∈ call_clauses spec e (t, i, j, k, l, a, b, c, d), clause_sat m cl = true) ↔
      ¬ call_falsified (m (get_sim_var e spec i t)) (signal_value spec e m t j)
          (signal_value spec e m t k) (signal_value spec e m t l) o (a, b, c, d) := by
  obtain ⟨nj, sjm⟩ := fanin_sem spec e m t j b hb
  obtain ⟨nk, skm⟩ := fanin_sem spec e m t k c hc
  obtain ⟨nl, slm⟩ := fanin_sem spec e m t l d hd
  have hops := ops_sem spec e m i a b c d o ha hb hc hd ho hop
  have hV := lit_value_pol m (get_sim_var e spec i t) a ha
  have hSl : lit_value m (Abc_Var2Lit (e.svars i j k l) 1) = false := by
    rw [lit_value_neg, hS]
    rfl
  simp only [call_clauses, sim_pLits, hj, if_false, call_falsified]
  cases h0 : fanin_lits spec e t j b with
  | none =>
    have := nj h0
    simp only [Option.none_bind, List.not_mem_nil, false_imp_iff, implies_true, true_iff]
    tauto
  | some lj =>
    cases h1 : fanin_lits spec e t k c with
    | none =>
      have := nk h1
      simp only [Option.some_bind, Option.none_bind, List.not_mem_nil, false_imp_iff,
        implies_true, true_iff]
      tauto
    | some lk =>
      cases h2 : fanin_lits spec e t l d with
      | none =>
        have := nl h2
        simp only [Option.some_bind, Option.map_none', List.not_mem_nil, false_imp_iff,
          implies_true, true_iff]
        tauto
      | some ll =>
        have e0 := sjm lj h0
        have e1 := skm lk h1
        have e2 := slm ll h2
        simp only [Option.some_bind, Option.map_some', List.mem_singleton, forall_eq,
          clause_sat_append]
        have e3 : clause_sat m [Abc_Var2Lit (e.svars i j k l) 1,
            Abc_Var2Lit (get_sim_var e spec i t) a] = true ↔
            m (get_sim_var e spec i t) ≠ decide (a = 1) := by
          simp only [clause_sat, List.any_cons, List.any_nil, Bool.or_false, hSl,
            Bool.false_or]
          exact hV
        rw [e0, e1, e2, e3, hops]
        exact or_falsified _ _ _ _ _

set_option maxRecDepth 100000 in
theorem combos_iff (V sj sk sl : Bool) (o : Nat) (ho : o < 4) :
    (∀ q ∈ tt_combos, ¬ call_falsified V sj sk sl o q) ↔ V = maj_op o sj sk sl := by
  interval_cases o <;> cases V <;> cases sj <;> cases sk <;> cases sl <;> decide

/-- C22 (gate semantics for non-constant wirings).  For a step `i`, a row `t` and a wiring
`(j, k, l)` with `1 ≤ j < k < l ≤ nr_in + i`, within the table and with no failing assertion,
the body of the loops of `create_tt_clauses` for `(i, t, j, k, l)` returns, and for every
assignment in which `svars[i][j][k][l]` is true and exactly one operation variable of step
`i`, of index `o`, is true, the clauses it has submitted are all satisfied iff `V[i][t]`
equals the majority of the row-`t` values of the signals `j`, `k`, `l` with input `o`
inverted (`o = 0`: none), a primary input `p` having the value of bit `p - 1` of `t + 1` and
a step signal the value of its simulation variable at row `t`. -/
theorem gate_semantics (spec : spec) (e : mig_encoder) (m : Nat → Bool) (t i j k l o : Nat)
    (hfit : fits_table spec) (hv : valid_sel spec i j k l) (hj : 1 ≤ j) (ho : o < 4)
    (hok : e.ndebug = true ∨ ∀ cs cl, e.solver.accepts cs cl = true)
    (hS : m (e.svars i j k l) = true)
    (hop : ∀ v, v < 4 → (m (get_op_var e spec i v) = true ↔ v = o)) :
    ∃ r e' news, tt_body spec t i j k l (true, e) = .ok (r, e') ∧
      e'.solver.clauses = e.solver.clauses ++ news ∧
      (cnf_sat m news = true ↔
        m (get_sim_var e spec i t)
          = maj_op o (signal_value spec e m t j) (signal_value spec e m t k)
              (signal_value spec e m t l)) := by
  have hbound : i < 16 ∧ j < 16 ∧ k < 16 ∧ l < 16 := by
    obtain ⟨h1, h2, h3, h4⟩ := hv
    obtain ⟨h5, h6⟩ := hfit
    omega
  have hs : no_assert_fails (true, e) := by
    rcases hok with h | h
    · exact Or.inl h
    · exact Or.inr ⟨rfl, h⟩
  obtain ⟨r, h1, _⟩ := tt_body_after spec e t i j k l hbound true [] hs
  rw [after_calls_nil] at h1
  refine ⟨r, _, (tt_body_calls t i j k l).flatMap (call_clauses spec e), h1, ?_, ?_⟩
  · simp [after_calls]
  · rw [← combos_iff _ _ _ _ o ho]
    simp only [cnf_sat, List.all_eq_true, tt_body_calls, List.mem_flatMap, List.mem_map]
    constructor
    · intro h q hq
      obtain ⟨a, b, c, d⟩ := q
      obtain ⟨ha, hb, hc, hd, _⟩ := (mem_tt_combos a b c d).1 hq
      refine (call_sat spec e m t i j k l a b c d o ha hb hc hd (by omega) ho hS hop).1 ?_
      intro cl hcl
      exact h cl ⟨_, ⟨(a, b, c, d), hq, rfl⟩, hcl⟩
    · rintro h cl ⟨x, ⟨⟨a, b, c, d⟩, hq, rfl⟩, hcl⟩
      obtain ⟨ha, hb, hc, hd, _⟩ := (mem_tt_combos a b c d).1 hq
      exact (call_sat spec e m t i j k l a b c d o ha hb hc hd (by omega) ho hS hop).2
        (h (a, b, c, d) hq) cl hcl

set_option maxRecDepth 100000 in
theorem gate_semantics_witness :
    fits_table (spec_of 3 2 136) ∧ valid_sel (spec_of 3 2 136) 1 1 2 4 ∧
      ∃ r e' news,
        tt_body (spec_of 3 2 136) 0 1 1 2 4 (true, prepared (spec_of 3 2 136) fun _ => false)
          = .ok (r, e') ∧
        e'.solver.clauses = (prepared (spec_of 3 2 136) fun _ => false).solver.clauses ++ news ∧
        (cnf_sat (fun v => decide (v = 10 ∨ v = 18)) news = true ↔
          (fun v => decide (v = 10 ∨ v = 18))
              (get_sim_var (prepared (spec_of 3 2 136) fun _ => false) (spec_of 3 2 136) 1 0)
            = maj_op 0
                (signal_value (spec_of 3 2 136) (prepared (spec_of 3 2 136) fun _ => false)
                  (fun v => decide (v = 10 ∨ v = 18)) 0 1)
                (signal_value (spec_of 3 2 136) (prepared (spec_of 3 2 136) fun _ => false)
                  (fun v => decide (v = 10 ∨ v = 18)) 0 2)
                (signal_value (spec_of 3 2 136) (prepared (spec_of 3 2 136) fun _ => false)
                  (fun v => decide (v = 10 ∨ v = 18)) 0 4)) := by
  have hfit : fits_table (spec_of 3 2 136) := by simp [fits_table, spec_of]
  have hv : valid_sel (spec_of 3 2 136) 1 1 2 4 := by simp [valid_sel, spec_of]
  exact ⟨hfit, hv,
    gate_semantics (spec_of 3 2 136) (prepared (spec_of 3 2 136) fun _ => false)
      (fun v => decide (v = 10 ∨ v = 18)) 0 1 1 2 4 0 hfit hv (by decide) (by decide)
      (Or.inr (fun _ _ => rfl)) (by decide) (by decide)⟩

/-! ### One clause per combination, symmetric-variable clauses -/

set_option maxRecDepth 1000000 in
/-- C24: a call for a wiring with the constant input submits its clause twice.  With
`nr_in = 3` and one step, the call of `add_simulation_clause` for row `t = 0`, wiring
`(0, 1, 2)` and `(a, b, c, d) = (0, 0, 1, 0)` leaves two copies of the clause
`[1, 16, 8, 12]` in the solver, which held none (lines 249 and 250); `create_tt_clauses` for
row 0 makes 60 invocations, of which 13 are not skipped, and adds 24 clauses. -/
theorem zero_wiring_clause_twice :
    run_clauses (add_simulation_clause (spec3 136) 0 0 0 1 2 0 0 1 0
        (prepared (spec3 136) fun _ => false)) = some (true, [[1, 16, 8, 12], [1, 16, 8, 12]]) ∧
    (prepared (spec3 136) fun _ => false).solver.clauses = [] ∧
    (run_calls (create_tt_clauses (spec3 136) 0 (prepared (spec3 136) fun _ => false))).map
      (fun L => (L.length, (L.filter fun x =>
        (call_pLits (spec3 136) (prepared (spec3 136) fun _ => false) x).isSome).length))
      = some (60, 13) ∧
    (run_clauses (create_tt_clauses (spec3 136) 0 (prepared (spec3 136) fun _ => false))).map
      (fun r => r.2.length) = some 24 := by
  decide

set_option maxRecDepth 1000000 in
/-- C21: the symmetric-variable clauses do not enforce the pruning.  With `nr_in = 4`, two
steps and the target `x1 ∧ (x3 ∨ x4)` (truth table 43680), symmetric in the inputs
`p = 3`, `q = 4` only, `create_symvar_clauses` returns true after submitting five clauses
for step 1.  Each ends with three literals read from `svars[0][jp][kp][5]`, entries that
`create_variables` never wrote (`lp` runs to `nr_in + i`, not to `nr_in + ip`); on the zeroed
table they are the literal of variable 0 (`S[0][0][1][2]`).  The assignment in which exactly
the variables 0 and 16 (`S[1][1][2][4]`) are true satisfies all five clauses, although the
wiring `(1, 2, 4)` of step 1 contains `q` and not `p` and no valid wiring of step 0 with a
true selection variable contains `p`.  The clauses with the heads 37 and 39 are emitted for
the wirings `(1, 3, 4)` and `(2, 3, 4)`, which contain `p` (only `j == p` is tested). -/
theorem symvar_pruning_not_enforced :
    symm (spec_of 4 2 43680) 3 4 = true ∧
    (symm (spec_of 4 2 43680) 1 2 || symm (spec_of 4 2 43680) 1 3 ||
      symm (spec_of 4 2 43680) 2 3 || symm (spec_of 4 2 43680) 1 4 ||
      symm (spec_of 4 2 43680) 2 4) = false ∧
    symvar_clauses (spec_of 4 2 43680)
      = some (true, [[33, 6, 16, 18, 0, 0, 0], [37, 6, 16, 18, 0, 0, 0],
          [39, 6, 16, 18, 0, 0, 0], [55, 6, 16, 18, 0, 0, 0], [57, 6, 16, 18, 0, 0, 0]]) ∧
    (prepared (spec_of 4 2 43680) fun _ => false).svars 1 1 2 4 = 16 ∧
    (prepared (spec_of 4 2 43680) fun _ => false).svars 0 0 1 2 = 0 ∧
    (prepared (spec_of 4 2 43680) fun _ => false).svars 0 1 3 5 = 0 ∧
    ¬ valid_sel (spec_of 4 2 43680) 0 1 3 5 ∧
    cnf_sat symvar_model
      [[33, 6, 16, 18, 0, 0, 0], [37, 6, 16, 18, 0, 0, 0], [39, 6, 16, 18, 0, 0, 0],
       [55, 6, 16, 18, 0, 0, 0], [57, 6, 16, 18, 0, 0, 0]] = true ∧
    symvar_model ((prepared (spec_of 4 2 43680) fun _ => false).svars 1 1 2 4) = true ∧
    (∀ w ∈ wirings 4 0,
      symvar_model ((prepared (spec_of 4 2 43680) fun _ => false).svars 0 w.1 w.2.1 w.2.2) = true →
      w.1 ≠ 3 ∧ w.2.1 ≠ 3 ∧ w.2.2 ≠ 3) ∧
    Abc_Var2Lit ((prepared (spec_of 4 2 43680) fun _ => false).svars 1 1 3 4) 1 = 37 ∧
    Abc_Var2Lit ((prepared (spec_of 4 2 43680) fun _ => false).svars 1 2 3 4) 1 = 39 := by
  refine ⟨by decide, by decide, by decide, by decide, by decide, by decide, ?_, by decide,
    by decide, by decide, by decide, by decide⟩
  simp [valid_sel, spec_of]

theorem encode_clauses_closed (spec : spec) (h3 : 3 ≤ spec.nr_in)
    (hcap : spec.nr_in + spec.nr_steps ≤ 10) :
    encode_clauses spec
      = (main_calls spec).flatMap (call_clauses spec (prepared spec fun _ => false)) ++
        ((List.range spec.tt_size).map fun t =>
          [output_sim_lit spec (prepared spec fun _ => false) t]) ++
        (List.range spec.nr_steps).map (fanin_clause (prepared spec fun _ => false) spec.nr_in) := by
  have hfit : fits_table spec := ⟨by omega, by omega⟩
  obtain ⟨e1, hcv, hcl, hpre⟩ := encode_head_eq spec (fresh fun _ => false) h3 hfit
    (Or.inr (fun _ _ => rfl))
  have hprep : prepared spec (fun _ => false) = e1 := by
    unfold prepared
    rw [hcv]
  have henc : ∃ b, encode spec (fresh fun _ => false)
      = .ok (b, with_clauses (before_fanin spec e1)
        ((List.range spec.nr_steps).map (fanin_clause (before_fanin spec e1) spec.nr_in))) := by
    rw [encode_split, hpre]
    simp only [bind, Except.bind]
    rw [create_fanin_clauses_eq spec _ (Or.inr hcap)]
    simp only []
    split
    · exact ⟨false, rfl⟩
    · exact ⟨true, rfl⟩
  obtain ⟨b, henc⟩ := henc
  have hnil : e1.solver.clauses = [] := by rw [hcl]; rfl
  unfold encode_clauses
  rw [henc, hprep]
  simp only [with_clauses, before_fanin, after_calls, hnil, List.nil_append, List.append_assoc]
  rfl

set_option maxRecDepth 1000000 in
set_option maxHeartbeats 4000000 in
/-- C19 fails as stated.  With `nr_in = 4`, one step and the target `MAJ(x1, x2, x3)` (truth
table 59624), the assignment `two_sel_model` satisfies every clause emitted by `encode` and
makes two selection variables of step 0 true, `S[0][1][2][3]` (variable 3) and
`S[0][1][2][4]` (variable 6). -/
theorem two_selections_satisfiable :
    cnf_sat two_sel_model (encode_clauses (spec_of 4 1 59624)) = true ∧
    (prepared (spec_of 4 1 59624) fun _ => false).svars 0 1 2 3 = 3 ∧
    (prepared (spec_of 4 1 59624) fun _ => false).svars 0 1 2 4 = 6 ∧
    two_sel_model 3 = true ∧ two_sel_model 6 = true := by
  refine ⟨?_, by decide!, by decide!, by decide!, by decide!⟩
  rw [encode_clauses_closed (spec_of 4 1 59624) (by decide) (by decide), cnf_sat_append,
    cnf_sat_append]
  refine ⟨⟨by decide!, by decide!⟩, by decide!⟩

end percy
